import Mathlib

/-!
# Security system and code entry (ATmega2560): verification development

Two firmware variants are embedded:

* `Lcd`: `src/main.c` with `LCD.h`, `LCDScroll.h` and the edge-triggered
  `With LCD Screen.../Keypad.h`;
* `Seg`: `With 4 Digit 7 Seg Display.../main.c` (polling keypad, 4 digit display).

Global variables become fields of a state record, every C function becomes a
function on that record.  The environment is part of the state: the keys that
`getNewKey` will deliver (LCD variant), the interrupt events still to come
(7-segment variant).  A function that busy-waits returns `none` when the
environment never delivers what it waits for; loops that are not bounded by
the program text take a `fuel` argument and return `none` when it runs out.
Time is not modelled: `_delay_ms` and `_delay_us` leave the state alone.
-/

/-- A C array `int a[4]` (used for `pin`, `unlockPIN` and `digits`). -/
structure Arr4 where
  a0 : Int
  a1 : Int
  a2 : Int
  a3 : Int
deriving DecidableEq, Repr

/-- Read `a[i]`; an index outside `0..3` is outside the array and reads as `0` here. -/
def Arr4.get (a : Arr4) (i : Int) : Int :=
  if i = 0 then a.a0 else if i = 1 then a.a1 else if i = 2 then a.a2
  else if i = 3 then a.a3 else 0

/-- Store `a[i] = v`; a store outside `0..3` does not touch the array itself. -/
def Arr4.set (a : Arr4) (i : Int) (v : Int) : Arr4 :=
  if i = 0 then { a with a0 := v } else if i = 1 then { a with a1 := v }
  else if i = 2 then { a with a2 := v } else if i = 3 then { a with a3 := v } else a

/-- Conversion `int -> char` of `c = v` (low eight bits). -/
def toChar (v : Int) : Char := Char.ofNat (v % 256).toNat

/-- The characters of a C string held in a buffer: everything before the first NUL. -/
def cstr (buf : List Char) : List Char := buf.takeWhile (fun c => c != Char.ofNat 0)

namespace Lcd

/-- What the main control flow sends to the LCD controller. -/
inductive LcdOp where
  /-- The call `LCD_write_instruction(LCD_4bit_cursorSET | LineOneStart)` (row 0) or
  `LCD_write_instruction(LCD_4bit_cursorSET | LineTwoStart)` (row 1). -/
  | cursor (row : Nat)
  /-- The call `LCD_write_char(c)`. -/
  | char (c : Char)
deriving DecidableEq, Repr

/-- The instruction selected by `if(*LCDLine == 0) ... else ...` in `LCD_write_str`. -/
def cursorFor (line : Nat) : LcdOp := LcdOp.cursor (if line = 0 then 0 else 1)

/-- The `while(arr[i] != 0)` loop of `LCD_write_str` (LCD.h 213-234), run on the
characters still to be written, with the wrapping counter `count` and `*LCDLine`. -/
def LCD_write_str_loop : List Char → Nat → Nat → List LcdOp × Nat
  | [], _, line => ([], line)
  | c :: rest, count, line =>
    if rest ≠ [] ∧ count + 1 > 15 then
      let r := LCD_write_str_loop rest 0 (line ^^^ 1)
      (LcdOp.char c :: cursorFor (line ^^^ 1) :: r.1, r.2)
    else
      let r := LCD_write_str_loop rest (count + 1) line
      (LcdOp.char c :: r.1, r.2)

/-- Function `LCD_write_str(arr, LCDLine)` (LCD.h 199-237): the operations issued and the
final value of `*LCDLine`. -/
def LCD_write_str (arr : List Char) (line : Nat) : List LcdOp × Nat :=
  let r := LCD_write_str_loop (cstr arr) 0 line
  (cursorFor line :: r.1, r.2 ^^^ 1)

/-- Function `LCD_clear_line(line)` (LCD.h 248-252). -/
def LCD_clear_line (line : Nat) : List LcdOp × Nat :=
  let r := LCD_write_str "                ".toList line
  (r.1, r.2 ^^^ 1)

/-- Function `blinkMsg(str)` (main.c 110-134): the operations issued (delays carry no state). -/
def blinkOnce (str : List Char) : List LcdOp :=
  let c1 := LCD_clear_line 1
  let c2 := LCD_clear_line 0
  let w := LCD_write_str str c2.2
  let c3 := LCD_clear_line 1
  let c4 := LCD_clear_line 0
  c1.1 ++ c2.1 ++ w.1 ++ c3.1 ++ c4.1

/-- Function `blinkMsg(str)`: three rounds of `blinkOnce`. -/
def blinkMsg (str : List Char) : List LcdOp :=
  blinkOnce str ++ blinkOnce str ++ blinkOnce str

/-- A store into an array of the main flow: the array and the index.  The arrays are the
globals `pin[4]` and `unlockPIN[4]` and the locals `char dispPIN[17]` of `enterCode`,
`char message[18]` of `succPIN` and `char msg[13]` of `disAlarm`. -/
inductive Store where
  | pin (i : Nat)
  | unlockPIN (i : Nat)
  | dispPIN (i : Nat)
  | message (i : Nat)
  | msg (i : Nat)
deriving DecidableEq, Repr

/-- Globals of the LCD variant (`main.c` 72-76, `Keypad.h` 43-44, `LCDScroll.h` 23-24),
the two timer 3 registers the main flow writes, the log of LCD operations issued by the
main flow, and the keys that `getNewKey` will deliver, in order.  `scrollCounter`, `TCNT3`
and the LCD are also touched by `ISR(TIMER3_OVF_vect)` while a scroll runs; the fields hold
what the main flow last wrote.

Two fields stand for memory next to the local arrays.  `behind` records, in order, every
store the main flow has made at an index behind the last element of a local array; what
such a store overwrites is not known, and the functions below go on as if it had
overwritten nothing they use, so a result reached with a longer `behind` than before is a
result of the model only.  `menuTail` is what a read finds behind the array `str[32]` of
`displayMenu`, which holds no terminator. -/
structure Sys where
  pin : Arr4
  unlockPIN : Arr4
  alarmEnable : Int
  PINset : Int
  pressedKey : Int
  newKeyInput : Int
  scrollStr : List Char
  scrollCounter : Int
  TCCR3B : Nat
  TCNT3 : Nat
  lcd : List LcdOp
  keys : List Nat
  behind : List Store
  menuTail : List Char
deriving DecidableEq, Repr

/-- Append operations to the LCD log. -/
def Sys.emit (s : Sys) (ops : List LcdOp) : Sys := { s with lcd := s.lcd ++ ops }

/-- A store at index `i` of a local array of `size` elements: recorded in `behind` when the
index lies behind the array. -/
def Sys.storeAt (s : Sys) (size i : Nat) (st : Store) : Sys :=
  if i < size then s else { s with behind := s.behind ++ [st] }

/-- Function `getNewKey()` (Keypad.h 231-238): `waitForKeypadClear` resets `pressedKey` and
`newKeyInput`, then the loop `while(pressedKey == -1)` is left once a column ISR has
stored a key code (a value of the table `keyPressed`, `0..15`) and set `newKeyInput`. -/
def getNewKey (s : Sys) : Option Sys :=
  match s.keys with
  | [] => none
  | k :: rest => some { s with pressedKey := (k : Int), newKeyInput := 1, keys := rest }

/-- Function `startScrollStr(str)` (LCDScroll.h 102-110). -/
def startScrollStr (str : List Char) (s : Sys) : Sys :=
  { s with scrollStr := cstr str, TCCR3B := 4, TCNT3 := (65536 - 1) % 65536 }

/-- Function `stopScrollStr()` (LCDScroll.h 120-127); the mask `!(...)` is the logical
negation of a non-zero constant, that is `0`. -/
def stopScrollStr (s : Sys) : Sys :=
  { s with TCCR3B := s.TCCR3B &&& 0, scrollCounter := 0 }

/-- Function `err()` (main.c 142-146). -/
def err (s : Sys) : Sys := s.emit (blinkMsg "Error".toList)

/-- The `for(int i = 0; i < 17; i++)` loop of `enterCode` (main.c 203-237); `n` is the number
of iterations left, `i` the loop index, `dispPIN` the local buffer `char dispPIN[17]`.
The result is the final value of `errr` (initially 1, cleared only by a hash at `i == 4`).
The stores `dispPIN[i]` and `dispPIN[i + 1]` (lines 231-232) go through `storeAt`: at
`i = 16` the second one is behind the array and is recorded. -/
def enterCodeLoop (changePIN : Int) : Nat → Nat → List Char → Sys → Option (Int × Sys)
  | 0, _, _, s => some (1, s)
  | n + 1, i, dispPIN, s =>
    match getNewKey s with
    | none => none
    | some s1 =>
      let newKey := s1.pressedKey
      if newKey = 0xE then
        some (if i = 4 then 0 else 1, s1)
      else if newKey > 9 then
        some (1, s1)
      else
        let s2 :=
          if i < 4 then
            if changePIN = 1 then { s1 with pin := s1.pin.set i newKey }
            else { s1 with unlockPIN := s1.unlockPIN.set i newKey }
          else s1
        let buf := (dispPIN.set i (toChar (newKey + 0x30))).set (i + 1) (Char.ofNat 0)
        let s3 := (s2.storeAt 17 i (Store.dispPIN i)).storeAt 17 (i + 1) (Store.dispPIN (i + 1))
        enterCodeLoop changePIN n (i + 1) buf (s3.emit (LCD_write_str buf 1).1)

/-- The prompt written by `enterCode` before its loop (main.c 194-199). -/
def enterPrompt : List LcdOp :=
  let c1 := LCD_clear_line 0
  let w := LCD_write_str "Enter PIN:".toList c1.2
  let c2 := LCD_clear_line 1
  c1.1 ++ w.1 ++ c2.1

/-- Function `enterCode(changePIN)` (main.c 187-239). -/
def enterCode (changePIN : Int) (s : Sys) : Option (Int × Sys) :=
  enterCodeLoop changePIN 17 0 (List.replicate 17 (Char.ofNat 0)) (s.emit enterPrompt)

/-- The characters `succPIN` reads as its message after main.c 255-263: the 18 elements of
`char message[18]` and the two characters stored behind it at indices 18 and 19 (these two
stores are recorded by `succStores`). -/
def succMessage (pin : Arr4) : List Char :=
  "You entered: ".toList ++
    [toChar (pin.a0 + 0x30), toChar (pin.a1 + 0x30), toChar (pin.a2 + 0x30),
     toChar (pin.a3 + 0x30), Char.ofNat 32, Char.ofNat 32, Char.ofNat 0]

/-- The second line of the confirmation prompt (main.c 271-273). -/
def succPrompt : List LcdOp := (LCD_write_str "1=OK, 2=New Pin".toList 1).1

/-- The stores `message[13]` to `message[19]` of `succPIN` (main.c 257-263) into
`char message[18]`: those at indices 18 and 19 are behind the array. -/
def succStores (s : Sys) : Sys :=
  ((((((s.storeAt 18 13 (Store.message 13)).storeAt 18 14 (Store.message 14)).storeAt 18 15
    (Store.message 15)).storeAt 18 16 (Store.message 16)).storeAt 18 17
    (Store.message 17)).storeAt 18 18 (Store.message 18)).storeAt 18 19 (Store.message 19)

/-- Function `succPIN()` (main.c 250-287); `fuel` bounds the recursion depth. -/
def succPIN : Nat → Sys → Option (Int × Sys)
  | 0, _ => none
  | fuel + 1, s =>
    let s1 := (startScrollStr (succMessage s.pin) (succStores s)).emit succPrompt
    match getNewKey s1 with
    | none => none
    | some s2 =>
      let confirm := s2.pressedKey
      if confirm < 1 ∨ confirm > 2 then succPIN fuel (err s2)
      else some (confirm - 1, stopScrollStr s2)

/-- First loop of `start()` (main.c 159-161): wait for key A or C. -/
def startWait : Nat → Sys → Option Sys
  | 0, _ => none
  | fuel + 1, s =>
    if s.pressedKey = 0xA ∨ s.pressedKey = 0xC then some s
    else
      match getNewKey s with
      | none => none
      | some s1 => startWait fuel s1

/-- Second loop of `start()` (main.c 164-172), entered with `confirm = 1`. -/
def startConfirm : Nat → Sys → Option Sys
  | 0, _ => none
  | fuel + 1, s =>
    match enterCode 1 s with
    | none => none
    | some (r, s1) =>
      if r = 0 then
        match succPIN fuel s1 with
        | none => none
        | some (confirm, s2) =>
          let s3 := { s2 with PINset := 1 }
          if confirm ≠ 0 then startConfirm fuel s3 else some s3
      else startConfirm fuel (err s1)

/-- Function `start()` (main.c 155-174). -/
def start (fuel : Nat) (s : Sys) : Option Sys :=
  match startWait fuel s with
  | none => none
  | some s1 => startConfirm fuel (stopScrollStr s1)

/-- The message `enAlarm` writes (main.c 302-307). -/
def armedMsg : List LcdOp :=
  let c1 := LCD_clear_line 1
  let c2 := LCD_clear_line 0
  c1.1 ++ c2.1 ++ (LCD_write_str "System Armed".toList c2.2).1

/-- Function `enAlarm()` (main.c 295-315). -/
def enAlarm (fuel : Nat) (s : Sys) : Option Sys :=
  if s.PINset = 1 then some ({ s with alarmEnable := 1 }.emit armedMsg)
  else start fuel { s with pressedKey := 0xA }

/-- Two cleared lines, as written at main.c 334-337 and 369-372. -/
def clearBoth : List LcdOp × Nat :=
  let c1 := LCD_clear_line 1
  let c2 := LCD_clear_line 0
  (c1.1 ++ c2.1, c2.2)

/-- The loop of `disAlarm` comparing `pin` with `unlockPIN` (main.c 352-356). -/
def pinMismatch (s : Sys) : Int :=
  let f := fun (acc : Int) (i : Int) => if s.pin.get i ≠ s.unlockPIN.get i then 1 else acc
  f (f (f (f 0 0) 1) 2) 3

/-- The call `strcpy(msg, "System not armed")` of `disAlarm` (main.c 339) into
`char msg[13]`: the 16 characters and the terminator are stored at indices 0 to 16, those
from 13 on behind the array. -/
def notArmedStores (s : Sys) : Sys :=
  (((s.storeAt 13 13 (Store.msg 13)).storeAt 13 14 (Store.msg 14)).storeAt 13 15
    (Store.msg 15)).storeAt 13 16 (Store.msg 16)

/-- Function `disAlarm()` (main.c 325-378).  In the branch for a disarmed system the
operations listed are those for the whole string "System not armed", as read back from
`msg` and the four elements behind it; the strings "Wrong PIN" and "Success" fit `msg`. -/
def disAlarm (fuel : Nat) (s : Sys) : Option Sys :=
  if s.alarmEnable = 0 then
    some ((notArmedStores (s.emit clearBoth.1)).emit (blinkMsg "System not armed".toList))
  else
    match enterCode 0 s with
    | none => none
    | some (er, s1) =>
      if er = 1 then enAlarm fuel s1
      else if pinMismatch s1 = 1 then
        enAlarm fuel (s1.emit (blinkMsg "Wrong PIN".toList))
      else
        some ({ s1 with alarmEnable := 0 }.emit
          (clearBoth.1 ++ (LCD_write_str "Success".toList clearBoth.2).1))

/-- Function `displayMenu()` (main.c 425-439).  The array `str[32]` holds the 32 characters
without a terminating NUL, so `LCD_write_str` reads on behind the array: the operations are
those for the 32 characters followed by what lies behind them, up to the first NUL. -/
def displayMenu (s : Sys) : List LcdOp :=
  clearBoth.1 ++
    (LCD_write_str ("A:Arm  D:Disarm C:Change Pin Num".toList ++ s.menuTail) clearBoth.2).1

/-- Function `selection()` (main.c 387-416). -/
def selection (fuel : Nat) (s : Sys) : Option Sys :=
  if s.PINset = 0 then
    (start fuel s).map (fun t => { t with pressedKey := -1 })
  else
    match getNewKey (s.emit (displayMenu s)) with
    | none => none
    | some s1 =>
      if s1.pressedKey = 0xC then
        (enterCode 1 s1).map (fun r => { r.2 with pressedKey := -1 })
      else if s1.pressedKey = 0xA then
        (enAlarm fuel s1).map (fun t => { t with pressedKey := -1 })
      else if s1.pressedKey = 0xD then
        (disAlarm fuel s1).map (fun t => { t with pressedKey := -1 })
      else some s1

/-- State when `main` enters its forever loop (main.c 72-76, 88-91), for a given future
key sequence; no store behind an array has been made, and a NUL lies directly behind the
array of `displayMenu`. -/
def init (keys : List Nat) : Sys :=
  startScrollStr "System Setup    ".toList
    { pin := ⟨-1, 0, 0, 0⟩, unlockPIN := ⟨-2, 0, 0, 0⟩, alarmEnable := 0, PINset := 0,
      pressedKey := -1, newKeyInput := 0, scrollStr := [], scrollCounter := 0,
      TCCR3B := 0, TCNT3 := 0, lcd := [], keys := keys, behind := [], menuTail := [] }

/-- States at the top of the forever loop of `main`: the initial one, for any key sequence
and any content of the memory behind the array of `displayMenu`, and those any number of
returning `selection()` calls lead to. -/
inductive Reachable : Sys → Prop where
  | start (keys : List Nat) (tail : List Char) : Reachable { init keys with menuTail := tail }
  | step (fuel : Nat) (s t : Sys) : Reachable s → selection fuel s = some t → Reachable t

/-- The state of a result without a value, `s` when there is none. -/
def sysOf (r : Option Sys) (s : Sys) : Sys :=
  match r with
  | some t => t
  | none => s

/-- The state component of a result, `s` when there is none. -/
def stateOf (r : Option (Int × Sys)) (s : Sys) : Sys :=
  match r with
  | some p => p.2
  | none => s

end Lcd

namespace Seg

/-- What the interrupt handlers do to the globals while the main flow busy-waits. -/
inductive Ev where
  /-- A run of `checkNumPad` (TIMER0 tick) that reads all four columns idle:
  `keypadClear = 1` (main.c 535). -/
  | idle
  /-- A run of `checkNumPad` that reads a pressed column: `keypadClear = 0` and
  `input = readNumPad()` (main.c 538-541); `k` is the value `readNumPad` returns. -/
  | key (k : Int)
  /-- The timed wait in progress ends: timer 3 overflows (`ISR(TIMER3_OVF_vect)`) or a
  `_delay_ms` runs out. -/
  | elapsed
deriving DecidableEq, Repr

/-- Globals of the 7-segment variant (main.c 84-95), the four timer registers written by the
main flow, the history `shown` of the values given to `digits`, the record `stores` of the
stores `fillPIN` has made, and the interrupt events still to come.  `TCNT1` and `TCNT3` hold
the value last loaded (the hardware counts on from it); port writes and the blinking of
`displayOff` by `ISR(TIMER1_OVF_vect)` are not tracked.  An entry `(a, i, v)` of `stores`
stands for the store of `v` at index `i` of `pin` (`a = 1`) or `unlockPIN` (`a = 0`),
whether or not `i` is an index of the array. -/
structure Sys where
  pin : Arr4
  unlockPIN : Arr4
  input : Int
  timer3Finish : Int
  displayOff : Int
  keypadClear : Int
  alarmEnable : Int
  PINset : Int
  digits : Arr4
  TCCR1B : Nat
  TCNT1 : Nat
  TCCR3B : Nat
  TCNT3 : Nat
  shown : List Arr4
  stores : List (Int × Int × Int)
  evs : List Ev
deriving DecidableEq, Repr

/-- Function `decodeChar(c)` (main.c 267-304). -/
def decodeChar (c : Char) : Int :=
  if c = 'a' ∨ c = 'A' then 10
  else if c = 'c' ∨ c = 'C' then 11
  else if c = 'd' ∨ c = 'D' then 12
  else if c = 'e' ∨ c = 'E' then 13
  else if c = 'i' ∨ c = 'I' then 14
  else if c = 'l' ∨ c = 'L' then 15
  else if c = 'p' ∨ c = 'P' then 16
  else if c = 'r' ∨ c = 'R' then 17
  else if c = 's' ∨ c = 'S' then 18
  else if c = 'u' ∨ c = 'U' then 19
  else 20

/-- Assign all four entries of `digits` and record the new value in `shown`. -/
def setDigits (d : Arr4) (s : Sys) : Sys := { s with digits := d, shown := s.shown ++ [d] }

/-- Function `setEnterCode()` (main.c 312-318). -/
def setEnterCode (s : Sys) : Sys :=
  setDigits ⟨decodeChar 'e', decodeChar 'c', decodeChar 'd', decodeChar 'e'⟩ s

/-- Function `setSuccess()` (main.c 326-332). -/
def setSuccess (s : Sys) : Sys :=
  setDigits ⟨decodeChar 's', decodeChar 'u', decodeChar 'c', decodeChar 'c'⟩ s

/-- Function `setAlarm()` (main.c 340-346). -/
def setAlarm (s : Sys) : Sys :=
  setDigits ⟨decodeChar 'a', decodeChar 'l', decodeChar 'a', decodeChar 'r'⟩ s

/-- Function `setError()` (main.c 354-360). -/
def setError (s : Sys) : Sys :=
  setDigits ⟨decodeChar 'e', decodeChar 'r', decodeChar 'r', 21⟩ s

/-- Function `setEnterPIN()` (main.c 368-374). -/
def setEnterPIN (s : Sys) : Sys :=
  setDigits ⟨decodeChar 'e', decodeChar 'r', decodeChar 'p', decodeChar 'i'⟩ s

/-- Function `setStart()` (main.c 382-387). -/
def setStart (s : Sys) : Sys := setDigits ⟨20, 20, 20, 20⟩ s

/-- Function `setPIN()` (main.c 395-400). -/
def setPIN (s : Sys) : Sys := setDigits ⟨s.pin.a0, s.pin.a1, s.pin.a2, s.pin.a3⟩ s

/-- Function `setTimer3(t)` (main.c 411-420); the reload is `65536 - (int)(t * 16000.0 / 256.0)`
as stored in the 16 bit register (`t` is 500 or 1000 in every call). -/
def setTimer3 (t : Int) (s : Sys) : Sys :=
  { s with timer3Finish := 0, TCCR3B := 4,
           TCNT3 := ((65536 - (t * 16000) / 256) % 65536).toNat }

/-- Function `disableTimer1()` (main.c 428-432). -/
def disableTimer1 (s : Sys) : Sys :=
  { s with TCCR1B := s.TCCR1B &&& 0xF8, displayOff := 0 }

/-- Function `enableTimer1Blink500()` (main.c 443-449). -/
def enableTimer1Blink500 (s : Sys) : Sys :=
  { s with TCCR1B := s.TCCR1B ||| 4, TCNT1 := 65536 - (500 * 16000) / 256 }

/-- Effect of one interrupt event on the globals (`checkNumPad`, main.c 523-544). -/
def applyEv : Ev → Sys → Sys
  | Ev.idle, s => { s with keypadClear := 1 }
  | Ev.key k, s => { s with keypadClear := 0, input := k }
  | Ev.elapsed, s => s

/-- A call `_delay_ms(...)`: keypad ticks go on until the delay has run out. -/
def delayFrom : List Ev → Sys → Option Sys
  | [], _ => none
  | Ev.elapsed :: rest, s => some { s with evs := rest }
  | e :: rest, s => delayFrom rest (applyEv e s)

/-- A call `_delay_ms(...)` in state `s`. -/
def delay (s : Sys) : Option Sys := delayFrom s.evs s

/-- The loop `while(timer3Finish == 0) updateDisplay();`: it is left after
`ISR(TIMER3_OVF_vect)` (main.c 153-157) has set `timer3Finish` and stopped timer 3. -/
def timer3Wait (s : Sys) : Option Sys :=
  if s.timer3Finish = 0 then
    (delayFrom s.evs s).map
      (fun t => { t with timer3Finish := 1, TCCR3B := t.TCCR3B &&& 0xF8 })
  else some s

/-- One round of the loop of `err()` (main.c 462-468). -/
def errRound (s : Sys) : Option Sys :=
  (timer3Wait (setTimer3 500 s)).bind delay

/-- Function `err()` (main.c 457-471). -/
def err (s : Sys) : Option Sys :=
  ((((errRound { setError s with displayOff := 0 }).bind errRound).bind errRound).bind
    errRound).bind errRound

/-- Function `fillPIN(index, changePIN)` (main.c 703-735): return value and new state.  Each
of the four stores (lines 722, 724, 729, 731) is recorded in `stores` with its index and
value. -/
def fillPIN (index changePIN : Int) (s : Sys) : Int × Sys :=
  if s.input = -1 then (0, s)
  else if index > 4 then (1, s)
  else if index > 3 then (0, s)
  else if s.input > 0x9 ∧ s.input ≠ 0x10 then (2, s)
  else if changePIN = 1 then
    let s1 := setEnterCode s
    if s.input = 0x10 then
      (0, { s1 with pin := s1.pin.set index 0, stores := s1.stores ++ [(1, index, 0)] })
    else
      (0, { s1 with pin := s1.pin.set index s.input,
                    stores := s1.stores ++ [(1, index, s.input)] })
  else
    let s1 := setEnterPIN s
    if s.input = 0x10 then
      (0, { s1 with unlockPIN := s1.unlockPIN.set index 0,
                    stores := s1.stores ++ [(0, index, 0)] })
    else
      (0, { s1 with unlockPIN := s1.unlockPIN.set index s.input,
                    stores := s1.stores ++ [(0, index, s.input)] })

/-- The loop `while(keypadClear == 1) updateDisplay();` of `succPIN` (main.c 770-772). -/
def waitKeyDown : List Ev → Sys → Option Sys
  | [], s => if s.keypadClear = 1 then none else some { s with evs := [] }
  | e :: rest, s =>
    if s.keypadClear = 1 then waitKeyDown rest (applyEv e s)
    else some { s with evs := e :: rest }

/-- Function `succPIN()` (main.c 744-776). -/
def succPIN (s : Sys) : Option Sys :=
  let s0 := { setPIN s with displayOff := 0 }
  (((((((timer3Wait (setTimer3 1000 s0)).bind (fun t => timer3Wait (setTimer3 1000 t))).bind
    delay).bind (fun t => timer3Wait (setTimer3 500 t))).bind delay).map setSuccess).bind
    (fun t => waitKeyDown t.evs t)).map (fun t => { t with PINset := 1 })

/-- The two `if` statements in the body of the loop `while(input != 0xE)` of `enterCode`
(main.c 651-667), on the locals `next`, `index`, `errr`. -/
def entryBody (changePIN next index errr : Int) (s : Sys) : Int × Int × Int × Sys :=
  let next1 := if s.keypadClear = 1 then 1 else next
  if s.keypadClear = 0 ∧ next1 = 1 then
    let r := fillPIN index changePIN s
    (0, index + 1, r.1, r.2)
  else (next1, index, errr, s)

/-- The loop `while(input != 0xE)` of `enterCode` (main.c 647-668).  The main flow is fast
against the interrupts: an iteration whose two `if`s can act on the globals as they stand
does so; otherwise the iterations change nothing until the next interrupt event, which falls
into `updateDisplay()` and is seen by the two `if`s of that iteration.  `fuel` bounds the
number of iterations. -/
def entryLoop (changePIN : Int) : Nat → Int → Int → Int → Sys → Option (Int × Int × Int × Sys)
  | 0, _, _, _, _ => none
  | fuel + 1, next, index, errr, s =>
    if s.input ≠ 0xE then
      if (s.keypadClear = 1 ∧ next ≠ 1) ∨ (s.keypadClear = 0 ∧ next = 1) then
        let b := entryBody changePIN next index errr s
        entryLoop changePIN fuel b.1 b.2.1 b.2.2.1 b.2.2.2
      else
        match s.evs with
        | [] => none
        | e :: rest =>
          let b := entryBody changePIN next index errr (applyEv e { s with evs := rest })
          entryLoop changePIN fuel b.1 b.2.1 b.2.2.1 b.2.2.2
    else some (next, index, errr, s)

/-- The loop `while(finish != 1)` of `enterCode` (main.c 625-684) with the locals `strt` and
`next`, followed by lines 685-686. -/
def enterCodeLoop (changePIN : Int) : Nat → Int → Int → Sys → Option (Int × Sys)
  | 0, _, _, _ => none
  | fuel + 1, strt, next, s =>
    let s1 := { s with input := -1 }
    let s2 := if changePIN = 1 then setEnterCode s1 else setEnterPIN s1
    let index := if strt = 1 then -1 else 0
    match entryLoop changePIN fuel next index 0 (enableTimer1Blink500 s2) with
    | none => none
    | some (next1, index1, errr, s3) =>
      let s4 := disableTimer1 s3
      let errr1 := if index1 ≠ 5 then 1 else errr
      if errr1 ≠ 0 then
        match err s4 with
        | none => none
        | some s5 => if changePIN = 0 then some (1, s5) else enterCodeLoop changePIN fuel 0 next1 s5
      else (succPIN s4).map (fun t => (0, t))

/-- Function `enterCode(changePIN)` (main.c 618-687). -/
def enterCode (changePIN : Int) (fuel : Nat) (s : Sys) : Option (Int × Sys) :=
  enterCodeLoop changePIN fuel 1 1 s

/-- The loop of `start()` waiting for key A or C (main.c 595-598). -/
def startWait : List Ev → Sys → Option Sys
  | [], s => if s.input = 0xA ∨ s.input = 0xC then some { s with evs := [] } else none
  | e :: rest, s =>
    if s.input = 0xA ∨ s.input = 0xC then some { s with evs := e :: rest }
    else startWait rest (applyEv e s)

/-- Function `start()` (main.c 591-605). -/
def start (fuel : Nat) (s : Sys) : Option Sys :=
  match startWait s.evs (enableTimer1Blink500 (setStart s)) with
  | none => none
  | some s1 => (enterCode 1 fuel (disableTimer1 s1)).map (fun r => r.2)

/-- Function `enAlarm()` (main.c 784-793). -/
def enAlarm (fuel : Nat) (s : Sys) : Option Sys :=
  if s.PINset = 1 then some (setAlarm { s with alarmEnable := 1 })
  else (enterCode 1 fuel s).map (fun r => r.2)

/-- The loop of `disAlarm` comparing `pin` with `unlockPIN` (main.c 822-826). -/
def pinMismatch (s : Sys) : Int :=
  let f := fun (acc : Int) (i : Int) => if s.pin.get i ≠ s.unlockPIN.get i then 1 else acc
  f (f (f (f 0 0) 1) 2) 3

/-- Function `disAlarm()` (main.c 803-838). -/
def disAlarm (fuel : Nat) (s : Sys) : Option Sys :=
  if s.alarmEnable = 0 then (err s).map setSuccess
  else
    match enterCode 0 fuel s with
    | none => none
    | some (ex, s1) =>
      if ex = 1 then some (setAlarm s1)
      else if pinMismatch s1 = 1 then (err s1).map setAlarm
      else some { s1 with alarmEnable := 0, PINset := 0 }

/-- Function `selection()` (main.c 847-874). -/
def selection (fuel : Nat) (s : Sys) : Option Sys :=
  if s.PINset = 0 then (start fuel s).map (fun t => { t with input := -1 })
  else if s.input = 0xC then (enterCode 1 fuel s).map (fun r => { r.2 with input := -1 })
  else if s.input = 0xA then (enAlarm fuel s).map (fun t => { t with input := -1 })
  else if s.input = 0xD then (disAlarm fuel s).map (fun t => { t with input := -1 })
  else some s

/-- State when `main` enters its forever loop (main.c 84-95 and `init()`), for a given future
sequence of interrupt events. -/
def init (evs : List Ev) : Sys :=
  { pin := ⟨-1, 0, 0, 0⟩, unlockPIN := ⟨-2, 0, 0, 0⟩, input := 0, timer3Finish := 0,
    displayOff := 0, keypadClear := 1, alarmEnable := 0, PINset := 0,
    digits := ⟨20, 20, 20, 20⟩, TCCR1B := 0, TCNT1 := 0, TCCR3B := 0, TCNT3 := 0,
    shown := [], stores := [], evs := evs }

/-- The state of a result, `s` when there is none. -/
def sysOf (r : Option Sys) (s : Sys) : Sys :=
  match r with
  | some t => t
  | none => s

/-- The flags `alarmEnable` and `PINset` agree in `s` and `t`. -/
def sameFlags (s t : Sys) : Prop := t.alarmEnable = s.alarmEnable ∧ t.PINset = s.PINset

/-- States at the top of the forever loop of `main` (main.c 114-117): the initial one, those
reached when an interrupt event falls between two iterations, and those a returning
`selection()` call leads to. -/
inductive Reachable : Sys → Prop where
  | start (evs : List Ev) : Reachable (init evs)
  | tick (s : Sys) (e : Ev) (rest : List Ev) :
      Reachable s → s.evs = e :: rest → Reachable (applyEv e { s with evs := rest })
  | step (fuel : Nat) (s t : Sys) : Reachable s → selection fuel s = some t → Reachable t

/-- The forever loop of `main` lets the next pending interrupt event happen between two calls
of `selection`. -/
def tick (s : Sys) : Sys :=
  match s.evs with
  | [] => s
  | e :: rest => applyEv e { s with evs := rest }

/-- Five timed waits running out. -/
def holds5 : List Ev := [Ev.elapsed, Ev.elapsed, Ev.elapsed, Ev.elapsed, Ev.elapsed]

/-- A session from reset: A; 5 0 0 0 # (key 0 has code 16) and the timed waits of `succPIN`;
key 1 to leave the success display; A (arm); D; 5 A A A # and the timed waits of `succPIN`;
key 1.  Every key is released (an idle tick) before the next one. -/
def sessionDisarm : List Ev :=
  [Ev.key 10, Ev.idle, Ev.key 5, Ev.idle, Ev.key 16, Ev.idle, Ev.key 16, Ev.idle, Ev.key 16,
   Ev.idle, Ev.key 14, Ev.idle] ++ holds5 ++
  [Ev.key 1, Ev.idle, Ev.key 10, Ev.idle, Ev.key 13, Ev.idle, Ev.key 5, Ev.idle, Ev.key 10,
   Ev.idle, Ev.key 10, Ev.idle, Ev.key 10, Ev.idle, Ev.key 14, Ev.idle] ++ holds5 ++ [Ev.key 1]

/-- State after the first `selection` call of `sessionDisarm`: PIN 5000 stored. -/
def afterSetup : Sys := sysOf (selection 40 (init sessionDisarm)) (init [])

/-- State after key A and the second `selection` call: armed. -/
def afterArm : Sys := sysOf (selection 40 (tick (tick afterSetup))) (init [])

/-- State when key D has been pressed and is held: `selection` is about to call `disAlarm`. -/
def beforeDisarm : Sys := tick (tick afterArm)

/-- A session from reset: A; then A 1 2 3 # and the timed waits of `succPIN`; key 5. -/
def sessionBadPin : List Ev :=
  [Ev.key 10, Ev.idle, Ev.key 10, Ev.idle, Ev.key 1, Ev.idle, Ev.key 2, Ev.idle, Ev.key 3,
   Ev.idle, Ev.key 14, Ev.idle] ++ holds5 ++ [Ev.key 5]

/-- State when key A has been pressed after reset and is held, with the presses
1 2 3 A # to come (and the timed waits of `succPIN`, and key 5). -/
def heldTrigger : Sys :=
  tick (init ([Ev.key 10, Ev.idle, Ev.key 1, Ev.idle, Ev.key 2, Ev.idle, Ev.key 3, Ev.idle,
    Ev.key 10, Ev.idle, Ev.key 14, Ev.idle] ++ holds5 ++ [Ev.key 5]))

end Seg

/-! ## LCD variant: the display, `outputLine`, the scrolling text -/

namespace Lcd

/-- Where the characters of a sequence of LCD operations land, in the order of writing.  The
controller keeps a cursor `(row, col)`: the cursor instruction of `LCD_write_str` puts it at
the start of a line, a character is written at the cursor and moves it one column on. -/
def placed : Nat → Nat → List LcdOp → List (Nat × Nat × Char)
  | _, _, [] => []
  | _, _, LcdOp.cursor r :: ops => placed r 0 ops
  | row, col, LcdOp.char c :: ops => (row, col, c) :: placed row (col + 1) ops

/-- The display after a list of writes: each write replaces the character of its cell. -/
def paint (cells : Nat → Nat → Char) : List (Nat × Nat × Char) → Nat → Nat → Char
  | [] => cells
  | w :: ws => paint (fun r k => if r = w.1 ∧ k = w.2.1 then w.2.2 else cells r k) ws

/-- The display with a blank in every cell. -/
def blank : Nat → Nat → Char := fun _ _ => Char.ofNat 32

/-- The last character among the writes `ws` that went to cell `(r, k)`, if any. -/
def lastAt : List (Nat × Nat × Char) → Nat → Nat → Option Char
  | [], _, _ => none
  | w :: ws, r, k =>
    match lastAt ws r k with
    | some d => some d
    | none => if r = w.1 ∧ k = w.2.1 then some w.2.2 else none

/-- Where the specification places the characters of a string written from line `L`:
character number `k` at column `k mod 16` of line `L xor ((k div 16) mod 2)`; the list
starts with character number `k`. -/
def landing (L : Nat) : Nat → List Char → List (Nat × Nat × Char)
  | _, [] => []
  | k, c :: cs => (L ^^^ ((k / 16) % 2), k % 16, c) :: landing L (k + 1) cs

/-- A string of 33 characters. -/
def text33 : List Char := "0123456789abcdefghijklmnopqrstuvw".toList

/-- The calls `LCD_write_str(text, &line); LCD_clear_line(&line); LCD_write_str(text, &line)`
with one line variable, initially `L`: the operations issued. -/
def writeClearWrite (text : List Char) (L : Nat) : List LcdOp :=
  (LCD_write_str text L).1 ++ (LCD_clear_line (LCD_write_str text L).2).1 ++
    (LCD_write_str text (LCD_clear_line (LCD_write_str text L).2).2).1

/-- Function `checkClearInput(input)` (LCD.h 289-299): status and operations issued. -/
def checkClearInput (input : List Char) : Int × List LcdOp :=
  if cstr input = [Char.ofNat 3] then (1, (LCD_clear_line 0).1 ++ (LCD_clear_line 1).1)
  else (0, [])

/-- The loop of `checkInputLen` (LCD.h 312-316) from index `i` with `n` iterations left,
and the `return 2` after it; a read behind the characters given finds the terminator. -/
def checkInputLenLoop (input : List Char) : Nat → Nat → Int
  | 0, _ => 2
  | n + 1, i =>
    if input.getD i (Char.ofNat 0) = Char.ofNat 0 then 0 else checkInputLenLoop input n (i + 1)

/-- Function `checkInputLen(input)` (LCD.h 311-319). -/
def checkInputLen (input : List Char) : Int := checkInputLenLoop input 33 0

/-- Function `checkInput(input)` (LCD.h 265-277): status and operations issued. -/
def checkInput (input : List Char) : Int × List LcdOp :=
  if (checkClearInput input).1 ≠ 0 then checkClearInput input
  else (checkInputLen input, (checkClearInput input).2)

/-- Function `printErr(LCDLine)` (LCD.h 368-381): operations issued and final `*LCDLine`. -/
def printErr : List LcdOp × Nat :=
  let c1 := LCD_clear_line 0
  let w1 := LCD_write_str "Error:".toList c1.2
  let c2 := LCD_clear_line 1
  let w2 := LCD_write_str "Line Too Long".toList c2.2
  (c1.1 ++ w1.1 ++ c2.1 ++ w2.1, w2.2)

/-- Function `outputLine(input, LCDLine, changeLine)` (LCD.h 339-358): operations issued and
final `*LCDLine`. -/
def outputLine (input : List Char) (line : Nat) (changeLine : Int) : List LcdOp × Nat :=
  if changeLine = 1 then LCD_write_str [] line
  else if (checkInput input).1 = 0 then
    ((checkInput input).2 ++ (LCD_clear_line line).1 ++
      (LCD_write_str input (LCD_clear_line line).2).1,
     (LCD_write_str input (LCD_clear_line line).2).2)
  else if (checkInput input).1 = 2 then ((checkInput input).2 ++ printErr.1, printErr.2)
  else ((checkInput input).2, line)

/-- The `for(int i = 0; i < 16; i++)` loop of `updateScrollStr` (LCDScroll.h 78-87) with `n`
iterations left and the local `count`: the characters stored in `message`.  The buffer is
known up to its terminator; a read behind the terminator is outside the model (`none`). -/
def scrollLoop (str : List Char) : Nat → Nat → Option (List Char)
  | 0, _ => some []
  | n + 1, count =>
    if count ≤ (cstr str).length then
      match scrollLoop str n
          ((if str.getD count (Char.ofNat 0) = Char.ofNat 0 then 0 else count) + 1) with
      | some m =>
        some (str.getD (if str.getD count (Char.ofNat 0) = Char.ofNat 0 then 0 else count)
          (Char.ofNat 0) :: m)
      | none => none
    else none

/-- The value of `scrollCounter` after `if(scrollCounter == strlen(scrollStr))`
(LCDScroll.h 71-73). -/
def scrollStart (s : Sys) : Int :=
  if s.scrollCounter = ((cstr s.scrollStr).length : Int) then 0 else s.scrollCounter

/-- Function `updateScrollStr()` (LCDScroll.h 64-92), the body of `ISR(TIMER3_OVF_vect)`:
the operations issued by one firing and the state after it.  The local `line` is 0, and
`message[16]` is the terminator. -/
def updateScrollStr (s : Sys) : Option (List LcdOp × Sys) :=
  if scrollStart s < 0 then none
  else
    match scrollLoop s.scrollStr 16 (scrollStart s).toNat with
    | some message =>
      some ((LCD_write_str (message ++ [Char.ofNat 0]) 0).1,
        { s with scrollCounter := scrollStart s + 1 })
    | none => none

/-- Successive firings of `updateScrollStr`: the operations of each firing, in order, and
the state after the last. -/
def firings : Nat → Sys → Option (List (List LcdOp) × Sys)
  | 0, s => some ([], s)
  | n + 1, s =>
    match updateScrollStr s with
    | some r =>
      match firings n r.2 with
      | some p => some (r.1 :: p.1, p.2)
      | none => none
    | none => none

/-- The window of the specification: 16 characters of the text `str` from offset `c`,
wrapping back to the start of the text. -/
def scrollWindow (str : List Char) (c : Nat) : List Char :=
  (List.range 16).map (fun i => str.getD ((c % str.length + i) % str.length) (Char.ofNat 0))

/-- The state of the LCD variant after reset with the scroll text `Hello` set by
`startScrollStr`. -/
def helloScroll : Sys :=
  startScrollStr "Hello".toList (init [])

end Lcd

/-! ## 7-segment variant: the keypad scan -/

namespace Seg

/-- Table `keyPressed` of `readNumPad` (main.c 553-558). -/
def keyPressed (i j : Nat) : Int :=
  match i, j with
  | 0, 0 => 0x1 | 0, 1 => 0x2 | 0, 2 => 0x3 | 0, 3 => 0xA
  | 1, 0 => 0x4 | 1, 1 => 0x5 | 1, 2 => 0x6 | 1, 3 => 0xB
  | 2, 0 => 0x7 | 2, 1 => 0x8 | 2, 2 => 0x9 | 2, 3 => 0xC
  | 3, 0 => 0xF | 3, 1 => 0x10 | 3, 2 => 0xE | 3, 3 => 0xD
  | _, _ => 0

/-- Table `keyRowMask` of `readNumPad` (main.c 561). -/
def keyRowMask (i : Nat) : Nat :=
  match i with
  | 0 => 0x07 | 1 => 0x0B | 2 => 0x0D | 3 => 0x0E
  | _ => 0

/-- Table `keyColMask` of `readNumPad` (main.c 563). -/
def keyColMask (j : Nat) : Nat :=
  match j with
  | 0 => 0x80 | 1 => 0x40 | 2 => 0x20 | 3 => 0x10
  | _ => 0

/-- The loop over the columns in `readNumPad` (main.c 571-578) for row `i`, from column `j`
with `n` iterations left; `v` is what `PINC` reads while row `i` is grounded. -/
def colLoop (v i : Nat) : Nat → Nat → Option Int
  | 0, _ => none
  | n + 1, j => if v &&& keyColMask j = 0 then some (keyPressed i j) else colLoop v i n (j + 1)

/-- The loop over the rows in `readNumPad` (main.c 566-579), from row `i` with `n` iterations
left.  The keypad is given by `pinOf`: what `PINC` reads while `PORTC` holds a given value.
The result is the return value and the final value of `PORTC`. -/
def rowLoop (pinOf : Nat → Nat) : Nat → Nat → Nat → Int × Nat
  | 0, _, portc => (-1, portc)
  | n + 1, i, portc =>
    match colLoop (pinOf ((portc &&& 0xF0) ||| keyRowMask i)) i 4 0 with
    | some k => (k, (portc &&& 0xF0) ||| keyRowMask i)
    | none => rowLoop pinOf n (i + 1) ((portc &&& 0xF0) ||| keyRowMask i)

/-- Function `readNumPad()` (main.c 552-582; the same text is in the `Keypad.h` of the
7-segment variant). -/
def readNumPad (pinOf : Nat → Nat) (portc : Nat) : Int × Nat := rowLoop pinOf 4 0 portc

/-- Function `checkNumPad()` (main.c 523-544; same text in `Keypad.h`), on the value of
`PORTC` and the globals; the result is the new value of `PORTC` and the new globals. -/
def checkNumPad (pinOf : Nat → Nat) (portc : Nat) (s : Sys) : Nat × Sys :=
  if s.keypadClear = 0 ∧ pinOf (portc &&& 0xF0) &&& 0xF0 = 0x00 then (portc &&& 0xF0, s)
  else if pinOf (portc &&& 0xF0) &&& 0xF0 ≠ 0xF0 then
    ((readNumPad pinOf (portc &&& 0xF0)).2,
      { s with keypadClear := 0, input := (readNumPad pinOf (portc &&& 0xF0)).1 })
  else (portc &&& 0xF0, { s with keypadClear := 1 })

/-- A keypad on which key 1 (row 0, column 0) is held down and no other key: column 0
(bit 7 of `PINC`) reads low exactly while row 0 (bit 3 of `PORTC`) is driven low. -/
def key1Held (portc : Nat) : Nat := if portc &&& 0x08 = 0 then 0x70 else 0xF0

/-- A keypad on which key 3 (row 0, column 2) and key 5 (row 1, column 1) are held down:
bit 5 of `PINC` reads low while bit 3 of `PORTC` is low, bit 6 while bit 2 is low. -/
def keys3and5Held (portc : Nat) : Nat :=
  (if portc &&& 0x08 = 0 then 0xD0 else 0xF0) &&& (if portc &&& 0x04 = 0 then 0xB0 else 0xF0)

/-- A session from reset: A; 1 2 3 4 # and the timed waits of `succPIN`; key 1; A (arm);
D; 1 2 3 4 # and the timed waits of `succPIN`; key 1; A. -/
def sessionRearm : List Ev :=
  [Ev.key 10, Ev.idle, Ev.key 1, Ev.idle, Ev.key 2, Ev.idle, Ev.key 3, Ev.idle, Ev.key 4,
   Ev.idle, Ev.key 14, Ev.idle] ++ holds5 ++
  [Ev.key 1, Ev.idle, Ev.key 10, Ev.idle, Ev.key 13, Ev.idle, Ev.key 1, Ev.idle, Ev.key 2,
   Ev.idle, Ev.key 3, Ev.idle, Ev.key 4, Ev.idle, Ev.key 14, Ev.idle] ++ holds5 ++
  [Ev.key 1, Ev.idle, Ev.key 10, Ev.idle]

/-- State of `sessionRearm` when key D is held and the system is armed with PIN 1234. -/
def rearmArmed : Sys :=
  tick (tick (sysOf (selection 40 (tick (tick (sysOf (selection 40 (init sessionRearm))
    (init []))))) (init [])))

/-- State of `sessionRearm` after the call of `selection` that runs `disAlarm` on the entry
1 2 3 4 #. -/
def rearmDisarmed : Sys := sysOf (selection 40 rearmArmed) (init [])

end Seg

/-! ## Interrupt handlers, timer reloads, ports and store indices -/

/-- Conversion of a whole value to the 16 bit `int` of the target, as the cast `(int)` of the
compiler delivers it: the low 16 bits, read as a signed number. -/
def int16 (v : Int) : Int := (v + 32768) % 65536 - 32768

namespace Lcd

/-- The value `ISR(TIMER3_OVF_vect)` stores in the 16 bit register `TCNT3` (LCDScroll.h 39),
`65536 - (int)((500 * 16000000.0) / 256.0)`.  The product 8000000000 and the quotient
31250000 are whole numbers which the floating point format holds exactly. -/
def scrollReload : Nat := ((65536 - int16 ((500 * 16000000) / 256)) % 65536).toNat

/-- Handler `ISR(TIMER3_OVF_vect)` (LCDScroll.h 34-40): the operations issued by
`updateScrollStr`, then the reload of `TCNT3`. -/
def TIMER3_OVF (s : Sys) : Option (List LcdOp × Sys) :=
  match updateScrollStr s with
  | some r => some (r.1, { r.2 with TCNT3 := scrollReload })
  | none => none

/-- The state after three firings of the scroll set up at reset, or the reset state. -/
def afterThreeFirings : Sys :=
  match firings 3 (init []) with
  | some r => r.2
  | none => init []

/-- The state after `startScrollStr("Hello")` is called while the scroll set up at reset has
fired three times. -/
def restartedScroll : Sys := startScrollStr "Hello".toList afterThreeFirings

/-- Table `keyPressed` of `readNumPad` (Keypad.h 172-177). -/
def keyPressed (row col : Nat) : Int :=
  match row, col with
  | 0, 0 => 0x1 | 0, 1 => 0x2 | 0, 2 => 0x3 | 0, 3 => 0xA
  | 1, 0 => 0x4 | 1, 1 => 0x5 | 1, 2 => 0x6 | 1, 3 => 0xB
  | 2, 0 => 0x7 | 2, 1 => 0x8 | 2, 2 => 0x9 | 2, 3 => 0xC
  | 3, 0 => 0xF | 3, 1 => 0x0 | 3, 2 => 0xE | 3, 3 => 0xD
  | _, _ => 0

/-- Table `keyRowMask` of `readNumPad` (Keypad.h 180). -/
def keyRowMask : Nat → Nat
  | 0 => 0xF7
  | 1 => 0xFB
  | 2 => 0xFD
  | 3 => 0xFE
  | _ => 0

/-- The loop over the rows of `readNumPad` (Keypad.h 183-207) with `n` rows left from `row`,
and the lines after it.  `pind` gives the value read from `PIND` for a value driven on
`PORTC`.  The result is the final `PORTC` and the state. -/
def readRows (pind : Nat → Nat) (readCol : Nat) : Nat → Nat → Nat → Sys → Nat × Sys
  | 0, _, portc, s => (portc &&& 0xF0, { s with pressedKey := -1, newKeyInput := 0 })
  | n + 1, row, portc, s =>
    if pind ((portc ||| 0x0F) &&& keyRowMask row) &&& (1 <<< readCol) = 0 then
      (((portc ||| 0x0F) &&& keyRowMask row) &&& 0xF0,
        { s with pressedKey := keyPressed row readCol, newKeyInput := 1 })
    else readRows pind readCol n (row + 1) ((portc ||| 0x0F) &&& keyRowMask row) s

/-- Function `readNumPad(readCol)` (Keypad.h 167-208). -/
def readNumPad (pind : Nat → Nat) (readCol : Int) (portc : Nat) (s : Sys) : Nat × Sys :=
  if readCol = -1 ∨ readCol > 3 then (portc, s)
  else readRows pind readCol.toNat 4 0 portc s

/-- The body shared by the four column handlers (Keypad.h 53-116) for the column `readCol`:
the debounce delay, `readNumPad(readCol)`, `newKeyInput = 1`, all under the guard
`newKeyInput == 0`. -/
def columnISR (readCol : Int) (pind : Nat → Nat) (portc : Nat) (s : Sys) : Nat × Sys :=
  if s.newKeyInput = 0 then
    ((readNumPad pind readCol portc s).1,
      { (readNumPad pind readCol portc s).2 with newKeyInput := 1 })
  else (portc, s)

/-- Handler `ISR(INT0_vect)` (Keypad.h 53-62). -/
def INT0_vect (pind : Nat → Nat) (portc : Nat) (s : Sys) : Nat × Sys := columnISR 0 pind portc s

/-- Handler `ISR(INT1_vect)` (Keypad.h 71-80). -/
def INT1_vect (pind : Nat → Nat) (portc : Nat) (s : Sys) : Nat × Sys := columnISR 1 pind portc s

/-- Handler `ISR(INT2_vect)` (Keypad.h 89-98). -/
def INT2_vect (pind : Nat → Nat) (portc : Nat) (s : Sys) : Nat × Sys := columnISR 2 pind portc s

/-- Handler `ISR(INT3_vect)` (Keypad.h 107-116). -/
def INT3_vect (pind : Nat → Nat) (portc : Nat) (s : Sys) : Nat × Sys := columnISR 3 pind portc s

/-- Column handlers run one after the other: each entry names the column and what `PIND`
reads during that run. -/
def runISRs : List (Int × (Nat → Nat)) → Nat → Sys → Nat × Sys
  | [], portc, s => (portc, s)
  | e :: rest, portc, s =>
    runISRs rest (columnISR e.1 e.2 portc s).1 (columnISR e.1 e.2 portc s).2

/-- A keypad on which no row reads low in any column: all four inputs of `PIND` high. -/
def noRowLow : Nat → Nat := fun _ => 0x0F

/-- A keypad with key 5 (row 1, column 1) held: bit 1 of `PIND` reads low while bit 2 of
`PORTC` (row 1) is low. -/
def key5Down : Nat → Nat := fun portc => if portc &&& 0x04 = 0 then 0x0D else 0x0F

/-- The state of `waitForKeypadClear` at its return (Keypad.h 219-220), from reset. -/
def keypadCleared : Sys := { init [] with pressedKey := -1, newKeyInput := 0 }

/-- The stores made by the loop of `enterCode` (main.c 203-237), in order, with `n`
iterations left from the loop index `i`: lines 222, 226, 231 and 232. -/
def enterCodeStores (changePIN : Int) : Nat → Nat → Sys → List Store
  | 0, _, _ => []
  | n + 1, i, s =>
    match getNewKey s with
    | none => []
    | some s1 =>
      if s1.pressedKey = 0xE then []
      else if s1.pressedKey > 9 then []
      else
        (if i < 4 then [if changePIN = 1 then Store.pin i else Store.unlockPIN i] else []) ++
          [Store.dispPIN i, Store.dispPIN (i + 1)] ++ enterCodeStores changePIN n (i + 1) s1

/-- Seventeen presses of key 1 and no hash. -/
def seventeenOnes : List Nat := List.replicate 17 1

end Lcd

namespace Seg

/-- The array `displayNums` as filled by `fillNumArray()` (main.c 230-251); an index outside
`0..21` is outside the array and reads as 0 here. -/
def displayNums (i : Int) : Nat :=
  if i = 0 then 0x7B else if i = 1 then 0x0A else if i = 2 then 0x3D else if i = 3 then 0x1F
  else if i = 4 then 0x4E else if i = 5 then 0x57 else if i = 6 then 0x77
  else if i = 7 then 0x1A else if i = 8 then 0x7F else if i = 9 then 0x5F
  else if i = 10 then 0x7E else if i = 11 then 0x71 else if i = 12 then 0x2F
  else if i = 13 then 0x75 else if i = 14 then 0x60 else if i = 15 then 0x61
  else if i = 16 then 0x7C else if i = 17 then 0x24 else if i = 18 then 0x57
  else if i = 19 then 0x6B else if i = 20 then 0xFF else if i = 21 then 0x00 else 0

/-- What `updateDisplay` reads and writes: `digits`, `displayOff` and the two ports. -/
structure Disp where
  digits : Arr4
  displayOff : Int
  PORTA : Nat
  PORTB : Nat
deriving DecidableEq, Repr

/-- The `switch(i)` of `updateDisplay` (main.c 498-511) applied to `PORTB`. -/
def enableDigit (i : Nat) (portb : Nat) : Nat :=
  match i with
  | 0 => portb &&& 0xFE
  | 1 => portb &&& 0xFD
  | 2 => portb &&& 0xFB
  | 3 => portb &&& 0xF7
  | _ => portb

/-- The state after `PORTB |= 0x0F` in step `i` of the loop (main.c 492). -/
def allOff (d : Disp) : Disp := { d with PORTB := d.PORTB ||| 0x0F }

/-- The state after `PORTA = displayNums[digits[i]]` (main.c 494). -/
def segOut (i : Nat) (d : Disp) : Disp := { d with PORTA := displayNums (d.digits.get i) }

/-- The state after the `switch(i)` (main.c 498-511). -/
def digitOn (i : Nat) (d : Disp) : Disp := { d with PORTB := enableDigit i d.PORTB }

/-- The loop of `updateDisplay` (main.c 491-512) with `n` steps left from index `i`: the
states after each of the three port writes of every step, in order. -/
def displayLoop : Nat → Nat → Disp → List Disp
  | 0, _, _ => []
  | n + 1, i, d =>
    allOff d :: segOut i (allOff d) :: digitOn i (segOut i (allOff d)) ::
      displayLoop n (i + 1) (digitOn i (segOut i (allOff d)))

/-- Function `updateDisplay()` (main.c 481-514): the states after each port write, in
order, starting with the one after `PORTA = 0x00`. -/
def updateDisplay (d : Disp) : List Disp :=
  if d.displayOff = 1 then [{ d with PORTA := 0 }, allOff { d with PORTA := 0 }]
  else { d with PORTA := 0 } :: displayLoop 4 0 { d with PORTA := 0 }

/-- Handler `ISR(TIMER1_OVF_vect)` (main.c 141-145). -/
def TIMER1_OVF (s : Sys) : Sys :=
  { s with displayOff := Int.xor s.displayOff 1, TCNT1 := 65536 - (500 * 16000) / 256 }

/-- A session from reset: A; the PIN `a b c d` followed by # and the timed waits of
`succPIN`; key 1; A (arm); D; the entry 9 9 9 9 # and the timed waits of `succPIN`; key 1;
the timed waits of `err`. -/
def sessionWrong (a b c d : Int) : List Ev :=
  [Ev.key 10, Ev.idle, Ev.key a, Ev.idle, Ev.key b, Ev.idle, Ev.key c, Ev.idle, Ev.key d,
   Ev.idle, Ev.key 14, Ev.idle] ++ holds5 ++
  [Ev.key 1, Ev.idle, Ev.key 10, Ev.idle, Ev.key 13, Ev.idle, Ev.key 9, Ev.idle, Ev.key 9,
   Ev.idle, Ev.key 9, Ev.idle, Ev.key 9, Ev.idle, Ev.key 14, Ev.idle] ++ holds5 ++
  [Ev.key 1, Ev.idle] ++ holds5 ++ holds5

/-- State of `sessionWrong a b c d` when key D is held and the system is armed with the PIN
`a b c d`. -/
def armedWith (a b c d : Int) : Sys :=
  tick (tick (sysOf (selection 40 (tick (tick (sysOf
    (selection 40 (init (sessionWrong a b c d))) (init []))))) (init [])))

/-- The values given to `digits` during the call of `disAlarm` in state `s`. -/
def shownDuring (s : Sys) : List Arr4 :=
  match disAlarm 40 s with
  | some t => t.shown.drop s.shown.length
  | none => []

/-- What an interrupt event can deliver: a key event carries a value `readNumPad` returns
(main.c 551-577), that is -1 or one of the key codes 1 to 0x10. -/
def okEv : Ev → Bool
  | Ev.key k => decide (-1 ≤ k ∧ k ≤ 0x10)
  | Ev.idle => true
  | Ev.elapsed => true

/-- Every event of the list delivers -1 or a key code. -/
def keyCodes (evs : List Ev) : Prop := ∀ e ∈ evs, okEv e = true

instance (evs : List Ev) : Decidable (keyCodes evs) :=
  inferInstanceAs (Decidable (∀ e ∈ evs, okEv e = true))

/-- A recorded store lies inside its array and holds a digit: index in 0..3, value in 0..9. -/
def okStore (st : Int × Int × Int) : Prop :=
  0 ≤ st.2.1 ∧ st.2.1 ≤ 3 ∧ 0 ≤ st.2.2 ∧ st.2.2 ≤ 9

/-- The variable `input` holds -1, its initial value 0 or a key code, and every store made
so far lies inside its array and holds a digit. -/
def GoodIS (s : Sys) : Prop :=
  (-1 ≤ s.input ∧ s.input ≤ 0x10) ∧ ∀ st ∈ s.stores, okStore st

/-- The same, with the events still to come delivering -1 or key codes. -/
def Good (s : Sys) : Prop := keyCodes s.evs ∧ GoodIS s

/-- States at the top of the forever loop of `main` (main.c 114-117) when the loop is fast
against the keypad ticks: one iteration (`updateDisplay(); selection();` with no key to act
on) takes microseconds and the ticks are milliseconds apart, so that at most one tick falls
between two calls of `selection()`; the ticks deliver -1 or key codes. -/
inductive Looped : Sys → Prop where
  | start (evs : List Ev) : keyCodes evs → Looped (init evs)
  | poll (fuel : Nat) (s t : Sys) : Looped s → selection fuel s = some t → Looped t
  | step (fuel : Nat) (s t : Sys) : Looped s → selection fuel (tick s) = some t → Looped t

/-- A session from reset: A; 1 2 3 4 # and the timed waits of `succPIN`; key 1, held for two
ticks and released; C; 5 0 7 8 # (key 0 has code 16) and the timed waits of `succPIN`;
key 1. -/
def sessionChange : List Ev :=
  [Ev.key 10, Ev.idle, Ev.key 1, Ev.idle, Ev.key 2, Ev.idle, Ev.key 3, Ev.idle, Ev.key 4,
   Ev.idle, Ev.key 14, Ev.idle] ++ holds5 ++
  [Ev.key 1, Ev.key 1, Ev.idle, Ev.key 12, Ev.idle, Ev.key 5, Ev.idle, Ev.key 16, Ev.idle,
   Ev.key 7, Ev.idle, Ev.key 8, Ev.idle, Ev.key 14, Ev.idle] ++ holds5 ++ [Ev.key 1]

/-- The state of `sessionChange` after its calls of `selection`: the first sets the PIN
1234, the next two find key 1 held and do nothing, the one after the release does nothing,
the last one changes the PIN to 5078. -/
def afterChange : Sys :=
  sysOf (selection 40 (tick (sysOf (selection 40 (tick (sysOf (selection 40 (tick
    (sysOf (selection 40 (init sessionChange)) (init [])))) (init [])))) (init []))))
    (init [])

end Seg

/-! ## LCD variant: the entry routine `enterCode` -/

namespace Lcd

/-- A store in range leaves the state as it is. -/
theorem storeAt_lt (s : Sys) (size i : Nat) (st : Store) (h : i < size) :
    s.storeAt size i st = s := by
  rw [Sys.storeAt, if_pos h]

/-- A store behind the array is recorded. -/
theorem storeAt_ge (s : Sys) (size i : Nat) (st : Store) (h : ¬ i < size) :
    s.storeAt size i st = { s with behind := s.behind ++ [st] } := by
  rw [Sys.storeAt, if_neg h]

@[simp] theorem storeAt_pin (s : Sys) (size i : Nat) (st : Store) :
    (s.storeAt size i st).pin = s.pin := by
  unfold Sys.storeAt; split_ifs <;> rfl

@[simp] theorem storeAt_unlockPIN (s : Sys) (size i : Nat) (st : Store) :
    (s.storeAt size i st).unlockPIN = s.unlockPIN := by
  unfold Sys.storeAt; split_ifs <;> rfl

@[simp] theorem storeAt_alarmEnable (s : Sys) (size i : Nat) (st : Store) :
    (s.storeAt size i st).alarmEnable = s.alarmEnable := by
  unfold Sys.storeAt; split_ifs <;> rfl

@[simp] theorem storeAt_PINset (s : Sys) (size i : Nat) (st : Store) :
    (s.storeAt size i st).PINset = s.PINset := by
  unfold Sys.storeAt; split_ifs <;> rfl

@[simp] theorem storeAt_keys (s : Sys) (size i : Nat) (st : Store) :
    (s.storeAt size i st).keys = s.keys := by
  unfold Sys.storeAt; split_ifs <;> rfl

@[simp] theorem storeAt_lcd (s : Sys) (size i : Nat) (st : Store) :
    (s.storeAt size i st).lcd = s.lcd := by
  unfold Sys.storeAt; split_ifs <;> rfl

@[simp] theorem storeAt_pressedKey (s : Sys) (size i : Nat) (st : Store) :
    (s.storeAt size i st).pressedKey = s.pressedKey := by
  unfold Sys.storeAt; split_ifs <;> rfl

@[simp] theorem storeAt_menuTail (s : Sys) (size i : Nat) (st : Store) :
    (s.storeAt size i st).menuTail = s.menuTail := by
  unfold Sys.storeAt; split_ifs <;> rfl

/-- A store adds at most its own record to `behind`. -/
theorem storeAt_behind (s : Sys) (size i : Nat) (st : Store) :
    (s.storeAt size i st).behind = s.behind ++ (if i < size then [] else [st]) := by
  unfold Sys.storeAt
  split_ifs
  · exact (List.append_nil _).symm
  · rfl

@[simp] theorem succStores_pin (s : Sys) : (succStores s).pin = s.pin := rfl

@[simp] theorem succStores_unlockPIN (s : Sys) : (succStores s).unlockPIN = s.unlockPIN := rfl

@[simp] theorem succStores_alarmEnable (s : Sys) :
    (succStores s).alarmEnable = s.alarmEnable := rfl

@[simp] theorem succStores_PINset (s : Sys) : (succStores s).PINset = s.PINset := rfl

@[simp] theorem succStores_keys (s : Sys) : (succStores s).keys = s.keys := rfl

@[simp] theorem succStores_lcd (s : Sys) : (succStores s).lcd = s.lcd := rfl

@[simp] theorem succStores_menuTail (s : Sys) : (succStores s).menuTail = s.menuTail := rfl

@[simp] theorem notArmedStores_pin (s : Sys) : (notArmedStores s).pin = s.pin := rfl

@[simp] theorem notArmedStores_unlockPIN (s : Sys) :
    (notArmedStores s).unlockPIN = s.unlockPIN := rfl

@[simp] theorem notArmedStores_alarmEnable (s : Sys) :
    (notArmedStores s).alarmEnable = s.alarmEnable := rfl

@[simp] theorem notArmedStores_PINset (s : Sys) : (notArmedStores s).PINset = s.PINset := rfl

@[simp] theorem notArmedStores_keys (s : Sys) : (notArmedStores s).keys = s.keys := rfl

@[simp] theorem notArmedStores_lcd (s : Sys) : (notArmedStores s).lcd = s.lcd := rfl

@[simp] theorem notArmedStores_menuTail (s : Sys) :
    (notArmedStores s).menuTail = s.menuTail := rfl

theorem getNewKey_cons (s : Sys) (k : Nat) (rest : List Nat) (hk : s.keys = k :: rest) :
    getNewKey s = some { s with pressedKey := (k : Int), newKeyInput := 1, keys := rest } := by
  simp [getNewKey, hk]

theorem getNewKey_nil (s : Sys) (hk : s.keys = []) : getNewKey s = none := by
  simp [getNewKey, hk]

/-- One iteration of the entry loop on a digit key. -/
theorem enterCodeLoop_digit (cp : Int) (n i : Nat) (buf : List Char) (s : Sys) (k : Nat)
    (rest : List Nat) (hk : s.keys = k :: rest) (hd : k ≤ 9) :
    enterCodeLoop cp (n + 1) i buf s =
      enterCodeLoop cp n (i + 1)
        ((buf.set i (toChar ((k : Int) + 0x30))).set (i + 1) (Char.ofNat 0))
        ((((if i < 4 then
            if cp = 1 then
              { s with pressedKey := (k : Int), newKeyInput := 1, keys := rest,
                       pin := s.pin.set i k }
            else
              { s with pressedKey := (k : Int), newKeyInput := 1, keys := rest,
                       unlockPIN := s.unlockPIN.set i k }
          else { s with pressedKey := (k : Int), newKeyInput := 1, keys := rest }).storeAt 17 i
            (Store.dispPIN i)).storeAt 17 (i + 1) (Store.dispPIN (i + 1))).emit
          (LCD_write_str ((buf.set i (toChar ((k : Int) + 0x30))).set (i + 1) (Char.ofNat 0))
            1).1) := by
  have h1 : ¬ ((k : Int) = 14) := by omega
  have h2 : ¬ ((k : Int) > 9) := by omega
  rw [enterCodeLoop, getNewKey_cons s k rest hk]
  simp only [h1, h2, if_false]

/-- One iteration of the entry loop on the hash key. -/
theorem enterCodeLoop_hash (cp : Int) (n i : Nat) (buf : List Char) (s : Sys)
    (rest : List Nat) (hk : s.keys = 14 :: rest) :
    enterCodeLoop cp (n + 1) i buf s =
      some (if i = 4 then 0 else 1,
        { s with pressedKey := 14, newKeyInput := 1, keys := rest }) := by
  rw [enterCodeLoop, getNewKey_cons s 14 rest hk]
  simp

/-- One iteration of the entry loop on a key that is neither a digit nor the hash. -/
theorem enterCodeLoop_other (cp : Int) (n i : Nat) (buf : List Char) (s : Sys) (k : Nat)
    (rest : List Nat) (hk : s.keys = k :: rest) (h9 : 9 < k) (h14 : k ≠ 14) :
    enterCodeLoop cp (n + 1) i buf s =
      some (1, { s with pressedKey := (k : Int), newKeyInput := 1, keys := rest }) := by
  have h1 : ¬ ((k : Int) = 14) := by omega
  have h2 : (k : Int) > 9 := by omega
  rw [enterCodeLoop, getNewKey_cons s k rest hk]
  simp only [h1, h2, if_false, if_true]

/-- One iteration of the entry loop on a digit key, by its effect on the state. -/
theorem enterCodeLoop_step (cp : Int) (n i : Nat) (buf : List Char) (s : Sys) (k : Nat)
    (rest : List Nat) (hk : s.keys = k :: rest) (hd : k ≤ 9) :
    ∃ (u : Sys) (buf2 : List Char),
      enterCodeLoop cp (n + 1) i buf s = enterCodeLoop cp n (i + 1) buf2 u ∧
      u.keys = rest ∧ u.alarmEnable = s.alarmEnable ∧ u.PINset = s.PINset ∧
      (cp = 1 → u.unlockPIN = s.unlockPIN) ∧ (cp ≠ 1 → u.pin = s.pin) ∧
      (∃ ops, u.lcd = s.lcd ++ ops) ∧
      (if cp = 1 then u.pin else u.unlockPIN) =
        (if i < 4 then (if cp = 1 then s.pin else s.unlockPIN).set i k
         else (if cp = 1 then s.pin else s.unlockPIN)) ∧
      u.behind = s.behind ++ (if i < 17 then [] else [Store.dispPIN i]) ++
        (if i + 1 < 17 then [] else [Store.dispPIN (i + 1)]) ∧
      u.menuTail = s.menuTail := by
  refine ⟨_, _, enterCodeLoop_digit cp n i buf s k rest hk hd, ?_, ?_, ?_, ?_, ?_, ?_, ?_, ?_,
    ?_⟩
  · simp only [Sys.emit, storeAt_keys]; split_ifs <;> rfl
  · simp only [Sys.emit, storeAt_alarmEnable]; split_ifs <;> rfl
  · simp only [Sys.emit, storeAt_PINset]; split_ifs <;> rfl
  · intro hc; simp only [Sys.emit, storeAt_unlockPIN, hc, if_true]; split_ifs <;> rfl
  · intro hc; simp only [Sys.emit, storeAt_pin, hc, if_false]; split_ifs <;> rfl
  · refine ⟨(LCD_write_str ((buf.set i (toChar ((k : Int) + 0x30))).set (i + 1)
      (Char.ofNat 0)) 1).1, ?_⟩
    simp only [Sys.emit, storeAt_lcd]; split_ifs <;> rfl
  · simp only [Sys.emit, storeAt_pin, storeAt_unlockPIN]; split_ifs <;> rfl
  · simp only [Sys.emit, storeAt_behind]; split_ifs <;> rfl
  · simp only [Sys.emit, storeAt_menuTail]; split_ifs <;> rfl

/-- What the entry loop leaves alone: the flags, the array that is not the target, the
log written so far; and its result is `0` or `1`. -/
theorem enterCodeLoop_frame (cp : Int) (n : Nat) :
    ∀ (i : Nat) (buf : List Char) (s : Sys) (r : Int) (t : Sys),
      enterCodeLoop cp n i buf s = some (r, t) →
      t.alarmEnable = s.alarmEnable ∧ t.PINset = s.PINset ∧ (r = 0 ∨ r = 1) ∧
      (cp = 1 → t.unlockPIN = s.unlockPIN) ∧ (cp ≠ 1 → t.pin = s.pin) ∧
      ∃ ops, t.lcd = s.lcd ++ ops := by
  induction n with
  | zero =>
    intro i buf s r t h
    simp only [enterCodeLoop, Option.some.injEq, Prod.mk.injEq] at h
    obtain ⟨rfl, rfl⟩ := h
    exact ⟨rfl, rfl, Or.inr rfl, fun _ => rfl, fun _ => rfl, [], by simp⟩
  | succ n ih =>
    intro i buf s r t h
    cases hk : s.keys with
    | nil => simp [enterCodeLoop, getNewKey_nil s hk] at h
    | cons k rest =>
      by_cases h14 : k = 14
      · subst h14
        rw [enterCodeLoop_hash cp n i buf s rest hk] at h
        simp only [Option.some.injEq, Prod.mk.injEq] at h
        obtain ⟨rfl, rfl⟩ := h
        refine ⟨rfl, rfl, ?_, fun _ => rfl, fun _ => rfl, [], by simp⟩
        split_ifs <;> simp
      · by_cases h9 : 9 < k
        · rw [enterCodeLoop_other cp n i buf s k rest hk h9 h14] at h
          simp only [Option.some.injEq, Prod.mk.injEq] at h
          obtain ⟨rfl, rfl⟩ := h
          exact ⟨rfl, rfl, Or.inr rfl, fun _ => rfl, fun _ => rfl, [], by simp⟩
        · obtain ⟨u, buf2, hstep, _, ua, up, uu, uq, ⟨ops1, ul⟩, _⟩ :=
            enterCodeLoop_step cp n i buf s k rest hk (by omega)
          rw [hstep] at h
          obtain ⟨ha, hp, hr, hu, hq, ops, hl⟩ := ih _ _ _ _ _ h
          refine ⟨ha.trans ua, hp.trans up, hr, fun hc => (hu hc).trans (uu hc),
            fun hc => (hq hc).trans (uq hc), ops1 ++ ops, ?_⟩
          rw [hl, ul, List.append_assoc]

/-- Four digits and the hash: the entry is accepted and the target array holds the digits. -/
theorem enterCode_wellformed (cp : Int) (s : Sys) (d0 d1 d2 d3 : Nat) (rest : List Nat)
    (h0 : d0 ≤ 9) (h1 : d1 ≤ 9) (h2 : d2 ≤ 9) (h3 : d3 ≤ 9)
    (hk : s.keys = d0 :: d1 :: d2 :: d3 :: 14 :: rest) :
    ∃ t, enterCode cp s = some (0, t) ∧ t.keys = rest ∧
      (cp = 1 → t.pin = ⟨d0, d1, d2, d3⟩ ∧ t.unlockPIN = s.unlockPIN) ∧
      (cp ≠ 1 → t.unlockPIN = ⟨d0, d1, d2, d3⟩ ∧ t.pin = s.pin) := by
  have e0 : ¬ ((d0 : Int) = 14) := by omega
  have e1 : ¬ ((d1 : Int) = 14) := by omega
  have e2 : ¬ ((d2 : Int) = 14) := by omega
  have e3 : ¬ ((d3 : Int) = 14) := by omega
  have g0 : ¬ (9 < (d0 : Int)) := by omega
  have g1 : ¬ (9 < (d1 : Int)) := by omega
  have g2 : ¬ (9 < (d2 : Int)) := by omega
  have g3 : ¬ (9 < (d3 : Int)) := by omega
  by_cases hc : cp = 1
  · simp [enterCode, enterCodeLoop, getNewKey, Sys.emit, hk, e0, e1, e2, e3, g0, g1, g2, g3,
      hc, Arr4.set]
  · simp [enterCode, enterCodeLoop, getNewKey, Sys.emit, hk, e0, e1, e2, e3, g0, g1, g2, g3,
      hc, Arr4.set]

/-- C3 (LCD variant, `enterCode`): for four digit keys `d0..d3` followed by the hash key
(code 14) delivered by `getNewKey`, `enterCode(1)` returns 0 and leaves
`pin = [d0,d1,d2,d3]` with `unlockPIN` unchanged, and `enterCode(0)` returns 0 and leaves
`unlockPIN = [d0,d1,d2,d3]` with `pin` unchanged. -/
theorem enterCode_four_digits_stored (s : Sys) (d0 d1 d2 d3 : Nat) (rest : List Nat)
    (h0 : d0 ≤ 9) (h1 : d1 ≤ 9) (h2 : d2 ≤ 9) (h3 : d3 ≤ 9)
    (hk : s.keys = d0 :: d1 :: d2 :: d3 :: 14 :: rest) :
    (∃ t, enterCode 1 s = some (0, t) ∧ t.pin = ⟨d0, d1, d2, d3⟩ ∧
      t.unlockPIN = s.unlockPIN) ∧
    (∃ t, enterCode 0 s = some (0, t) ∧ t.unlockPIN = ⟨d0, d1, d2, d3⟩ ∧ t.pin = s.pin) := by
  constructor
  · obtain ⟨t, ht, _, hp, _⟩ := enterCode_wellformed 1 s d0 d1 d2 d3 rest h0 h1 h2 h3 hk
    exact ⟨t, ht, (hp rfl).1, (hp rfl).2⟩
  · obtain ⟨t, ht, _, _, hu⟩ := enterCode_wellformed 0 s d0 d1 d2 d3 rest h0 h1 h2 h3 hk
    exact ⟨t, ht, (hu (by decide)).1, (hu (by decide)).2⟩

/-- Witness for C3: the entry 1,2,3,4,# on the initial state. -/
theorem enterCode_four_digits_stored_witness :
    (∃ t, enterCode 1 (init [1, 2, 3, 4, 14]) = some (0, t) ∧ t.pin = ⟨1, 2, 3, 4⟩ ∧
      t.unlockPIN = (init [1, 2, 3, 4, 14]).unlockPIN) ∧
    (∃ t, enterCode 0 (init [1, 2, 3, 4, 14]) = some (0, t) ∧ t.unlockPIN = ⟨1, 2, 3, 4⟩ ∧
      t.pin = (init [1, 2, 3, 4, 14]).pin) :=
  enterCode_four_digits_stored (init [1, 2, 3, 4, 14]) 1 2 3 4 [] (by decide) (by decide)
    (by decide) (by decide) rfl

/-- With fewer digit keys in front than iterations left, and the loop index such that at
most 17 iterations are made in all, the entry loop makes no store behind `dispPIN`. -/
theorem enterCodeLoop_inbounds (cp : Int) (n : Nat) :
    ∀ (i : Nat) (buf : List Char) (s : Sys) (r : Int) (t : Sys), i + n ≤ 17 →
      (s.keys.takeWhile (fun k => decide (k ≤ 9))).length < n →
      enterCodeLoop cp n i buf s = some (r, t) → t.behind = s.behind := by
  induction n with
  | zero => intro i buf s r t _ hl _; omega
  | succ n ih =>
    intro i buf s r t hi hl h
    cases hk : s.keys with
    | nil => simp [enterCodeLoop, getNewKey_nil s hk] at h
    | cons k rest =>
      by_cases h14 : k = 14
      · subst h14
        rw [enterCodeLoop_hash cp n i buf s rest hk] at h
        simp only [Option.some.injEq, Prod.mk.injEq] at h
        obtain ⟨_, rfl⟩ := h
        rfl
      · by_cases h9 : 9 < k
        · rw [enterCodeLoop_other cp n i buf s k rest hk h9 h14] at h
          simp only [Option.some.injEq, Prod.mk.injEq] at h
          obtain ⟨_, rfl⟩ := h
          rfl
        · have hd : k ≤ 9 := by omega
          obtain ⟨u, buf2, hstep, hkeys, _, _, _, _, _, _, hbeh, _⟩ :=
            enterCodeLoop_step cp n i buf s k rest hk hd
          rw [hstep] at h
          have htw : (k :: rest).takeWhile (fun k => decide (k ≤ 9)) =
              k :: rest.takeWhile (fun k => decide (k ≤ 9)) := by
            simp [List.takeWhile, hd]
          rw [hk, htw, List.length_cons] at hl
          have h1 : i < 17 := by omega
          have h2 : i + 1 < 17 := by omega
          rw [if_pos h1, if_pos h2, List.append_nil, List.append_nil] at hbeh
          rw [← hbeh]
          exact ih _ _ _ _ _ (by omega) (by rw [hkeys]; omega) h

theorem Arr4_get_set (a : Arr4) (i j v : Int) :
    (a.set i v).get j = if i = j ∧ 0 ≤ i ∧ i ≤ 3 then v else a.get j := by
  unfold Arr4.set Arr4.get
  split_ifs <;> first | rfl | omega

/-- Reading position `j` after the guarded store `if(i < 4) a[i] = k`. -/
theorem Arr4_get_store (a : Arr4) (i j k : Nat) (hj : j < 4) :
    (if i < 4 then a.set i k else a).get j = if i = j then (k : Int) else a.get j := by
  by_cases h4 : i < 4
  · simp only [h4, if_true, Arr4_get_set]
    by_cases hij : i = j
    · subst hij
      have : (0 : Int) ≤ (i : Int) ∧ (i : Int) ≤ 3 := by omega
      simp [this]
    · have : ¬ ((i : Int) = (j : Int)) := by omega
      simp [this, hij]
  · have : ¬ (i = j) := by omega
    simp [h4, this]

/-- What the entry loop stores: the digit keys delivered before the first other key go, in
order, to the positions `i, i+1, ...` below 4 of the target array. -/
theorem enterCodeLoop_target (cp : Int) (n : Nat) :
    ∀ (i : Nat) (buf : List Char) (s : Sys) (r : Int) (t : Sys), 4 ≤ n + i →
      enterCodeLoop cp n i buf s = some (r, t) →
      ∀ j : Nat, j < 4 →
        (if cp = 1 then t.pin else t.unlockPIN).get j =
          if i ≤ j ∧ j - i < (s.keys.takeWhile (fun k => decide (k ≤ 9))).length then
            (((s.keys.takeWhile (fun k => decide (k ≤ 9))).getD (j - i) 0 : Nat) : Int)
          else (if cp = 1 then s.pin else s.unlockPIN).get j := by
  induction n with
  | zero =>
    intro i buf s r t hn h j hj
    simp only [enterCodeLoop, Option.some.injEq, Prod.mk.injEq] at h
    obtain ⟨_, rfl⟩ := h
    have : ¬ (i ≤ j) := by omega
    simp [this]
  | succ n ih =>
    intro i buf s r t hn h j hj
    cases hk : s.keys with
    | nil => simp [enterCodeLoop, getNewKey_nil s hk] at h
    | cons k rest =>
      by_cases h14 : k = 14
      · subst h14
        rw [enterCodeLoop_hash cp n i buf s rest hk] at h
        simp only [Option.some.injEq, Prod.mk.injEq] at h
        obtain ⟨_, rfl⟩ := h
        simp
      · by_cases h9 : 9 < k
        · rw [enterCodeLoop_other cp n i buf s k rest hk h9 h14] at h
          simp only [Option.some.injEq, Prod.mk.injEq] at h
          obtain ⟨_, rfl⟩ := h
          have : ¬ (k ≤ 9) := by omega
          simp [List.takeWhile, this]
        · have hd : k ≤ 9 := by omega
          obtain ⟨u, buf2, hstep, hkeys, _, _, _, _, _, htgt, _⟩ :=
            enterCodeLoop_step cp n i buf s k rest hk hd
          rw [hstep] at h
          have key := ih _ _ _ _ _ (by omega) h j hj
          rw [key, hkeys, htgt, Arr4_get_store _ i j k hj]
          have htw : (k :: rest).takeWhile (fun k => decide (k ≤ 9)) =
              k :: rest.takeWhile (fun k => decide (k ≤ 9)) := by
            simp [List.takeWhile, hd]
          rw [htw]
          by_cases hji : j < i
          · have c1 : ¬ (i + 1 ≤ j) := by omega
            have c2 : ¬ (i ≤ j) := by omega
            have c3 : ¬ (i = j) := by omega
            simp only [c1, c2, c3, false_and, if_false]
          · by_cases hje : i = j
            · subst hje
              have c1 : ¬ (i + 1 ≤ i) := by omega
              simp [c1]
            · have c1 : i + 1 ≤ j := by omega
              have c2 : i ≤ j := by omega
              have c3 : j - i = (j - (i + 1)) + 1 := by omega
              simp only [c1, c2, true_and, hje, if_false, List.length_cons]
              rw [c3, List.getD_cons_succ]
              by_cases hL : j - (i + 1) < (rest.takeWhile (fun k => decide (k ≤ 9))).length
              · have : j - (i + 1) + 1 <
                    (rest.takeWhile (fun k => decide (k ≤ 9))).length + 1 := by omega
                simp [hL, this]
              · have : ¬ (j - (i + 1) + 1 <
                    (rest.takeWhile (fun k => decide (k ≤ 9))).length + 1) := by omega
                simp only [hL, this, if_false]

/-- C5, counterexample (LCD variant, `enterCode`): on the initial state the entry 1,2,# is
rejected by `enterCode(1)` and `pin` has changed from [-1,0,0,0] to [1,2,0,0]; and with the
PIN 5678 stored and `PINset = 1`, the keys C 1 2 # served to `selection()` end in a rejected
change that leaves `pin = [1,2,7,8]`.  Neither run makes a store behind an array. -/
theorem enterCode_rejected_overwrites_pin :
    (∃ t, enterCode 1 (init [1, 2, 14]) = some (1, t) ∧ t.pin = ⟨1, 2, 0, 0⟩ ∧
      t.behind = [] ∧
      (init [1, 2, 14]).pin = ⟨-1, 0, 0, 0⟩ ∧ t.pin ≠ (init [1, 2, 14]).pin) ∧
    (selection 9 { init [12, 1, 2, 14] with pin := ⟨5, 6, 7, 8⟩, PINset := 1 }).map
        (fun t => (t.pin, t.PINset, t.behind)) = some (⟨1, 2, 7, 8⟩, 1, []) :=
  ⟨⟨_, rfl, rfl, rfl, rfl, by decide⟩, by decide⟩

/-- C5, amended (LCD variant, `enterCode`): on a key sequence with fewer than 17 digit keys
in front (so that no store is made behind `dispPIN`), when `enterCode(1)` returns 1,
`unlockPIN` is unchanged and `pin[j]` holds the `j`-th digit key for every `j < 4` below the
number of digit keys delivered before the first other key, and its old value at the other
positions; likewise for `enterCode(0)` with the roles of the two arrays exchanged. -/
theorem enterCode_rejected_target (s t : Sys)
    (hb : (s.keys.takeWhile (fun k => decide (k ≤ 9))).length < 17) :
    (enterCode 1 s = some (1, t) →
      t.behind = s.behind ∧ t.unlockPIN = s.unlockPIN ∧
      ∀ j : Nat, j < 4 →
        t.pin.get j =
          if j < (s.keys.takeWhile (fun k => decide (k ≤ 9))).length then
            (((s.keys.takeWhile (fun k => decide (k ≤ 9))).getD j 0 : Nat) : Int)
          else s.pin.get j) ∧
    (enterCode 0 s = some (1, t) →
      t.behind = s.behind ∧ t.pin = s.pin ∧
      ∀ j : Nat, j < 4 →
        t.unlockPIN.get j =
          if j < (s.keys.takeWhile (fun k => decide (k ≤ 9))).length then
            (((s.keys.takeWhile (fun k => decide (k ≤ 9))).getD j 0 : Nat) : Int)
          else s.unlockPIN.get j) := by
  constructor
  · intro h
    refine ⟨enterCodeLoop_inbounds 1 17 0 _ (s.emit enterPrompt) 1 t (by omega) hb h,
      (enterCodeLoop_frame 1 17 0 _ _ 1 t h).2.2.2.1 rfl, ?_⟩
    intro j hj
    have key := enterCodeLoop_target 1 17 0 _ (s.emit enterPrompt) 1 t (by omega) h j hj
    simpa [Sys.emit] using key
  · intro h
    refine ⟨enterCodeLoop_inbounds 0 17 0 _ (s.emit enterPrompt) 1 t (by omega) hb h,
      (enterCodeLoop_frame 0 17 0 _ _ 1 t h).2.2.2.2.1 (by decide), ?_⟩
    intro j hj
    have key := enterCodeLoop_target 0 17 0 _ (s.emit enterPrompt) 1 t (by omega) h j hj
    simpa [Sys.emit] using key

/-- Witness for the amended C5: the entry 1,2,# on the initial state, for both targets. -/
theorem enterCode_rejected_target_witness :
    (enterCode 1 (init [1, 2, 14]) = some (1, stateOf (enterCode 1 (init [1, 2, 14])) (init [])) ∧
      (stateOf (enterCode 1 (init [1, 2, 14])) (init [])).pin.get 0 = 1 ∧
      (stateOf (enterCode 1 (init [1, 2, 14])) (init [])).pin.get 2 = 0) ∧
    (enterCode 0 (init [1, 2, 14]) = some (1, stateOf (enterCode 0 (init [1, 2, 14])) (init [])) ∧
      (stateOf (enterCode 0 (init [1, 2, 14])) (init [])).unlockPIN.get 1 = 2 ∧
      (stateOf (enterCode 0 (init [1, 2, 14])) (init [])).pin = (init [1, 2, 14]).pin) :=
  ⟨⟨rfl,
    ((enterCode_rejected_target (init [1, 2, 14])
      (stateOf (enterCode 1 (init [1, 2, 14])) (init [])) (by decide)).1 rfl).2.2 0
      (by decide),
    ((enterCode_rejected_target (init [1, 2, 14])
      (stateOf (enterCode 1 (init [1, 2, 14])) (init [])) (by decide)).1 rfl).2.2 2
      (by decide)⟩,
   ⟨rfl,
    ((enterCode_rejected_target (init [1, 2, 14])
      (stateOf (enterCode 0 (init [1, 2, 14])) (init [])) (by decide)).2 rfl).2.2 1
      (by decide),
    ((enterCode_rejected_target (init [1, 2, 14])
      (stateOf (enterCode 0 (init [1, 2, 14])) (init [])) (by decide)).2 rfl).2.1⟩⟩

/-! ## LCD variant: `disAlarm` -/

/-- The comparison loop of `disAlarm` yields 0 when the arrays agree and 1 otherwise. -/
theorem pinMismatch_eq (s : Sys) :
    pinMismatch s = if s.pin = s.unlockPIN then 0 else 1 := by
  rcases hp : s.pin with ⟨a0, a1, a2, a3⟩
  rcases hu : s.unlockPIN with ⟨b0, b1, b2, b3⟩
  simp only [pinMismatch, Arr4.get, hp, hu, Arr4.mk.injEq]
  simp only [show ¬ ((1 : Int) = 0) by decide, show ¬ ((2 : Int) = 0) by decide,
    show ¬ ((3 : Int) = 0) by decide, show ¬ ((2 : Int) = 1) by decide,
    show ¬ ((3 : Int) = 1) by decide, show ¬ ((3 : Int) = 2) by decide, if_true, if_false]
  by_cases h0 : a0 = b0 <;> by_cases h1 : a1 = b1 <;> by_cases h2 : a2 = b2 <;>
    by_cases h3 : a3 = b3 <;> simp [h0, h1, h2, h3]

/-- The second round of `blinkMsg` writes the message at the start of the first line. -/
theorem blinkMsg_writes (str : List Char) :
    ∃ pre post, blinkMsg str = pre ++ (LCD_write_str str 0).1 ++ post := by
  refine ⟨(LCD_clear_line 1).1 ++ (LCD_clear_line 0).1,
    (LCD_clear_line 1).1 ++ (LCD_clear_line 0).1 ++ (blinkOnce str ++ blinkOnce str), ?_⟩
  have h0 : (LCD_clear_line 0).2 = 0 := by decide
  simp only [blinkMsg, blinkOnce, h0, List.append_assoc]

/-- C1 (LCD variant, `disAlarm`): with `PINset = 1`, `alarmEnable = 1` and an entry of four
digit keys `q0..q3` followed by the hash key, `disAlarm` returns; it ends with
`alarmEnable = 0` exactly when the stored `pin` equals `[q0,q1,q2,q3]`, and otherwise it ends
with `alarmEnable = 1` after the LCD has been sent the string "Wrong PIN". -/
theorem disAlarm_checks_pin (fuel : Nat) (s : Sys) (q0 q1 q2 q3 : Nat) (rest : List Nat)
    (h0 : q0 ≤ 9) (h1 : q1 ≤ 9) (h2 : q2 ≤ 9) (h3 : q3 ≤ 9)
    (hP : s.PINset = 1) (hA : s.alarmEnable = 1)
    (hk : s.keys = q0 :: q1 :: q2 :: q3 :: 14 :: rest) :
    ∃ t, disAlarm fuel s = some t ∧
      (t.alarmEnable = 0 ↔ s.pin = ⟨q0, q1, q2, q3⟩) ∧
      (s.pin ≠ ⟨q0, q1, q2, q3⟩ →
        t.alarmEnable = 1 ∧
        ∃ pre post, t.lcd = s.lcd ++ pre ++ (LCD_write_str "Wrong PIN".toList 0).1 ++ post) := by
  obtain ⟨u, hu, _, _, hq⟩ := enterCode_wellformed 0 s q0 q1 q2 q3 rest h0 h1 h2 h3 hk
  obtain ⟨hua, hup, _, _, _, ops, hlcd⟩ := enterCodeLoop_frame 0 17 0 _ _ 0 u hu
  obtain ⟨hunl, hpin⟩ := hq (by decide)
  have hne : ¬ (s.alarmEnable = 0) := by rw [hA]; decide
  have hmm := pinMismatch_eq u
  rw [hunl, hpin] at hmm
  by_cases heq : s.pin = ⟨q0, q1, q2, q3⟩
  · rw [if_pos heq] at hmm
    refine ⟨({ u with alarmEnable := 0 }).emit
      (clearBoth.1 ++ (LCD_write_str "Success".toList clearBoth.2).1), ?_, ?_,
      fun h => absurd heq h⟩
    · simp only [disAlarm, hne, if_false, hu, hmm]
      rfl
    · simp [Sys.emit, heq]
  · rw [if_neg heq] at hmm
    have hPu : u.PINset = 1 := by rw [hup]; exact hP
    obtain ⟨pre, post, hb⟩ := blinkMsg_writes "Wrong PIN".toList
    refine ⟨({ u.emit (blinkMsg "Wrong PIN".toList) with alarmEnable := 1 }).emit armedMsg,
      ?_, ?_, fun _ => ⟨rfl, enterPrompt ++ ops ++ pre, post ++ armedMsg, ?_⟩⟩
    · simp only [disAlarm, hne, if_false, hu, hmm]
      simp [enAlarm, Sys.emit, hPu]
    · simp [Sys.emit, heq]
    · simp only [Sys.emit, hlcd, hb, List.append_assoc]

/-- Witness for C1: stored PIN 1234, with the entries 1,2,3,4,# and 1,2,3,5,#. -/
theorem disAlarm_checks_pin_witness :
    (∃ t, disAlarm 0 { init [1, 2, 3, 4, 14] with pin := ⟨1, 2, 3, 4⟩, PINset := 1,
                                                   alarmEnable := 1 } = some t ∧
      (t.alarmEnable = 0 ↔ (⟨1, 2, 3, 4⟩ : Arr4) = ⟨1, 2, 3, 4⟩) ∧
      ((⟨1, 2, 3, 4⟩ : Arr4) ≠ ⟨1, 2, 3, 4⟩ →
        t.alarmEnable = 1 ∧
        ∃ pre post, t.lcd = (init [1, 2, 3, 4, 14]).lcd ++ pre ++
          (LCD_write_str "Wrong PIN".toList 0).1 ++ post)) ∧
    (∃ t, disAlarm 0 { init [1, 2, 3, 5, 14] with pin := ⟨1, 2, 3, 4⟩, PINset := 1,
                                                   alarmEnable := 1 } = some t ∧
      (t.alarmEnable = 0 ↔ (⟨1, 2, 3, 4⟩ : Arr4) = ⟨1, 2, 3, 5⟩) ∧
      ((⟨1, 2, 3, 4⟩ : Arr4) ≠ ⟨1, 2, 3, 5⟩ →
        t.alarmEnable = 1 ∧
        ∃ pre post, t.lcd = (init [1, 2, 3, 5, 14]).lcd ++ pre ++
          (LCD_write_str "Wrong PIN".toList 0).1 ++ post)) :=
  ⟨disAlarm_checks_pin 0 { init [1, 2, 3, 4, 14] with pin := ⟨1, 2, 3, 4⟩, PINset := 1,
                                                       alarmEnable := 1 }
    1 2 3 4 [] (by decide) (by decide) (by decide) (by decide) rfl rfl rfl,
   disAlarm_checks_pin 0 { init [1, 2, 3, 5, 14] with pin := ⟨1, 2, 3, 4⟩, PINset := 1,
                                                       alarmEnable := 1 }
    1 2 3 5 [] (by decide) (by decide) (by decide) (by decide) rfl rfl rfl⟩

/-! ## LCD variant: `succPIN` and `start` -/

end Lcd

/-! ## 7-segment variant: what leaves the flags alone -/

namespace Seg

theorem sameFlags_refl (s : Sys) : sameFlags s s := ⟨rfl, rfl⟩

theorem sameFlags_trans {s t u : Sys} (h1 : sameFlags s t) (h2 : sameFlags t u) :
    sameFlags s u := ⟨h2.1.trans h1.1, h2.2.trans h1.2⟩

theorem seg_applyEv_flags (e : Ev) (s : Sys) : sameFlags s (applyEv e s) := by
  cases e <;> exact ⟨rfl, rfl⟩

theorem seg_delayFrom_flags (evs : List Ev) :
    ∀ (s t : Sys), delayFrom evs s = some t → sameFlags s t := by
  induction evs with
  | nil => intro s t h; simp [delayFrom] at h
  | cons e rest ih =>
    intro s t h
    cases e with
    | elapsed =>
      simp only [delayFrom, Option.some.injEq] at h
      subst h
      exact ⟨rfl, rfl⟩
    | idle =>
      simp only [delayFrom] at h
      exact sameFlags_trans (seg_applyEv_flags Ev.idle s) (ih _ _ h)
    | key k =>
      simp only [delayFrom] at h
      exact sameFlags_trans (seg_applyEv_flags (Ev.key k) s) (ih _ _ h)

theorem seg_delay_flags (s t : Sys) (h : delay s = some t) : sameFlags s t :=
  seg_delayFrom_flags s.evs s t h

theorem seg_timer3Wait_flags (s t : Sys) (h : timer3Wait s = some t) : sameFlags s t := by
  unfold timer3Wait at h
  split_ifs at h
  · obtain ⟨u, hu, rfl⟩ := Option.map_eq_some'.mp h
    exact sameFlags_trans (seg_delayFrom_flags s.evs s u hu) ⟨rfl, rfl⟩
  · simp only [Option.some.injEq] at h
    subst h
    exact sameFlags_refl s

theorem seg_errRound_flags (s t : Sys) (h : errRound s = some t) : sameFlags s t := by
  unfold errRound at h
  obtain ⟨u, hu, ht⟩ := Option.bind_eq_some.mp h
  have h1 : sameFlags s (setTimer3 500 s) := ⟨rfl, rfl⟩
  exact sameFlags_trans h1 (sameFlags_trans (seg_timer3Wait_flags _ _ hu)
    (seg_delay_flags _ _ ht))

theorem seg_err_flags (s t : Sys) (h : err s = some t) : sameFlags s t := by
  unfold err at h
  obtain ⟨u4, h4, h5⟩ := Option.bind_eq_some.mp h
  obtain ⟨u3, h3, h4⟩ := Option.bind_eq_some.mp h4
  obtain ⟨u2, h2, h3⟩ := Option.bind_eq_some.mp h3
  obtain ⟨u1, h1, h2⟩ := Option.bind_eq_some.mp h2
  have h0 : sameFlags s { setError s with displayOff := 0 } := ⟨rfl, rfl⟩
  exact sameFlags_trans h0 (sameFlags_trans (seg_errRound_flags _ _ h1)
    (sameFlags_trans (seg_errRound_flags _ _ h2) (sameFlags_trans (seg_errRound_flags _ _ h3)
      (sameFlags_trans (seg_errRound_flags _ _ h4) (seg_errRound_flags _ _ h5)))))

theorem seg_waitKeyDown_flags (evs : List Ev) :
    ∀ (s t : Sys), waitKeyDown evs s = some t → sameFlags s t := by
  induction evs with
  | nil =>
    intro s t h
    simp only [waitKeyDown] at h
    split_ifs at h
    simp only [Option.some.injEq] at h
    subst h
    exact ⟨rfl, rfl⟩
  | cons e rest ih =>
    intro s t h
    simp only [waitKeyDown] at h
    split_ifs at h
    · exact sameFlags_trans (seg_applyEv_flags e s) (ih _ _ h)
    · simp only [Option.some.injEq] at h
      subst h
      exact ⟨rfl, rfl⟩

/-- The function `succPIN` leaves `alarmEnable` alone and ends with `PINset = 1`. -/
theorem seg_succPIN_flags (s t : Sys) (h : succPIN s = some t) :
    t.alarmEnable = s.alarmEnable ∧ t.PINset = 1 := by
  unfold succPIN at h
  obtain ⟨u7, h7, rfl⟩ := Option.map_eq_some'.mp h
  obtain ⟨u6, h6, h7⟩ := Option.bind_eq_some.mp h7
  obtain ⟨u5, h5, rfl⟩ := Option.map_eq_some'.mp h6
  obtain ⟨u4, h4, h5⟩ := Option.bind_eq_some.mp h5
  obtain ⟨u3, h3, h4⟩ := Option.bind_eq_some.mp h4
  obtain ⟨u2, h2, h3⟩ := Option.bind_eq_some.mp h3
  obtain ⟨u1, h1, h2⟩ := Option.bind_eq_some.mp h2
  have f1 := seg_timer3Wait_flags _ _ h1
  have f2 := seg_timer3Wait_flags _ _ h2
  have f3 := seg_delay_flags _ _ h3
  have f4 := seg_timer3Wait_flags _ _ h4
  have f5 := seg_delay_flags _ _ h5
  have f7 := seg_waitKeyDown_flags _ _ _ h7
  refine ⟨?_, rfl⟩
  show u7.alarmEnable = s.alarmEnable
  rw [f7.1]
  show u5.alarmEnable = s.alarmEnable
  rw [f5.1, f4.1]
  show u3.alarmEnable = s.alarmEnable
  rw [f3.1, f2.1]
  show u1.alarmEnable = s.alarmEnable
  rw [f1.1]
  rfl

theorem seg_fillPIN_flags (index cp : Int) (s : Sys) : sameFlags s (fillPIN index cp s).2 := by
  unfold fillPIN
  split_ifs <;> exact ⟨rfl, rfl⟩

theorem seg_entryBody_flags (cp next index errr : Int) (s : Sys) :
    sameFlags s (entryBody cp next index errr s).2.2.2 := by
  unfold entryBody
  dsimp only
  split_ifs <;> first | exact seg_fillPIN_flags index cp s | exact ⟨rfl, rfl⟩

theorem seg_entryLoop_flags (cp : Int) (fuel : Nat) :
    ∀ (next index errr : Int) (s : Sys) (r : Int × Int × Int × Sys),
      entryLoop cp fuel next index errr s = some r → sameFlags s r.2.2.2 := by
  induction fuel with
  | zero => intro next index errr s r h; simp [entryLoop] at h
  | succ f ih =>
    intro next index errr s r h
    rw [entryLoop] at h
    split_ifs at h with h1 h2
    · exact sameFlags_trans (seg_entryBody_flags cp next index errr s) (ih _ _ _ _ _ h)
    · cases hev : s.evs with
      | nil => simp [hev] at h
      | cons e rest =>
        simp only [hev] at h
        have f1 : sameFlags s (applyEv e { s with evs := rest }) :=
          sameFlags_trans (⟨rfl, rfl⟩ : sameFlags s { s with evs := rest })
            (seg_applyEv_flags e _)
        exact sameFlags_trans f1
          (sameFlags_trans (seg_entryBody_flags cp next index errr _) (ih _ _ _ _ _ h))
    · simp only [Option.some.injEq] at h
      subst h
      exact sameFlags_refl s

/-- The function `enterCode` leaves `alarmEnable` alone; `PINset` is as before or 1. -/
theorem seg_enterCodeLoop_flags (cp : Int) (fuel : Nat) :
    ∀ (strt next : Int) (s : Sys) (r : Int) (t : Sys),
      enterCodeLoop cp fuel strt next s = some (r, t) →
      t.alarmEnable = s.alarmEnable ∧ (t.PINset = s.PINset ∨ t.PINset = 1) := by
  induction fuel with
  | zero => intro strt next s r t h; simp [enterCodeLoop] at h
  | succ f ih =>
    intro strt next s r t h
    rw [enterCodeLoop] at h
    cases hl : entryLoop cp f next (if strt = 1 then -1 else 0) 0
        (enableTimer1Blink500
          (if cp = 1 then setEnterCode { s with input := -1 }
           else setEnterPIN { s with input := -1 })) with
    | none => simp [hl] at h
    | some q =>
      obtain ⟨next1, index1, errr, s3⟩ := q
      simp only [hl] at h
      have f0 : sameFlags s (enableTimer1Blink500
          (if cp = 1 then setEnterCode { s with input := -1 }
           else setEnterPIN { s with input := -1 })) := by
        split_ifs <;> exact ⟨rfl, rfl⟩
      have f1 := sameFlags_trans f0 (seg_entryLoop_flags cp f _ _ _ _ _ hl)
      have f2 : sameFlags s (disableTimer1 s3) :=
        sameFlags_trans f1 (⟨rfl, rfl⟩ : sameFlags s3 (disableTimer1 s3))
      generalize (if index1 ≠ 5 then (1 : Int) else errr) = e1 at h
      by_cases he : e1 ≠ 0
      · rw [if_pos he] at h
        cases hr : err (disableTimer1 s3) with
        | none => simp [hr] at h
        | some s5 =>
          simp only [hr] at h
          have f3 := sameFlags_trans f2 (seg_err_flags _ _ hr)
          by_cases hc : cp = 0
          · rw [if_pos hc] at h
            simp only [Option.some.injEq, Prod.mk.injEq] at h
            obtain ⟨_, rfl⟩ := h
            exact ⟨f3.1, Or.inl f3.2⟩
          · rw [if_neg hc] at h
            obtain ⟨ha, hp⟩ := ih _ _ _ _ _ h
            refine ⟨ha.trans f3.1, ?_⟩
            rcases hp with hp | hp
            · exact Or.inl (hp.trans f3.2)
            · exact Or.inr hp
      · rw [if_neg he] at h
        obtain ⟨u, hu, huv⟩ := Option.map_eq_some'.mp h
        simp only [Prod.mk.injEq] at huv
        obtain ⟨_, rfl⟩ := huv
        obtain ⟨ha, hp⟩ := seg_succPIN_flags _ _ hu
        exact ⟨ha.trans f2.1, Or.inr hp⟩

theorem seg_startWait_flags (evs : List Ev) :
    ∀ (s t : Sys), startWait evs s = some t → sameFlags s t := by
  induction evs with
  | nil =>
    intro s t h
    simp only [startWait] at h
    split_ifs at h
    simp only [Option.some.injEq] at h
    subst h
    exact ⟨rfl, rfl⟩
  | cons e rest ih =>
    intro s t h
    simp only [startWait] at h
    split_ifs at h
    · simp only [Option.some.injEq] at h
      subst h
      exact ⟨rfl, rfl⟩
    · exact sameFlags_trans (seg_applyEv_flags e s) (ih _ _ h)

theorem seg_start_flags (fuel : Nat) (s t : Sys) (h : start fuel s = some t) :
    t.alarmEnable = s.alarmEnable ∧ (t.PINset = s.PINset ∨ t.PINset = 1) := by
  unfold start at h
  cases hw : startWait s.evs (enableTimer1Blink500 (setStart s)) with
  | none => simp [hw] at h
  | some s1 =>
    simp only [hw] at h
    obtain ⟨q, hq, rfl⟩ := Option.map_eq_some'.mp h
    obtain ⟨r, u⟩ := q
    have f1 := seg_startWait_flags _ _ _ hw
    obtain ⟨ha, hp⟩ := seg_enterCodeLoop_flags 1 fuel 1 1 _ r u hq
    refine ⟨ha.trans f1.1, ?_⟩
    rcases hp with hp | hp
    · exact Or.inl (hp.trans f1.2)
    · exact Or.inr hp

/-- A pending interrupt event between two iterations of the main loop leads to a reachable
state. -/
theorem seg_reachable_tick (s : Sys) (h : Reachable s) : Reachable (tick s) := by
  unfold tick
  cases hev : s.evs with
  | nil => exact h
  | cons e rest => exact Reachable.tick s e rest h hev

end Seg

/-! ## Armed implies PIN set, in both variants -/

namespace Lcd

end Lcd

namespace Seg

/-- C2 (7-segment variant, `disAlarm`), the code at the failing input: in the session
`sessionDisarm` from reset the PIN 5000 is stored and the system armed; then, with key D held,
the presses 5 A A A # make `disAlarm` end with `alarmEnable = 0`, although three of the four
presses between D and the hash are the key A.  Each A makes `fillPIN` return 2, and the next
call of `fillPIN` overwrites `errr`. -/
theorem seg_disAlarm_accepts_nondigits :
    Reachable beforeDisarm ∧
    beforeDisarm.alarmEnable = 1 ∧ beforeDisarm.PINset = 1 ∧
    beforeDisarm.pin = ⟨5, 0, 0, 0⟩ ∧ beforeDisarm.unlockPIN = ⟨-2, 0, 0, 0⟩ ∧
    beforeDisarm.input = 0xD ∧ beforeDisarm.keypadClear = 0 ∧
    beforeDisarm.evs = [Ev.idle, Ev.key 5, Ev.idle, Ev.key 0xA, Ev.idle, Ev.key 0xA, Ev.idle,
      Ev.key 0xA, Ev.idle, Ev.key 0xE, Ev.idle] ++ holds5 ++ [Ev.key 1] ∧
    (disAlarm 40 beforeDisarm).map (fun t => (t.alarmEnable, t.unlockPIN))
      = some (0, ⟨5, 0, 0, 0⟩) :=
  ⟨seg_reachable_tick _ (seg_reachable_tick _
      (Reachable.step 40 (tick (tick afterSetup)) afterArm
        (seg_reachable_tick _ (seg_reachable_tick _
          (Reachable.step 40 _ afterSetup (Reachable.start sessionDisarm) (by rfl))))
        (by rfl))),
   by decide, by decide, by decide, by decide, by decide, by decide, by decide, by decide⟩

/-- C6 (7-segment variant, `enterCode`), the code at the failing input: first pass with the
trigger key A held and the presses 1 2 3 A # registered; the press A makes `fillPIN` return
2, the press of the hash key overwrites `errr` with 0, the loop ends with `index = 5` and
`errr = 0`, `err()` does not run (the display never receives "ERR") and `succPIN` is
reached: `enterCode(1)` returns 0 with `PINset = 1` and `pin = [1,2,3,0]`. -/
theorem seg_pass_with_nondigit_accepted :
    heldTrigger.input = 0xA ∧ heldTrigger.keypadClear = 0 ∧
    (fillPIN 3 1 { heldTrigger with input := 0xA }).1 = 2 ∧
    (entryLoop 1 40 1 (-1) 0
        (enableTimer1Blink500 (setEnterCode { heldTrigger with input := -1 }))).map
      (fun r => (r.2.1, r.2.2.1)) = some (5, 0) ∧
    (enterCode 1 40 heldTrigger).map (fun r => (r.1, r.2.PINset, r.2.pin))
      = some (0, 1, ⟨1, 2, 3, 0⟩) ∧
    (⟨decodeChar 'e', decodeChar 'r', decodeChar 'r', 21⟩ : Arr4) ∉
      (sysOf ((enterCode 1 40 heldTrigger).map (fun r => r.2)) (init [])).shown := by
  refine ⟨by decide, by decide, by decide, by decide, by decide, by decide⟩

/-- C7 (7-segment variant), the code at the failing input: the session `sessionBadPin` from
reset (A, then A 1 2 3 #) is accepted as a PIN entry; the state reached has `PINset = 1`
and `pin = [-1,1,2,3]`, and `setPIN` has put the index -1 into `digits`. -/
theorem seg_PINset_with_sentinel :
    Reachable (sysOf (selection 40 (init sessionBadPin)) (init [])) ∧
    (sysOf (selection 40 (init sessionBadPin)) (init [])).PINset = 1 ∧
    (sysOf (selection 40 (init sessionBadPin)) (init [])).pin = ⟨-1, 1, 2, 3⟩ ∧
    (⟨-1, 1, 2, 3⟩ : Arr4) ∈ (sysOf (selection 40 (init sessionBadPin)) (init [])).shown :=
  ⟨Reachable.step 40 _ _ (Reachable.start sessionBadPin) (by rfl),
   by decide, by decide, by decide⟩

end Seg

/-! ## Keys without a function; what a successful disarm leaves -/

/-- C12 (both variants, `selection`): with `PINset = 1` and a key that is none of A, C, D,
one call of `selection()` returns and leaves `pin`, `unlockPIN`, `PINset` and `alarmEnable`
as they were (in the 7-segment variant the whole state). -/
theorem selection_other_key_keeps_state :
    (∀ (fuel : Nat) (s : Lcd.Sys) (k : Nat) (rest : List Nat),
      s.PINset = 1 → s.keys = k :: rest → k ≠ 0xA → k ≠ 0xC → k ≠ 0xD →
      ∃ t, Lcd.selection fuel s = some t ∧ t.pin = s.pin ∧ t.unlockPIN = s.unlockPIN ∧
        t.PINset = s.PINset ∧ t.alarmEnable = s.alarmEnable) ∧
    (∀ (fuel : Nat) (s : Seg.Sys),
      s.PINset = 1 → s.input ≠ 0xA → s.input ≠ 0xC → s.input ≠ 0xD →
      Seg.selection fuel s = some s) := by
  constructor
  · intro fuel s k rest hP hk hA hC hD
    have h0 : ¬ (s.PINset = 0) := by rw [hP]; decide
    have e1 : ¬ ((k : Int) = 12) := by omega
    have e2 : ¬ ((k : Int) = 10) := by omega
    have e3 : ¬ ((k : Int) = 13) := by omega
    refine ⟨{ (s.emit (Lcd.displayMenu s)) with
      pressedKey := (k : Int), newKeyInput := 1, keys := rest }, ?_, rfl, rfl, rfl, rfl⟩
    simp [Lcd.selection, Lcd.getNewKey, Lcd.Sys.emit, h0, hk, e1, e2, e3]
  · intro fuel s hP hA hC hD
    have h0 : ¬ (s.PINset = 0) := by rw [hP]; decide
    simp [Seg.selection, h0, hA, hC, hD]

/-- Witness for C12: key 5 in both variants. -/
theorem selection_other_key_keeps_state_witness :
    (∃ t, Lcd.selection 0 { Lcd.init [5] with PINset := 1 } = some t ∧
        t.pin = (Lcd.init [5]).pin ∧ t.unlockPIN = (Lcd.init [5]).unlockPIN ∧
        t.PINset = 1 ∧ t.alarmEnable = (Lcd.init [5]).alarmEnable) ∧
    Seg.selection 0 { Seg.init [] with PINset := 1, input := 5 }
      = some { Seg.init [] with PINset := 1, input := 5 } :=
  ⟨selection_other_key_keeps_state.1 0 { Lcd.init [5] with PINset := 1 } 5 [] rfl rfl
      (by decide) (by decide) (by decide),
   selection_other_key_keeps_state.2 0 { Seg.init [] with PINset := 1, input := 5 } rfl
      (by decide) (by decide) (by decide)⟩

namespace Seg

theorem seg_applyEv_pin (e : Ev) (s : Sys) : (applyEv e s).pin = s.pin := by
  cases e <;> rfl

theorem seg_delayFrom_pin (evs : List Ev) :
    ∀ (s t : Sys), delayFrom evs s = some t → t.pin = s.pin := by
  induction evs with
  | nil => intro s t h; simp [delayFrom] at h
  | cons e rest ih =>
    intro s t h
    cases e with
    | elapsed =>
      simp only [delayFrom, Option.some.injEq] at h
      subst h
      rfl
    | idle =>
      simp only [delayFrom] at h
      exact (ih _ _ h).trans (seg_applyEv_pin Ev.idle s)
    | key k =>
      simp only [delayFrom] at h
      exact (ih _ _ h).trans (seg_applyEv_pin (Ev.key k) s)

theorem seg_timer3Wait_pin (s t : Sys) (h : timer3Wait s = some t) : t.pin = s.pin := by
  unfold timer3Wait at h
  split_ifs at h
  · obtain ⟨u, hu, rfl⟩ := Option.map_eq_some'.mp h
    exact seg_delayFrom_pin s.evs s u hu
  · simp only [Option.some.injEq] at h
    subst h
    rfl

theorem seg_errRound_pin (s t : Sys) (h : errRound s = some t) : t.pin = s.pin := by
  unfold errRound at h
  obtain ⟨u, hu, ht⟩ := Option.bind_eq_some.mp h
  exact (seg_delayFrom_pin _ _ _ ht).trans (seg_timer3Wait_pin (setTimer3 500 s) u hu)

theorem seg_err_pin (s t : Sys) (h : err s = some t) : t.pin = s.pin := by
  unfold err at h
  obtain ⟨u4, h4, h5⟩ := Option.bind_eq_some.mp h
  obtain ⟨u3, h3, h4⟩ := Option.bind_eq_some.mp h4
  obtain ⟨u2, h2, h3⟩ := Option.bind_eq_some.mp h3
  obtain ⟨u1, h1, h2⟩ := Option.bind_eq_some.mp h2
  rw [seg_errRound_pin _ _ h5, seg_errRound_pin _ _ h4, seg_errRound_pin _ _ h3,
    seg_errRound_pin _ _ h2, seg_errRound_pin _ _ h1]
  rfl

theorem seg_waitKeyDown_pin (evs : List Ev) :
    ∀ (s t : Sys), waitKeyDown evs s = some t → t.pin = s.pin := by
  induction evs with
  | nil =>
    intro s t h
    simp only [waitKeyDown] at h
    split_ifs at h
    simp only [Option.some.injEq] at h
    subst h
    rfl
  | cons e rest ih =>
    intro s t h
    simp only [waitKeyDown] at h
    split_ifs at h
    · exact (ih _ _ h).trans (seg_applyEv_pin e s)
    · simp only [Option.some.injEq] at h
      subst h
      rfl

theorem seg_succPIN_pin (s t : Sys) (h : succPIN s = some t) : t.pin = s.pin := by
  unfold succPIN at h
  obtain ⟨u7, h7, rfl⟩ := Option.map_eq_some'.mp h
  obtain ⟨u6, h6, h7⟩ := Option.bind_eq_some.mp h7
  obtain ⟨u5, h5, rfl⟩ := Option.map_eq_some'.mp h6
  obtain ⟨u4, h4, h5⟩ := Option.bind_eq_some.mp h5
  obtain ⟨u3, h3, h4⟩ := Option.bind_eq_some.mp h4
  obtain ⟨u2, h2, h3⟩ := Option.bind_eq_some.mp h3
  obtain ⟨u1, h1, h2⟩ := Option.bind_eq_some.mp h2
  show u7.pin = s.pin
  rw [seg_waitKeyDown_pin _ _ _ h7]
  show u5.pin = s.pin
  rw [seg_delayFrom_pin _ _ _ h5, seg_timer3Wait_pin _ _ h4]
  show u3.pin = s.pin
  rw [seg_delayFrom_pin _ _ _ h3, seg_timer3Wait_pin _ _ h2]
  show u1.pin = s.pin
  rw [seg_timer3Wait_pin _ _ h1]
  rfl

/-- With `changePIN` other than 1, `fillPIN` does not store into `pin`. -/
theorem seg_fillPIN_pin (index cp : Int) (s : Sys) (hc : cp ≠ 1) :
    (fillPIN index cp s).2.pin = s.pin := by
  unfold fillPIN
  split_ifs <;> rfl

theorem seg_entryBody_pin (cp next index errr : Int) (s : Sys) (hc : cp ≠ 1) :
    (entryBody cp next index errr s).2.2.2.pin = s.pin := by
  unfold entryBody
  dsimp only
  split_ifs <;> first | exact seg_fillPIN_pin index cp s hc | rfl

theorem seg_entryLoop_pin (cp : Int) (hc : cp ≠ 1) (fuel : Nat) :
    ∀ (next index errr : Int) (s : Sys) (r : Int × Int × Int × Sys),
      entryLoop cp fuel next index errr s = some r → r.2.2.2.pin = s.pin := by
  induction fuel with
  | zero => intro next index errr s r h; simp [entryLoop] at h
  | succ f ih =>
    intro next index errr s r h
    rw [entryLoop] at h
    split_ifs at h with h1 h2
    · exact (ih _ _ _ _ _ h).trans (seg_entryBody_pin cp next index errr s hc)
    · cases hev : s.evs with
      | nil => simp [hev] at h
      | cons e rest =>
        simp only [hev] at h
        rw [ih _ _ _ _ _ h, seg_entryBody_pin cp next index errr _ hc, seg_applyEv_pin]
    · simp only [Option.some.injEq] at h
      subst h
      rfl

/-- The function `enterCode(0)` leaves `pin` alone. -/
theorem seg_enterCodeLoop_pin (fuel : Nat) :
    ∀ (strt next : Int) (s : Sys) (r : Int) (t : Sys),
      enterCodeLoop 0 fuel strt next s = some (r, t) → t.pin = s.pin := by
  induction fuel with
  | zero => intro strt next s r t h; simp [enterCodeLoop] at h
  | succ f ih =>
    intro strt next s r t h
    rw [enterCodeLoop] at h
    simp only [show ¬ ((0 : Int) = 1) by decide, if_false] at h
    cases hl : entryLoop 0 f next (if strt = 1 then -1 else 0) 0
        (enableTimer1Blink500 (setEnterPIN { s with input := -1 })) with
    | none => simp [hl] at h
    | some q =>
      obtain ⟨next1, index1, errr, s3⟩ := q
      simp only [hl] at h
      have f1 : s3.pin = s.pin := seg_entryLoop_pin 0 (by decide) f _ _ _ _ _ hl
      generalize (if index1 ≠ 5 then (1 : Int) else errr) = e1 at h
      by_cases he : e1 ≠ 0
      · rw [if_pos he] at h
        cases hr : err (disableTimer1 s3) with
        | none => simp [hr] at h
        | some s5 =>
          simp only [hr, if_true, Option.some.injEq, Prod.mk.injEq] at h
          obtain ⟨_, rfl⟩ := h
          rw [seg_err_pin _ _ hr]
          exact f1
      · rw [if_neg he] at h
        obtain ⟨u, hu, huv⟩ := Option.map_eq_some'.mp h
        simp only [Prod.mk.injEq] at huv
        obtain ⟨_, rfl⟩ := huv
        rw [seg_succPIN_pin _ _ hu]
        exact f1

/-- The comparison loop of `disAlarm` yields 0 when the arrays agree and 1 otherwise. -/
theorem seg_pinMismatch_eq (s : Sys) :
    pinMismatch s = if s.pin = s.unlockPIN then 0 else 1 := by
  rcases hp : s.pin with ⟨a0, a1, a2, a3⟩
  rcases hu : s.unlockPIN with ⟨b0, b1, b2, b3⟩
  simp only [pinMismatch, Arr4.get, hp, hu, Arr4.mk.injEq]
  simp only [show ¬ ((1 : Int) = 0) by decide, show ¬ ((2 : Int) = 0) by decide,
    show ¬ ((3 : Int) = 0) by decide, show ¬ ((2 : Int) = 1) by decide,
    show ¬ ((3 : Int) = 1) by decide, show ¬ ((3 : Int) = 2) by decide, if_true, if_false]
  by_cases h0 : a0 = b0 <;> by_cases h1 : a1 = b1 <;> by_cases h2 : a2 = b2 <;>
    by_cases h3 : a3 = b3 <;> simp [h0, h1, h2, h3]

/-- C11, counterexample (7-segment variant, `disAlarm`): in the session `sessionRearm` the
system is armed with PIN 1234 and disarmed with the entry 1 2 3 4 #; afterwards
`alarmEnable = 0` and `pin` is unchanged, but `PINset` is 0, not 1, and on the following key
A the call of `selection` does not arm: it is inside `start`, waiting for a new PIN entry. -/
theorem seg_disarm_resets_PINset :
    Reachable rearmArmed ∧ rearmArmed.alarmEnable = 1 ∧ rearmArmed.PINset = 1 ∧
    rearmArmed.pin = ⟨1, 2, 3, 4⟩ ∧ rearmArmed.input = 0xD ∧
    (selection 40 rearmArmed).map (fun t => (t.alarmEnable, t.PINset, t.pin, t.unlockPIN))
      = some (0, 0, ⟨1, 2, 3, 4⟩, ⟨1, 2, 3, 4⟩) ∧
    rearmDisarmed.PINset ≠ 1 ∧
    (tick (tick rearmDisarmed)).input = 0xA ∧
    selection 40 (tick (tick rearmDisarmed)) = none :=
  ⟨seg_reachable_tick _ (seg_reachable_tick _
      (Reachable.step 40 _ _
        (seg_reachable_tick _ (seg_reachable_tick _
          (Reachable.step 40 _ _ (Reachable.start sessionRearm) (by rfl))))
        (by rfl))),
   by decide, by decide, by decide, by decide, by decide, by decide, by decide, by decide⟩

/-- C11, amended (7-segment variant, `disAlarm`): a successful disarm, that is a call of
`disAlarm` made with `alarmEnable = 1` in which `enterCode(0)` returns 0 with `unlockPIN`
equal to `pin`, returns and clears both flags: afterwards `alarmEnable = 0` and
`PINset = 0`, `pin` is unchanged and `unlockPIN` equals `pin`; and from a state with these
flags a call of `selection` (whatever the key) runs `start`, which asks for a new PIN, and
ends with `alarmEnable = 0`: the key A does not re-arm. -/
theorem seg_disarm_clears_PINset (fuel : Nat) (s s1 : Sys) (hA : s.alarmEnable = 1)
    (he : enterCode 0 fuel s = some (0, s1)) (hm : s1.unlockPIN = s1.pin) :
    ∃ t, disAlarm fuel s = some t ∧ t.alarmEnable = 0 ∧ t.PINset = 0 ∧ t.pin = s.pin ∧
      t.unlockPIN = t.pin ∧
      ∀ (fuel2 : Nat) (t2 : Sys), sameFlags t t2 →
        selection fuel2 t2 = (start fuel2 t2).map (fun w => { w with input := -1 }) ∧
        ∀ u, selection fuel2 t2 = some u → u.alarmEnable = 0 := by
  have hne : ¬ (s.alarmEnable = 0) := by rw [hA]; decide
  have hp : s1.pin = s.pin := seg_enterCodeLoop_pin fuel 1 1 s 0 s1 he
  have hmm : ¬ (pinMismatch s1 = 1) := by
    rw [seg_pinMismatch_eq s1, if_pos hm.symm]
    decide
  refine ⟨{ s1 with alarmEnable := 0, PINset := 0 }, ?_, rfl, rfl, hp, hm, ?_⟩
  · unfold disAlarm
    rw [if_neg hne]
    simp only [he]
    rw [if_neg (by decide), if_neg hmm]
  · intro fuel2 t2 hf
    have hP2 : t2.PINset = 0 := hf.2
    have hA2 : t2.alarmEnable = 0 := hf.1
    have hsel : selection fuel2 t2 = (start fuel2 t2).map (fun w => { w with input := -1 }) := by
      unfold selection
      rw [if_pos hP2]
    refine ⟨hsel, ?_⟩
    intro u hs
    rw [hsel] at hs
    obtain ⟨w, hw, rfl⟩ := Option.map_eq_some'.mp hs
    show w.alarmEnable = 0
    rw [(seg_start_flags fuel2 t2 w hw).1]
    exact hA2

/-- Witness for the amended C11: the disarm of `sessionRearm`, armed with the PIN 1234 and
given the entry 1 2 3 4 #. -/
theorem seg_disarm_clears_PINset_witness :
    rearmArmed.alarmEnable = 1 ∧
    enterCode 0 40 rearmArmed = some (0, (sysOf ((enterCode 0 40 rearmArmed).map
      (fun r => r.2)) (init []))) ∧
    (sysOf ((enterCode 0 40 rearmArmed).map (fun r => r.2)) (init [])).unlockPIN =
      (sysOf ((enterCode 0 40 rearmArmed).map (fun r => r.2)) (init [])).pin ∧
    ∃ t, disAlarm 40 rearmArmed = some t ∧ t.alarmEnable = 0 ∧ t.PINset = 0 ∧
      t.pin = rearmArmed.pin ∧ t.unlockPIN = t.pin ∧
      ∀ (fuel2 : Nat) (t2 : Sys), sameFlags t t2 →
        selection fuel2 t2 = (start fuel2 t2).map (fun w => { w with input := -1 }) ∧
        ∀ u, selection fuel2 t2 = some u → u.alarmEnable = 0 :=
  ⟨by decide, by decide, by decide,
   seg_disarm_clears_PINset 40 rearmArmed
     (sysOf ((enterCode 0 40 rearmArmed).map (fun r => r.2)) (init []))
     (by decide) (by decide) (by decide)⟩

end Seg

/-! ## 7-segment variant: the keypad scan -/

namespace Seg

theorem keyRowMask_high (i : Nat) : keyRowMask i &&& 0xF0 = 0 := by
  unfold keyRowMask
  split <;> rfl

/-- Grounding a row leaves the upper half of `PORTC` as it is. -/
theorem rowPort_high (a i : Nat) : ((a &&& 0xF0) ||| keyRowMask i) &&& 0xF0 = a &&& 0xF0 := by
  apply Nat.eq_of_testBit_eq
  intro k
  have := congrArg (fun x => x.testBit k) (keyRowMask_high i)
  simp only [Nat.testBit_and, Nat.testBit_or, Nat.zero_testBit] at this ⊢
  cases h1 : a.testBit k <;> cases h2 : Nat.testBit 240 k <;>
    cases h3 : (keyRowMask i).testBit k <;> simp_all

/-- The column loop finds nothing when no column from `j0` on reads low. -/
theorem colLoop_none (v i : Nat) (n : Nat) :
    ∀ j0 : Nat, (∀ j, j0 ≤ j → j < j0 + n → v &&& keyColMask j ≠ 0) →
      colLoop v i n j0 = none := by
  induction n with
  | zero => intro j0 _; rfl
  | succ n ih =>
    intro j0 h
    rw [colLoop, if_neg (h j0 (le_refl _) (by omega))]
    exact ih (j0 + 1) (fun j h1 h2 => h j (by omega) (by omega))

/-- The column loop returns the key of the first column that reads low. -/
theorem colLoop_first (v i : Nat) (n : Nat) :
    ∀ j0 j : Nat, j0 ≤ j → j < j0 + n → v &&& keyColMask j = 0 →
      (∀ j2, j0 ≤ j2 → j2 < j → v &&& keyColMask j2 ≠ 0) →
      colLoop v i n j0 = some (keyPressed i j) := by
  induction n with
  | zero => intro j0 j h1 h2; omega
  | succ n ih =>
    intro j0 j h1 h2 hlow hbefore
    rw [colLoop]
    by_cases hj : j0 = j
    · subst hj
      rw [if_pos hlow]
    · rw [if_neg (hbefore j0 (le_refl _) (by omega))]
      exact ih (j0 + 1) j (by omega) (by omega) hlow
        (fun j2 h3 h4 => hbefore j2 (by omega) h4)

/-- The row loop returns -1 when no cell from row `i0` on reads low. -/
theorem rowLoop_none (pinOf : Nat → Nat) (b : Nat) (n : Nat) :
    ∀ (i0 portc : Nat), portc &&& 0xF0 = b →
      (∀ i j, i0 ≤ i → i < i0 + n → j < 4 →
        pinOf (b ||| keyRowMask i) &&& keyColMask j ≠ 0) →
      (rowLoop pinOf n i0 portc).1 = -1 := by
  induction n with
  | zero => intro i0 portc _ _; rfl
  | succ n ih =>
    intro i0 portc hb h
    rw [rowLoop, hb]
    rw [colLoop_none _ i0 4 0 (fun j _ h2 => h i0 j (le_refl _) (by omega) (by omega))]
    have hb2 : (b ||| keyRowMask i0) &&& 0xF0 = b := by
      rw [← hb, rowPort_high]
    exact ih (i0 + 1) _ hb2 (fun i j h1 h2 h3 => h i j (by omega) (by omega) h3)

/-- The row loop returns the key of the first cell, rows first, that reads low. -/
theorem rowLoop_first (pinOf : Nat → Nat) (b : Nat) (n : Nat) :
    ∀ (i0 portc i j : Nat), portc &&& 0xF0 = b → i0 ≤ i → i < i0 + n → j < 4 →
      pinOf (b ||| keyRowMask i) &&& keyColMask j = 0 →
      (∀ i2 j2, i0 ≤ i2 → j2 < 4 → (i2 < i ∨ (i2 = i ∧ j2 < j)) →
        pinOf (b ||| keyRowMask i2) &&& keyColMask j2 ≠ 0) →
      (rowLoop pinOf n i0 portc).1 = keyPressed i j := by
  induction n with
  | zero => intro i0 portc i j _ h1 h2; omega
  | succ n ih =>
    intro i0 portc i j hb h1 h2 hj hlow hbefore
    rw [rowLoop, hb]
    by_cases hi : i0 = i
    · subst hi
      rw [colLoop_first _ i0 4 0 j (Nat.zero_le _) (by omega) hlow
        (fun j2 _ h4 => hbefore i0 j2 (le_refl _) (by omega) (Or.inr ⟨rfl, h4⟩))]
    · rw [colLoop_none _ i0 4 0
        (fun j2 _ h4 => hbefore i0 j2 (le_refl _) (by omega) (Or.inl (by omega)))]
      have hb2 : (b ||| keyRowMask i0) &&& 0xF0 = b := by
        rw [← hb, rowPort_high]
      exact ih (i0 + 1) _ i j hb2 (by omega) (by omega) hj hlow
        (fun i2 j2 h3 h4 h5 => hbefore i2 j2 (by omega) h4 h5)

/-- C13 (7-segment variant, `readNumPad`): call a cell `(i, j)` low when column `j` reads
low while row `i` is grounded.  `readNumPad` returns `keyPressed[i][j]` for the low cell
`(i, j)` that comes first (lower row, then lower column), and -1 when no cell is low. -/
theorem readNumPad_first_low (pinOf : Nat → Nat) (portc : Nat) :
    (∀ i j : Nat, i < 4 → j < 4 →
      pinOf ((portc &&& 0xF0) ||| keyRowMask i) &&& keyColMask j = 0 →
      (∀ i2 j2 : Nat, i2 < 4 → j2 < 4 → (i2 < i ∨ (i2 = i ∧ j2 < j)) →
        pinOf ((portc &&& 0xF0) ||| keyRowMask i2) &&& keyColMask j2 ≠ 0) →
      (readNumPad pinOf portc).1 = keyPressed i j) ∧
    ((∀ i j : Nat, i < 4 → j < 4 →
        pinOf ((portc &&& 0xF0) ||| keyRowMask i) &&& keyColMask j ≠ 0) →
      (readNumPad pinOf portc).1 = -1) := by
  constructor
  · intro i j hi hj hlow hbefore
    exact rowLoop_first pinOf (portc &&& 0xF0) 4 0 portc i j rfl (Nat.zero_le _) (by omega) hj
      hlow (fun i2 j2 _ h4 h5 => hbefore i2 j2 (by omega) h4 h5)
  · intro h
    exact rowLoop_none pinOf (portc &&& 0xF0) 4 0 portc rfl
      (fun i j _ h2 h3 => h i j (by omega) h3)

/-- Witness for C13: keys 3 and 5 held together give 3 (row 0 before row 1); a keypad with
no key held gives -1. -/
theorem readNumPad_first_low_witness :
    (readNumPad keys3and5Held 0xFF).1 = keyPressed 0 2 ∧
    (readNumPad (fun _ => 0xF0) 0xFF).1 = -1 :=
  ⟨(readNumPad_first_low keys3and5Held 0xFF).1 0 2 (by decide) (by decide) (by decide)
      (by
        intro i2 j2 h1 h2 h3
        interval_cases i2 <;> interval_cases j2 <;> first | decide | omega),
   (readNumPad_first_low (fun _ => 0xF0) 0xFF).2 (by
      intro i j h1 h2
      interval_cases j <;> decide)⟩

/-- What a run of `checkNumPad` does to the globals is what one of the interrupt events
does: nothing, `idle`, or `key k` with the value `k` returned by `readNumPad`. -/
theorem checkNumPad_event (pinOf : Nat → Nat) (portc : Nat) (s : Sys) :
    (checkNumPad pinOf portc s).2 = s ∨
    (checkNumPad pinOf portc s).2 = applyEv Ev.idle s ∨
    (checkNumPad pinOf portc s).2 = applyEv (Ev.key (readNumPad pinOf (portc &&& 0xF0)).1) s := by
  unfold checkNumPad
  split_ifs
  · exact Or.inl rfl
  · exact Or.inr (Or.inr rfl)
  · exact Or.inr (Or.inl rfl)

/-- A tick entered with `keypadClear = 0` on which some but not all four columns read low
calls `readNumPad` and stores its result in `input`. -/
theorem checkNumPad_held_rewrites (pinOf : Nat → Nat) (portc : Nat) (s : Sys)
    (h1 : pinOf (portc &&& 0xF0) &&& 0xF0 ≠ 0x00) (h2 : pinOf (portc &&& 0xF0) &&& 0xF0 ≠ 0xF0) :
    (checkNumPad pinOf portc s).2 =
      { s with keypadClear := 0, input := (readNumPad pinOf (portc &&& 0xF0)).1 } ∧
    (checkNumPad pinOf portc s).1 = (readNumPad pinOf (portc &&& 0xF0)).2 := by
  unfold checkNumPad
  simp [h1, h2]

/-- C14 (7-segment variant, `checkNumPad`), the code at the failing input: a tick entered
with `keypadClear = 0` while key 1 is still held (`PINC & 0xF0` is 0x70, not 0xF0) and
`input` has been cleared to -1 by the main flow.  The early return is taken only for
`temp == 0x00`, so `readNumPad` runs (it leaves row 0 grounded, `PORTC = 0xF7`) and `input`
is written again with 1, on a tick that does not follow a tick with all columns idle. -/
theorem seg_checkNumPad_rereports_held_key :
    key1Held (0xFF &&& 0xF0) &&& 0xF0 = 0x70 ∧
    ({ init [] with keypadClear := 0, input := -1 } : Sys).input = -1 ∧
    (checkNumPad key1Held 0xFF { init [] with keypadClear := 0, input := -1 }).2.input = 1 ∧
    (checkNumPad key1Held 0xFF { init [] with keypadClear := 0, input := -1 }).2.keypadClear
      = 0 ∧
    (checkNumPad key1Held 0xFF { init [] with keypadClear := 0, input := -1 }).1 = 0xF7 ∧
    (checkNumPad key1Held 0xF7 (checkNumPad key1Held 0xFF
      { init [] with keypadClear := 0, input := 5 }).2).2.input = 1 := by
  refine ⟨by decide, by decide, by decide, by decide, by decide, by decide⟩

end Seg

/-! ## LCD variant: where `LCD_write_str` writes -/

namespace Lcd

/-- Exclusive or of two bits. -/
theorem xor_bit (L b : Nat) (hL : L = 0 ∨ L = 1) (hb : b = 0 ∨ b = 1) :
    L ^^^ b = (L + b) % 2 := by
  rcases hL with rfl | rfl <;> rcases hb with rfl | rfl <;> rfl

theorem cursorFor_bit (L : Nat) (hL : L = 0 ∨ L = 1) : cursorFor L = LcdOp.cursor L := by
  rcases hL with rfl | rfl <;> rfl

/-- The loop of `LCD_write_str`, entered before character number `k` of a string started on
line `L`, with the cursor where that character belongs: the characters land where the
specification places them, and the line index ends on the line of the last character. -/
theorem write_loop_landing (L : Nat) (hL : L = 0 ∨ L = 1) (cs : List Char) :
    ∀ k : Nat,
      placed (L ^^^ ((k / 16) % 2)) (k % 16)
          (LCD_write_str_loop cs (k % 16) (L ^^^ ((k / 16) % 2))).1 = landing L k cs ∧
      (LCD_write_str_loop cs (k % 16) (L ^^^ ((k / 16) % 2))).2 =
        if cs = [] then L ^^^ ((k / 16) % 2) else L ^^^ (((k + cs.length - 1) / 16) % 2) := by
  induction cs with
  | nil => intro k; exact ⟨rfl, rfl⟩
  | cons c rest ih =>
    intro k
    have hb : (k / 16) % 2 = 0 ∨ (k / 16) % 2 = 1 := by omega
    have hb1 : ((k + 1) / 16) % 2 = 0 ∨ ((k + 1) / 16) % 2 = 1 := by omega
    have hline : L ^^^ ((k / 16) % 2) = 0 ∨ L ^^^ ((k / 16) % 2) = 1 := by
      rw [xor_bit L _ hL hb]; omega
    obtain ⟨ih1, ih2⟩ := ih (k + 1)
    rw [LCD_write_str_loop]
    by_cases hw : rest ≠ [] ∧ k % 16 + 1 > 15
    · rw [if_pos hw]
      have e1 : (k + 1) % 16 = 0 := by omega
      have e2 : L ^^^ (((k + 1) / 16) % 2) = (L ^^^ ((k / 16) % 2)) ^^^ 1 := by
        rw [xor_bit L _ hL hb1, xor_bit L _ hL hb, xor_bit _ 1 (by omega) (Or.inr rfl)]
        omega
      rw [e1, e2] at ih1 ih2
      have hline1 : (L ^^^ ((k / 16) % 2)) ^^^ 1 = 0 ∨ (L ^^^ ((k / 16) % 2)) ^^^ 1 = 1 := by
        rw [xor_bit _ 1 hline (Or.inr rfl)]; omega
      have hrow : (if (L ^^^ ((k / 16) % 2)) ^^^ 1 = 0 then 0 else 1) =
          (L ^^^ ((k / 16) % 2)) ^^^ 1 := by
        rcases hline1 with h | h <;> rw [h] <;> rfl
      constructor
      · simp only [placed, landing, cursorFor]
        rw [hrow, ih1]
      · simp only [List.cons_ne_nil, if_false]
        rw [ih2, if_neg hw.1]
        congr 3
        simp only [List.length_cons]
        omega
    · rw [if_neg hw]
      by_cases hr : rest = []
      · subst hr
        constructor
        · simp [placed, landing, LCD_write_str_loop]
        · simp [LCD_write_str_loop]
      · have hk : k % 16 < 15 := by
          by_contra hlt
          exact hw ⟨hr, by omega⟩
        have e1 : (k + 1) % 16 = k % 16 + 1 := by omega
        have e2 : (k + 1) / 16 = k / 16 := by omega
        rw [e1, e2] at ih1 ih2
        constructor
        · simp only [placed, landing]
          rw [ih1]
        · simp only [List.cons_ne_nil, if_false]
          rw [ih2, if_neg hr]
          congr 3
          simp only [List.length_cons]
          omega

/-- The function `LCD_write_str` on a string started on line `L`: where the characters land
and where the line index ends. -/
theorem write_str_landing (arr : List Char) (L : Nat) (hL : L = 0 ∨ L = 1) (r c : Nat) :
    placed r c (LCD_write_str arr L).1 = landing L 0 (cstr arr) ∧
    (LCD_write_str arr L).2 =
      (if cstr arr = [] then L else L ^^^ ((((cstr arr).length - 1) / 16) % 2)) ^^^ 1 := by
  obtain ⟨h1, h2⟩ := write_loop_landing L hL (cstr arr) 0
  simp only [Nat.zero_div, Nat.zero_mod, Nat.xor_zero, Nat.zero_add] at h1 h2
  have hw : (LCD_write_str arr L).1 =
      LcdOp.cursor L :: (LCD_write_str_loop (cstr arr) 0 L).1 := by
    rw [← cursorFor_bit L hL]; rfl
  constructor
  · rw [hw]
    exact h1
  · show (LCD_write_str_loop (cstr arr) 0 L).2 ^^^ 1 = _
    rw [h2]

/-- The characters of `landing` are those of the string, in order. -/
theorem landing_chars (L : Nat) (cs : List Char) :
    ∀ k : Nat, (landing L k cs).map (fun w => w.2.2) = cs := by
  induction cs with
  | nil => intro k; rfl
  | cons c rest ih => intro k; simp [landing, ih]

/-- C15 (`LCD_write_str`): for a buffer holding the string `s` and a line index `L` in
`{0,1}`, the first operation puts the cursor at the start of line `L`; the characters of `s`
are written in order, number `k` at column `k mod 16` of line `L xor ((k div 16) mod 2)`;
the line index ends opposite to the line of the last character: `L xor 1` for length
1..16 and `L` for length 17..32.  For the empty string no character is written and the line
index ends at `L xor 1`. -/
theorem LCD_write_str_places (arr : List Char) (L : Nat) (hL : L = 0 ∨ L = 1) (r c : Nat) :
    (∃ ops, (LCD_write_str arr L).1 = LcdOp.cursor L :: ops) ∧
    placed r c (LCD_write_str arr L).1 = landing L 0 (cstr arr) ∧
    (placed r c (LCD_write_str arr L).1).map (fun w => w.2.2) = cstr arr ∧
    (1 ≤ (cstr arr).length →
      (LCD_write_str arr L).2 = (L ^^^ ((((cstr arr).length - 1) / 16) % 2)) ^^^ 1) ∧
    (1 ≤ (cstr arr).length → (cstr arr).length ≤ 16 → (LCD_write_str arr L).2 = L ^^^ 1) ∧
    (17 ≤ (cstr arr).length → (cstr arr).length ≤ 32 → (LCD_write_str arr L).2 = L) ∧
    (cstr arr = [] → placed r c (LCD_write_str arr L).1 = [] ∧
      (LCD_write_str arr L).2 = L ^^^ 1) := by
  obtain ⟨h1, h2⟩ := write_str_landing arr L hL r c
  have hw : (LCD_write_str arr L).1 =
      LcdOp.cursor L :: (LCD_write_str_loop (cstr arr) 0 L).1 := by
    rw [← cursorFor_bit L hL]; rfl
  refine ⟨⟨_, hw⟩, h1, ?_, ?_, ?_, ?_, ?_⟩
  · rw [h1, landing_chars]
  · intro hn
    have hne : cstr arr ≠ [] := by
      intro h0; rw [h0] at hn; simp at hn
    rw [h2, if_neg hne]
  · intro hn h16
    have hne : cstr arr ≠ [] := by
      intro h0; rw [h0] at hn; simp at hn
    have e : ((cstr arr).length - 1) / 16 % 2 = 0 := by omega
    rw [h2, if_neg hne, e, Nat.xor_zero]
  · intro hn h32
    have hne : cstr arr ≠ [] := by
      intro h0; rw [h0] at hn; simp at hn
    have e : ((cstr arr).length - 1) / 16 % 2 = 1 := by omega
    rw [h2, if_neg hne, e]
    rcases hL with rfl | rfl <;> rfl
  · intro h0
    rw [h1, h2, h0]
    exact ⟨rfl, by simp⟩

/-- Witness for C15: "System Armed" (12 characters) from line 0, `text33` cut to 20
characters from line 1, and the empty string. -/
theorem LCD_write_str_places_witness :
    placed 0 0 (LCD_write_str "System Armed".toList 0).1
      = landing 0 0 (cstr "System Armed".toList) ∧
    (LCD_write_str "System Armed".toList 0).2 = 0 ^^^ 1 ∧
    (LCD_write_str (text33.take 20) 1).2 = 1 ∧
    (placed 0 0 (LCD_write_str [] 1).1 = [] ∧ (LCD_write_str [] 1).2 = 1 ^^^ 1) :=
  ⟨(LCD_write_str_places "System Armed".toList 0 (Or.inl rfl) 0 0).2.1,
   (LCD_write_str_places "System Armed".toList 0 (Or.inl rfl) 0 0).2.2.2.2.1 (by decide)
     (by decide),
   (LCD_write_str_places (text33.take 20) 1 (Or.inr rfl) 0 0).2.2.2.2.2.1 (by decide)
     (by decide),
   (LCD_write_str_places [] 1 (Or.inr rfl) 0 0).2.2.2.2.2.2 rfl⟩

theorem landing_append (L : Nat) (a b : List Char) :
    ∀ k : Nat, landing L k (a ++ b) = landing L k a ++ landing L (k + a.length) b := by
  induction a with
  | nil => intro k; simp [landing]
  | cons c rest ih =>
    intro k
    show landing L k (c :: (rest ++ b)) = landing L k (c :: rest) ++ _
    rw [landing, landing, ih (k + 1), List.length_cons,
      show k + 1 + rest.length = k + (rest.length + 1) by omega]
    rfl

theorem paint_append (a b : List (Nat × Nat × Char)) :
    ∀ cells : Nat → Nat → Char, paint cells (a ++ b) = paint (paint cells a) b := by
  induction a with
  | nil => intro cells; rfl
  | cons w ws ih =>
    intro cells
    show paint cells (w :: (ws ++ b)) = paint (paint cells (w :: ws)) b
    rw [paint, paint, ih]

/-- Entry number `i` of `landing`. -/
theorem landing_get (L : Nat) (cs : List Char) :
    ∀ (k i : Nat), (landing L k cs)[i]? =
      cs[i]?.map (fun ch => (L ^^^ (((k + i) / 16) % 2), (k + i) % 16, ch)) := by
  induction cs with
  | nil => intro k i; simp [landing]
  | cons c rest ih =>
    intro k i
    cases i with
    | zero => simp [landing]
    | succ j =>
      simp only [landing, List.getElem?_cons_succ, ih (k + 1) j]
      rw [show k + 1 + j = k + (j + 1) by omega]

/-- C16, counterexample (`LCD_clear_line`): called with `line = 0` it leaves `line = 0`, and
with `line = 1` it leaves `line = 1`: the index is not flipped, whereas `LCD_write_str` on
a string of one character leaves `0 xor 1`. -/
theorem LCD_clear_line_keeps_index :
    (LCD_clear_line 0).2 = 0 ∧ (LCD_clear_line 0).2 ≠ 0 ^^^ 1 ∧
    (LCD_clear_line 1).2 = 1 ∧ (LCD_clear_line 1).2 ≠ 1 ^^^ 1 ∧
    (LCD_write_str "A".toList 0).2 = 0 ^^^ 1 := by
  decide

/-- C16, amended (`LCD_clear_line`): for `L` in `{0,1}` the call writes a blank to each of the
16 columns of line `L`, touches no cell of the other line, and leaves the line index at `L`
(the second `xor` takes back the flip made by `LCD_write_str`). -/
theorem LCD_clear_line_blanks (L : Nat) (hL : L = 0 ∨ L = 1) (r c : Nat) :
    placed r c (LCD_clear_line L).1 = (List.range 16).map (fun k => (L, k, Char.ofNat 32)) ∧
    (LCD_clear_line L).2 = L ∧
    (∀ (cells : Nat → Nat → Char) (k : Nat), k < 16 →
      paint cells (placed r c (LCD_clear_line L).1) L k = Char.ofNat 32) ∧
    (∀ (cells : Nat → Nat → Char) (k : Nat),
      paint cells (placed r c (LCD_clear_line L).1) (L ^^^ 1) k = cells (L ^^^ 1) k) := by
  have hp : placed r c (LCD_clear_line L).1 =
      (List.range 16).map (fun k => (L, k, Char.ofNat 32)) := by
    rcases hL with rfl | rfl <;> rfl
  refine ⟨hp, by rcases hL with rfl | rfl <;> rfl, ?_, ?_⟩
  · intro cells k hk
    rw [hp]
    rcases hL with rfl | rfl <;> interval_cases k <;> rfl
  · intro cells k
    rw [hp]
    rcases hL with rfl | rfl <;> simp [paint, List.range, List.range.loop]

/-- Witness for the amended C16: line 1. -/
theorem LCD_clear_line_blanks_witness :
    placed 0 0 (LCD_clear_line 1).1 = (List.range 16).map (fun k => (1, k, Char.ofNat 32)) ∧
    (LCD_clear_line 1).2 = 1 ∧
    (∀ (cells : Nat → Nat → Char) (k : Nat), k < 16 →
      paint cells (placed 0 0 (LCD_clear_line 1).1) 1 k = Char.ofNat 32) ∧
    (∀ (cells : Nat → Nat → Char) (k : Nat),
      paint cells (placed 0 0 (LCD_clear_line 1).1) (1 ^^^ 1) k = cells (1 ^^^ 1) k) :=
  LCD_clear_line_blanks 1 (Or.inr rfl) 0 0

/-- C17, counterexample (`LCD_write_str`): for the 33 characters of `text33` started on line
index 0, character number 32 (the 33rd) is written at column 0 of line index 0, the cell
that received character number 0; the display ends with `w` in place of `0` there, and only
16 characters have gone to line index 1. -/
theorem LCD_write_str_33_wraps_back :
    text33.length = 33 ∧ cstr text33 = text33 ∧
    (placed 0 0 (LCD_write_str text33 0).1)[0]? = some (0, 0, '0') ∧
    (placed 0 0 (LCD_write_str text33 0).1)[32]? = some (0, 0, 'w') ∧
    paint blank (placed 0 0 (LCD_write_str text33 0).1) 0 0 = 'w' ∧
    ((placed 0 0 (LCD_write_str text33 0).1).filter (fun w => w.1 = 1)).length = 16 := by
  decide

/-- C17, amended (`LCD_write_str`): for every string of 33 characters started on line index
0, characters 0..15 are written to columns 0..15 of line index 0, characters 16..31 to
columns 0..15 of line index 1, and character 32 to column 0 of line index 0 again, where
it replaces character 0 on the display. -/
theorem LCD_write_str_33 (arr : List Char) (h33 : (cstr arr).length = 33) (r c : Nat) :
    (∀ (i : Nat) (ch : Char), (cstr arr)[i]? = some ch →
      (placed r c (LCD_write_str arr 0).1)[i]? =
        some (if i < 16 then 0 else if i < 32 then 1 else 0, i % 16, ch)) ∧
    (∀ (cells : Nat → Nat → Char) (ch : Char), (cstr arr)[32]? = some ch →
      paint cells (placed r c (LCD_write_str arr 0).1) 0 0 = ch) := by
  obtain ⟨h1, _⟩ := write_str_landing arr 0 (Or.inl rfl) r c
  constructor
  · intro i ch hi
    have hlt : i < 33 := by
      rw [← h33]
      exact (List.getElem?_eq_some_iff.mp hi).1
    rw [h1, landing_get, hi]
    simp only [Option.map_some', Nat.zero_add, Nat.zero_xor]
    congr 2
    split_ifs <;> omega
  · intro cells ch h32
    have hdrop : (cstr arr).drop 32 = [ch] := by
      have hlt : 32 < (cstr arr).length := by omega
      rw [List.drop_eq_getElem_cons hlt, List.drop_eq_nil_of_le (by omega)]
      have := List.getElem?_eq_getElem hlt
      rw [h32] at this
      simp only [Option.some.injEq] at this
      rw [this]
    have hsplit : cstr arr = (cstr arr).take 32 ++ [ch] := by
      rw [← hdrop, List.take_append_drop]
    have hlen : ((cstr arr).take 32).length = 32 := by
      rw [List.length_take]; omega
    rw [h1, hsplit, landing_append, paint_append, hlen]
    rfl

/-- Witness for the amended C17: `text33`. -/
theorem LCD_write_str_33_witness :
    (∀ (i : Nat) (ch : Char), (cstr text33)[i]? = some ch →
      (placed 0 0 (LCD_write_str text33 0).1)[i]? =
        some (if i < 16 then 0 else if i < 32 then 1 else 0, i % 16, ch)) ∧
    (∀ (cells : Nat → Nat → Char) (ch : Char), (cstr text33)[32]? = some ch →
      paint cells (placed 0 0 (LCD_write_str text33 0).1) 0 0 = ch) :=
  LCD_write_str_33 text33 (by decide) 0 0

/-- Every position before the length of the C string holds a character other than NUL. -/
theorem getD_lt_cstr (input : List Char) :
    ∀ i : Nat, i < (cstr input).length → input.getD i (Char.ofNat 0) ≠ Char.ofNat 0 := by
  induction input with
  | nil => intro i hi; exact absurd hi (Nat.not_lt_zero _)
  | cons a rest ih =>
    intro i hi
    by_cases ha : a = Char.ofNat 0
    · subst ha
      exact absurd hi (Nat.not_lt_zero _)
    · have hc : cstr (a :: rest) = a :: cstr rest := by
        have hb : (a != Char.ofNat 0) = true := by simpa using ha
        show List.takeWhile (fun c => c != Char.ofNat 0) (a :: rest) = _
        exact List.takeWhile_cons_of_pos (p := fun c => c != Char.ofNat 0) hb
      rw [hc] at hi
      cases i with
      | zero => exact ha
      | succ j =>
        have hj : j < (cstr rest).length := by
          simp only [List.length_cons] at hi
          omega
        exact ih j hj

/-- The position at the length of the C string holds the terminator. -/
theorem getD_cstr_length (input : List Char) :
    input.getD (cstr input).length (Char.ofNat 0) = Char.ofNat 0 := by
  induction input with
  | nil => rfl
  | cons a rest ih =>
    by_cases ha : a = Char.ofNat 0
    · subst ha
      rfl
    · have hc : cstr (a :: rest) = a :: cstr rest := by
        have hb : (a != Char.ofNat 0) = true := by simpa using ha
        show List.takeWhile (fun c => c != Char.ofNat 0) (a :: rest) = _
        exact List.takeWhile_cons_of_pos (p := fun c => c != Char.ofNat 0) hb
      rw [hc]
      exact ih

/-- The loop of `checkInputLen` from an index not behind the terminator returns 0 when
the terminator is met within the iterations left, and 2 otherwise. -/
theorem checkInputLenLoop_eq (input : List Char) :
    ∀ n i : Nat, i ≤ (cstr input).length →
      checkInputLenLoop input n i = if (cstr input).length < i + n then 0 else 2 := by
  intro n
  induction n with
  | zero =>
    intro i hi
    have : ¬ (cstr input).length < i + 0 := by omega
    simp only [checkInputLenLoop, if_neg this]
  | succ m ih =>
    intro i hi
    rw [checkInputLenLoop]
    by_cases h0 : input.getD i (Char.ofNat 0) = Char.ofNat 0
    · have hieq : ¬ i < (cstr input).length := fun hlt => getD_lt_cstr input i hlt h0
      have : (cstr input).length < i + (m + 1) := by omega
      rw [if_pos h0, if_pos this]
    · have hne : i ≠ (cstr input).length := by
        intro he
        rw [he] at h0
        exact h0 (getD_cstr_length input)
      rw [if_neg h0, ih (i + 1) (by omega)]
      by_cases hlt : (cstr input).length < i + 1 + m
      · rw [if_pos hlt, if_pos (by omega)]
      · rw [if_neg hlt, if_neg (by omega)]

/-- Function `checkInputLen` returns 2 exactly for strings of more than 32 characters. -/
theorem checkInputLen_eq (input : List Char) :
    checkInputLen input = if 32 < (cstr input).length then 2 else 0 := by
  rw [checkInputLen, checkInputLenLoop_eq input 33 0 (Nat.zero_le _)]
  by_cases h : 32 < (cstr input).length
  · rw [if_pos h, if_neg (by omega)]
  · rw [if_neg h, if_pos (by omega)]

/-- For an input other than the single character Ctrl+C, `checkInput` issues nothing and
returns the status of `checkInputLen`. -/
theorem checkInput_eq (input : List Char) (hcc : cstr input ≠ [Char.ofNat 3]) :
    checkInput input = (checkInputLen input, []) := by
  have h : checkClearInput input = (0, []) := by
    rw [checkClearInput, if_neg hcc]
  rw [checkInput, h]
  rfl

/-- The writes of operations followed by a block that starts by setting the cursor. -/
theorem placed_append_cursor (B : List LcdOp) (x : Nat) (A : List LcdOp) :
    ∀ r c : Nat, placed r c (A ++ LcdOp.cursor x :: B) = placed r c A ++ placed x 0 B := by
  induction A with
  | nil => intro r c; rfl
  | cons a rest ih =>
    intro r c
    cases a with
    | cursor y =>
      show placed y 0 (rest ++ LcdOp.cursor x :: B) = placed y 0 rest ++ placed x 0 B
      exact ih y 0
    | char ch =>
      show (r, c, ch) :: placed r (c + 1) (rest ++ LcdOp.cursor x :: B) =
        (r, c, ch) :: placed r (c + 1) rest ++ placed x 0 B
      rw [ih r (c + 1)]
      rfl

/-- The writes of operations followed by a call of `LCD_write_str`. -/
theorem placed_append_write (A : List LcdOp) (arr : List Char) (L r c : Nat) :
    placed r c (A ++ (LCD_write_str arr L).1) =
      placed r c A ++ placed 0 0 (LCD_write_str arr L).1 := by
  show placed r c (A ++ LcdOp.cursor (if L = 0 then 0 else 1) ::
      (LCD_write_str_loop (cstr arr) 0 L).1) = _
  rw [placed_append_cursor]
  rfl

/-- Function `LCD_clear_line` writes 16 blanks on line `L` and leaves the index at `L`. -/
theorem clear_line_placed (L : Nat) (hL : L = 0 ∨ L = 1) (r c : Nat) :
    placed r c (LCD_clear_line L).1 = (List.range 16).map (fun k => (L, k, Char.ofNat 32)) ∧
    (LCD_clear_line L).2 = L := by
  rcases hL with rfl | rfl <;> exact ⟨rfl, rfl⟩

/-- C18 (`outputLine`, `checkInputLen`, `printErr`): for an input other than the single
character Ctrl+C and a line index `L` in `{0,1}`, `checkInputLen` returns 2 when the input
has more than 32 characters and 0 otherwise. For more than 32 characters
`outputLine(input, LCDLine, 0)` issues the operations of `printErr` and nothing else, none
of them taken from the input: line index 0 ends as `Error:` and line index 1 as
`Line Too Long`, both padded with blanks to 16 columns, and `*LCDLine` is 0. For at most 32
characters the line `L` is cleared and then the characters of the input are written from
column 0 of line `L` on. -/
theorem outputLine_too_long (input : List Char) (L : Nat) (hL : L = 0 ∨ L = 1)
    (hcc : cstr input ≠ [Char.ofNat 3]) (r c : Nat) :
    checkInputLen input = (if 32 < (cstr input).length then 2 else 0) ∧
    (32 < (cstr input).length →
      outputLine input L 0 = printErr ∧ (outputLine input L 0).2 = 0 ∧
      ∀ (cells : Nat → Nat → Char) (k : Nat), k < 16 →
        paint cells (placed r c (outputLine input L 0).1) 0 k =
          "Error:          ".toList.getD k (Char.ofNat 32) ∧
        paint cells (placed r c (outputLine input L 0).1) 1 k =
          "Line Too Long   ".toList.getD k (Char.ofNat 32)) ∧
    ((cstr input).length ≤ 32 →
      outputLine input L 0 =
        ((LCD_clear_line L).1 ++ (LCD_write_str input L).1, (LCD_write_str input L).2) ∧
      placed r c (outputLine input L 0).1 =
        (List.range 16).map (fun k => (L, k, Char.ofNat 32)) ++ landing L 0 (cstr input)) := by
  have hci := checkInput_eq input hcc
  have hlen := checkInputLen_eq input
  refine ⟨hlen, ?_, ?_⟩
  · intro h32
    rw [if_pos h32] at hlen
    have ho : outputLine input L 0 = printErr := by
      rw [outputLine, hci, hlen]
      rfl
    refine ⟨ho, by rw [ho]; rfl, ?_⟩
    intro cells k hk
    rw [ho]
    constructor
    · interval_cases k <;> rfl
    · interval_cases k <;> rfl
  · intro h32
    rw [if_neg (by omega)] at hlen
    obtain ⟨hcp, hcl⟩ := clear_line_placed L hL r c
    have ho : outputLine input L 0 =
        ((LCD_clear_line L).1 ++ (LCD_write_str input L).1, (LCD_write_str input L).2) := by
      rw [outputLine, hci, hlen, hcl]
      rfl
    refine ⟨ho, ?_⟩
    rw [ho]
    show placed r c ((LCD_clear_line L).1 ++ (LCD_write_str input L).1) = _
    rw [placed_append_write, hcp, (write_str_landing input L hL 0 0).1]

/-- Witness for C18: a text of 33 characters, and the text `A`, on line index 1. -/
theorem outputLine_too_long_witness :
    (32 < (cstr text33).length →
      outputLine text33 1 0 = printErr ∧ (outputLine text33 1 0).2 = 0 ∧
      ∀ (cells : Nat → Nat → Char) (k : Nat), k < 16 →
        paint cells (placed 0 0 (outputLine text33 1 0).1) 0 k =
          "Error:          ".toList.getD k (Char.ofNat 32) ∧
        paint cells (placed 0 0 (outputLine text33 1 0).1) 1 k =
          "Line Too Long   ".toList.getD k (Char.ofNat 32)) ∧
    ((cstr "A".toList).length ≤ 32 →
      outputLine "A".toList 1 0 =
        ((LCD_clear_line 1).1 ++ (LCD_write_str "A".toList 1).1,
          (LCD_write_str "A".toList 1).2) ∧
      placed 0 0 (outputLine "A".toList 1 0).1 =
        (List.range 16).map (fun k => (1, k, Char.ofNat 32)) ++
          landing 1 0 (cstr "A".toList)) :=
  ⟨(outputLine_too_long text33 1 (Or.inr rfl) (by decide) 0 0).2.1,
   (outputLine_too_long "A".toList 1 (Or.inr rfl) (by decide) 0 0).2.2⟩

/-- The display after a list of writes: the last write to a cell, or what the cell held. -/
theorem paint_lastAt (W : List (Nat × Nat × Char)) :
    ∀ (cells : Nat → Nat → Char) (r k : Nat),
      paint cells W r k = (lastAt W r k).getD (cells r k) := by
  induction W with
  | nil => intro cells r k; rfl
  | cons w ws ih =>
    intro cells r k
    rw [paint, ih]
    simp only [lastAt]
    cases lastAt ws r k with
    | some d => rfl
    | none =>
      by_cases h : r = w.1 ∧ k = w.2.1
      · simp only [if_pos h, Option.getD_none, Option.getD_some]
      · simp only [if_neg h, Option.getD_none]

/-- Writes of blanks leave a blank cell blank. -/
theorem paint_blanks (B : List (Nat × Nat × Char)) (r k : Nat) :
    (∀ w ∈ B, w.2.2 = Char.ofNat 32) →
    ∀ cells : Nat → Nat → Char, cells r k = Char.ofNat 32 →
      paint cells B r k = Char.ofNat 32 := by
  induction B with
  | nil => intro _ cells h; exact h
  | cons w ws ih =>
    intro hB cells h
    rw [paint]
    apply ih (fun v hv => hB v (List.mem_cons_of_mem _ hv))
    by_cases hc : r = w.1 ∧ k = w.2.1
    · simp only [if_pos hc]
      exact hB w (List.mem_cons_self _ _)
    · simp only [if_neg hc]
      exact h

/-- The display after the writes of a string that fits on the rest of one line. -/
theorem paint_landing_short (L r k : Nat) (cs : List Char) :
    ∀ (k0 : Nat) (cells : Nat → Nat → Char), k0 + cs.length ≤ 16 →
      paint cells (landing L k0 cs) r k =
        if r = L ∧ k0 ≤ k ∧ k < k0 + cs.length then cs.getD (k - k0) (Char.ofNat 32)
        else cells r k := by
  induction cs with
  | nil =>
    intro k0 cells _
    have hn : ¬ (r = L ∧ k0 ≤ k ∧ k < k0 + ([] : List Char).length) := by
      simp only [List.length_nil]
      omega
    rw [if_neg hn]
    rfl
  | cons c rest ih =>
    intro k0 cells h
    simp only [List.length_cons] at h
    have hd : k0 / 16 = 0 := Nat.div_eq_of_lt (by omega)
    have hm : k0 % 16 = k0 := Nat.mod_eq_of_lt (by omega)
    rw [landing, paint, ih (k0 + 1) _ (by omega), hd, hm]
    simp only [Nat.zero_mod, Nat.xor_zero, List.length_cons]
    by_cases hr : r = L
    · by_cases hk : k = k0
      · subst hk
        have h1 : ¬ (r = L ∧ k + 1 ≤ k ∧ k < k + 1 + rest.length) := by omega
        have h2 : r = L ∧ k ≤ k ∧ k < k + (rest.length + 1) := ⟨hr, by omega, by omega⟩
        rw [if_neg h1, if_pos h2, if_pos ⟨hr, rfl⟩, Nat.sub_self]
        rfl
      · by_cases h3 : k0 + 1 ≤ k ∧ k < k0 + 1 + rest.length
        · have h4 : r = L ∧ k0 ≤ k ∧ k < k0 + (rest.length + 1) := ⟨hr, by omega, by omega⟩
          rw [if_pos ⟨hr, h3⟩, if_pos h4,
            show k - k0 = (k - (k0 + 1)) + 1 by omega]
          rfl
        · have h4 : ¬ (r = L ∧ k0 ≤ k ∧ k < k0 + (rest.length + 1)) := by omega
          have h5 : ¬ (r = L ∧ k0 + 1 ≤ k ∧ k < k0 + 1 + rest.length) := fun h => h3 h.2
          have h6 : ¬ (r = L ∧ k = k0) := fun h => hk h.2
          rw [if_neg h5, if_neg h4, if_neg h6]
    · have h4 : ¬ (r = L ∧ k0 ≤ k ∧ k < k0 + (rest.length + 1)) := fun h => hr h.1
      have h5 : ¬ (r = L ∧ k0 + 1 ≤ k ∧ k < k0 + 1 + rest.length) := fun h => hr h.1
      have h6 : ¬ (r = L ∧ k = k0) := fun h => hr h.1
      rw [if_neg h5, if_neg h4, if_neg h6]

/-- The writes of the three calls `LCD_write_str`, `LCD_clear_line`, `LCD_write_str`. -/
theorem writeClearWrite_placed (text : List Char) (L : Nat) :
    placed 0 0 (writeClearWrite text L) =
      placed 0 0 (LCD_write_str text L).1 ++
        placed 0 0 (LCD_clear_line (LCD_write_str text L).2).1 ++
        placed 0 0 (LCD_write_str text (LCD_clear_line (LCD_write_str text L).2).2).1 := by
  rw [writeClearWrite, placed_append_write]
  have hc : (LCD_clear_line (LCD_write_str text L).2).1 =
      (LCD_write_str "                ".toList (LCD_write_str text L).2).1 := rfl
  rw [hc, placed_append_write]

/-- The display after the writes of a string of at most 16 characters from column 0. -/
theorem paint_landing_line (L r k : Nat) (cs : List Char) (cells : Nat → Nat → Char)
    (h : cs.length ≤ 16) :
    paint cells (landing L 0 cs) r k =
      if r = L ∧ k < cs.length then cs.getD k (Char.ofNat 32) else cells r k := by
  rw [paint_landing_short L r k cs 0 cells (by omega)]
  by_cases hc : r = L ∧ k < cs.length
  · rw [if_pos hc, if_pos ⟨hc.1, Nat.zero_le _, by omega⟩, Nat.sub_zero]
  · rw [if_neg hc, if_neg (fun h2 => hc ⟨h2.1, by omega⟩)]

/-- A string of at most 16 characters written alone on a blank display. -/
theorem write_short_display (text : List Char) (L : Nat) (hL : L = 0 ∨ L = 1)
    (h16 : (cstr text).length ≤ 16) (r k : Nat) :
    paint blank (placed 0 0 (LCD_write_str text L).1) r k =
      if r = L then (cstr text).getD k (Char.ofNat 32) else Char.ofNat 32 := by
  rw [(write_str_landing text L hL 0 0).1, paint_landing_line L r k _ blank h16]
  by_cases hr : r = L
  · rw [if_pos hr]
    by_cases hk : k < (cstr text).length
    · rw [if_pos ⟨hr, hk⟩]
    · rw [if_neg (fun h => hk h.2), List.getD_eq_default _ _ (by omega)]
      rfl
  · rw [if_neg hr, if_neg (fun h => hr h.1)]
    rfl

/-- The three calls on a string of 1 to 16 characters: the second write goes to the line
`M` left by the first, and both lines end with the text. -/
theorem writeClearWrite_short (text : List Char) (L M : Nat) (hL : L = 0 ∨ L = 1)
    (hM : M = 0 ∨ M = 1) (hne : L ≠ M) (hi : (LCD_write_str text L).2 = M)
    (h16 : (cstr text).length ≤ 16) (k : Nat) (hk : k < 16) :
    paint blank (placed 0 0 (writeClearWrite text L)) L k =
      (cstr text).getD k (Char.ofNat 32) ∧
    paint blank (placed 0 0 (writeClearWrite text L)) M k =
      (cstr text).getD k (Char.ofNat 32) := by
  have hpC : placed 0 0 (LCD_clear_line M).1 = landing M 0 (cstr "                ".toList) :=
    (write_str_landing "                ".toList M hM 0 0).1
  have hbl : (cstr "                ".toList).length ≤ 16 := by decide
  have hX := write_short_display text L hL h16
  rw [writeClearWrite_placed, hi, (clear_line_placed M hM 0 0).2, paint_append, paint_append,
    hpC, (write_str_landing text M hM 0 0).1]
  constructor
  · rw [paint_landing_line M L k _ _ h16, if_neg (fun h => hne h.1),
      paint_landing_line M L k _ _ hbl, if_neg (fun h => hne h.1), hX L k, if_pos rfl]
  · rw [paint_landing_line M M k _ _ h16]
    by_cases hlt : k < (cstr text).length
    · rw [if_pos ⟨rfl, hlt⟩]
    · have hb16 : (cstr "                ".toList).length = 16 := by decide
      have hd : (cstr text).getD k (Char.ofNat 32) = Char.ofNat 32 :=
        List.getD_eq_default _ _ (by omega)
      rw [if_neg (fun h => hlt h.2), paint_landing_line M M k _ _ hbl,
        if_pos ⟨rfl, by omega⟩, hd]
      interval_cases k <;> rfl

/-- C19, counterexample (`LCD_write_str`, `LCD_clear_line`): for the text `A` and line index
0 on a blank display, column 0 of line index 1 is blank after the first
`LCD_write_str` and holds `A` after the three calls. -/
theorem LCD_round_trip_short_differs :
    (cstr "A".toList).length = 1 ∧
    paint blank (placed 0 0 (LCD_write_str "A".toList 0).1) 1 0 = Char.ofNat 32 ∧
    paint blank (placed 0 0 (writeClearWrite "A".toList 0)) 1 0 = 'A' := by
  decide

/-- C19, amended (`LCD_write_str`, `LCD_clear_line`): on a blank display, with one line
index initially `L` in `{0,1}`. For a text of 17 to 32 characters the display after
`LCD_write_str(text)`, `LCD_clear_line`, `LCD_write_str(text)` equals the display after the
first `LCD_write_str(text)` alone. For a text of 1 to 16 characters the first call leaves
the index at the other line, which is the line cleared and written to next: after the three
calls both lines show the text, after the first call alone only line `L` does. -/
theorem LCD_round_trip (text : List Char) (L : Nat) (hL : L = 0 ∨ L = 1) :
    (17 ≤ (cstr text).length ∧ (cstr text).length ≤ 32 → ∀ r k : Nat,
      paint blank (placed 0 0 (writeClearWrite text L)) r k =
        paint blank (placed 0 0 (LCD_write_str text L).1) r k) ∧
    (1 ≤ (cstr text).length ∧ (cstr text).length ≤ 16 → ∀ k : Nat, k < 16 →
      paint blank (placed 0 0 (writeClearWrite text L)) L k =
        (cstr text).getD k (Char.ofNat 32) ∧
      paint blank (placed 0 0 (writeClearWrite text L)) (L ^^^ 1) k =
        (cstr text).getD k (Char.ofNat 32) ∧
      paint blank (placed 0 0 (LCD_write_str text L).1) L k =
        (cstr text).getD k (Char.ofNat 32) ∧
      paint blank (placed 0 0 (LCD_write_str text L).1) (L ^^^ 1) k = Char.ofNat 32) := by
  have hidx := (write_str_landing text L hL 0 0).2
  constructor
  · intro hlen r k
    have hne : cstr text ≠ [] := by
      intro h0
      rw [h0] at hlen
      exact absurd hlen.1 (by decide)
    have hodd : (((cstr text).length - 1) / 16) % 2 = 1 := by omega
    have hi : (LCD_write_str text L).2 = L := by
      rw [hidx, if_neg hne, hodd]
      rcases hL with rfl | rfl <;> rfl
    obtain ⟨hcp, hcl⟩ := clear_line_placed L hL 0 0
    have hB : ∀ w ∈ placed 0 0 (LCD_clear_line L).1, w.2.2 = Char.ofNat 32 := by
      intro w hw
      rw [hcp] at hw
      obtain ⟨j, _, rfl⟩ := List.mem_map.mp hw
      rfl
    rw [writeClearWrite_placed, hi, hcl, paint_append, paint_append,
      paint_lastAt (placed 0 0 (LCD_write_str text L).1) _ r k,
      paint_lastAt (placed 0 0 (LCD_write_str text L).1) blank r k]
    cases hx : lastAt (placed 0 0 (LCD_write_str text L).1) r k with
    | some d => rfl
    | none =>
      simp only [Option.getD_none]
      have h1 : paint blank (placed 0 0 (LCD_write_str text L).1) r k = Char.ofNat 32 := by
        rw [paint_lastAt, hx]
        rfl
      rw [paint_blanks _ r k hB _ h1]
      rfl
  · intro hlen k hk
    have hne : cstr text ≠ [] := by
      intro h0
      rw [h0] at hlen
      exact absurd hlen.1 (by decide)
    have heven : (((cstr text).length - 1) / 16) % 2 = 0 := by omega
    have hi : (LCD_write_str text L).2 = L ^^^ 1 := by
      rw [hidx, if_neg hne, heven, Nat.xor_zero]
    have hM : L ^^^ 1 = 0 ∨ L ^^^ 1 = 1 := by
      rcases hL with rfl | rfl
      · exact Or.inr rfl
      · exact Or.inl rfl
    have hLM : L ≠ L ^^^ 1 := by
      rcases hL with rfl | rfl <;> decide
    obtain ⟨h1, h2⟩ := writeClearWrite_short text L (L ^^^ 1) hL hM hLM hi hlen.2 k hk
    refine ⟨h1, h2, ?_, ?_⟩
    · rw [write_short_display text L hL hlen.2, if_pos rfl]
    · rw [write_short_display text L hL hlen.2, if_neg (fun h => hLM h.symm)]

/-- Witness for the amended C19: a text of 17 characters and the text `A`, line index 0. -/
theorem LCD_round_trip_witness :
    (∀ r k : Nat,
      paint blank (placed 0 0 (writeClearWrite "0123456789abcdefg".toList 0)) r k =
        paint blank (placed 0 0 (LCD_write_str "0123456789abcdefg".toList 0).1) r k) ∧
    1 ≤ (cstr "A".toList).length ∧ (cstr "A".toList).length ≤ 16 ∧
    (∀ k : Nat, k < 16 →
      paint blank (placed 0 0 (writeClearWrite "A".toList 0)) 0 k =
        (cstr "A".toList).getD k (Char.ofNat 32) ∧
      paint blank (placed 0 0 (writeClearWrite "A".toList 0)) (0 ^^^ 1) k =
        (cstr "A".toList).getD k (Char.ofNat 32) ∧
      paint blank (placed 0 0 (LCD_write_str "A".toList 0).1) 0 k =
        (cstr "A".toList).getD k (Char.ofNat 32) ∧
      paint blank (placed 0 0 (LCD_write_str "A".toList 0).1) (0 ^^^ 1) k = Char.ofNat 32) :=
  ⟨(LCD_round_trip "0123456789abcdefg".toList 0 (Or.inl rfl)).1 ⟨by decide, by decide⟩,
    by decide, by decide,
    (LCD_round_trip "A".toList 0 (Or.inl rfl)).2 ⟨by decide, by decide⟩⟩

/-- The loop of `updateScrollStr` on a text without NUL, of length at least 1, from a
count not behind the terminator: the characters of the text from `count`, wrapping. -/
theorem scrollLoop_eq (str : List Char) (hnul : cstr str = str) (hL1 : 1 ≤ str.length) :
    ∀ n count : Nat, count ≤ str.length →
      scrollLoop str n count =
        some ((List.range n).map
          (fun i => str.getD ((count + i) % str.length) (Char.ofNat 0))) := by
  intro n
  induction n with
  | zero => intro count _; rfl
  | succ m ih =>
    intro count hc
    have hc2 : count ≤ (cstr str).length := by rw [hnul]; exact hc
    have hk : (if str.getD count (Char.ofNat 0) = Char.ofNat 0 then 0 else count) =
        count % str.length := by
      by_cases he : count = str.length
      · have h0 : str.getD count (Char.ofNat 0) = Char.ofNat 0 :=
          List.getD_eq_default _ _ (by omega)
        rw [if_pos h0, he, Nat.mod_self]
      · have hlt : count < (cstr str).length := by rw [hnul]; omega
        rw [if_neg (getD_lt_cstr str count hlt), Nat.mod_eq_of_lt (by omega)]
    have hlt : count % str.length < str.length := Nat.mod_lt _ (by omega)
    rw [scrollLoop, if_pos hc2, hk, ih (count % str.length + 1) (by omega)]
    simp only [List.range_succ_eq_map, List.map_cons, List.map_map, Nat.add_zero]
    congr 2
    apply List.map_congr_left
    intro i _
    show str.getD ((count % str.length + 1 + i) % str.length) (Char.ofNat 0) =
      str.getD ((count + (i + 1)) % str.length) (Char.ofNat 0)
    congr 1
    rw [Nat.add_assoc, Nat.mod_add_mod, Nat.add_comm 1 i]

/-- A buffer holding characters other than NUL and then the terminator. -/
theorem cstr_append_nul (W : List Char) (h : ∀ ch ∈ W, ch ≠ Char.ofNat 0) :
    cstr (W ++ [Char.ofNat 0]) = W := by
  induction W with
  | nil => rfl
  | cons a rest ih =>
    have hb : (a != Char.ofNat 0) = true := by
      simpa using h a (List.mem_cons_self _ _)
    have hc : cstr (a :: (rest ++ [Char.ofNat 0])) = a :: cstr (rest ++ [Char.ofNat 0]) :=
      List.takeWhile_cons_of_pos (p := fun c => c != Char.ofNat 0) hb
    show cstr (a :: (rest ++ [Char.ofNat 0])) = a :: rest
    rw [hc, ih (fun ch hch => h ch (List.mem_cons_of_mem _ hch))]

/-- The characters of the window are characters of the text. -/
theorem scrollWindow_ne_nul (str : List Char) (hnul : cstr str = str) (hL1 : 1 ≤ str.length)
    (c : Nat) : ∀ ch ∈ scrollWindow str c, ch ≠ Char.ofNat 0 := by
  intro ch hch
  obtain ⟨i, _, rfl⟩ := List.mem_map.mp hch
  apply getD_lt_cstr
  rw [hnul]
  exact Nat.mod_lt _ (by omega)

/-- Sixteen characters written from column 0 of line index 0. -/
theorem landing_sixteen (f : Nat → Char) :
    landing 0 0 ((List.range 16).map f) = (List.range 16).map (fun i => (0, i, f i)) := by
  rfl

/-- One firing of `updateScrollStr` on a text without NUL, of length at least 1, at a
counter `c` not behind the terminator. -/
theorem updateScrollStr_fire (s : Sys) (c : Nat) (hnul : cstr s.scrollStr = s.scrollStr)
    (hL1 : 1 ≤ s.scrollStr.length) (hc : s.scrollCounter = (c : Int))
    (hcL : c ≤ s.scrollStr.length) :
    updateScrollStr s =
      some ((LCD_write_str (scrollWindow s.scrollStr c ++ [Char.ofNat 0]) 0).1,
        { s with scrollCounter := ((c % s.scrollStr.length + 1 : Nat) : Int) }) := by
  have hst : scrollStart s = ((c % s.scrollStr.length : Nat) : Int) := by
    rw [scrollStart, hnul, hc]
    by_cases he : c = s.scrollStr.length
    · rw [if_pos (by rw [he]), he, Nat.mod_self]
      rfl
    · have hne : ¬ ((c : Int) = (s.scrollStr.length : Int)) := by
        intro h
        exact he (Int.ofNat.inj h)
      rw [if_neg hne, Nat.mod_eq_of_lt (by omega)]
  have hlt : c % s.scrollStr.length < s.scrollStr.length := Nat.mod_lt _ (by omega)
  have hnn : ¬ (((c % s.scrollStr.length : Nat) : Int) < 0) := by omega
  rw [updateScrollStr, hst, if_neg hnn, Int.toNat_ofNat,
    scrollLoop_eq s.scrollStr hnul hL1 16 _ (by omega)]
  rfl

/-- The window depends on the offset modulo the length of the text only. -/
theorem scrollWindow_mod (str : List Char) (a b : Nat) (h : a % str.length = b % str.length) :
    scrollWindow str a = scrollWindow str b := by
  rw [scrollWindow, scrollWindow, h]

/-- Where one firing writes: the window, on columns 0..15 of line index 0. -/
theorem fire_placed (str : List Char) (hnul : cstr str = str) (hL1 : 1 ≤ str.length)
    (c r0 c0 : Nat) :
    placed r0 c0 (LCD_write_str (scrollWindow str c ++ [Char.ofNat 0]) 0).1 =
      (List.range 16).map
        (fun i => (0, i, str.getD ((c % str.length + i) % str.length) (Char.ofNat 0))) := by
  rw [(write_str_landing _ 0 (Or.inl rfl) r0 c0).1,
    cstr_append_nul _ (scrollWindow_ne_nul str hnul hL1 c)]
  exact landing_sixteen _

/-- An entry of a list over the 16 columns. -/
theorem range16_get {α : Type} (f : Nat → α) (j : Nat) (hj : j < 16) :
    ((List.range 16).map f)[j]? = some (f j) := by
  rw [List.getElem?_map, List.getElem?_range hj]
  rfl

/-- Successive firings on a text without NUL, of length at least 1, from a counter `c` not
behind the terminator: firing number `j` writes the window at offset `c + j`. -/
theorem firings_eq (str : List Char) (hnul : cstr str = str) (hL1 : 1 ≤ str.length) :
    ∀ (n : Nat) (s : Sys) (c : Nat), s.scrollStr = str → s.scrollCounter = (c : Int) →
      c ≤ str.length →
      ∃ t, firings n s =
        some ((List.range n).map
          (fun j => (LCD_write_str (scrollWindow str (c + j) ++ [Char.ofNat 0]) 0).1), t) := by
  intro n
  induction n with
  | zero => intro s c _ _ _; exact ⟨s, rfl⟩
  | succ m ih =>
    intro s c hs hc hcL
    subst hs
    have hlt : c % s.scrollStr.length < s.scrollStr.length := Nat.mod_lt _ (by omega)
    obtain ⟨t, ht⟩ := ih { s with scrollCounter := ((c % s.scrollStr.length + 1 : Nat) : Int) }
      (c % s.scrollStr.length + 1) rfl rfl (by omega)
    refine ⟨t, ?_⟩
    rw [firings, updateScrollStr_fire s c hnul hL1 hc hcL]
    simp only []
    rw [ht]
    simp only [List.range_succ_eq_map, List.map_cons, List.map_map, Nat.add_zero]
    congr 3
    apply List.map_congr_left
    intro j _
    show (LCD_write_str (scrollWindow s.scrollStr (c % s.scrollStr.length + 1 + j) ++
        [Char.ofNat 0]) 0).1 =
      (LCD_write_str (scrollWindow s.scrollStr (c + (j + 1)) ++ [Char.ofNat 0]) 0).1
    rw [scrollWindow_mod s.scrollStr (c % s.scrollStr.length + 1 + j) (c + (j + 1))
      (by rw [Nat.add_assoc, Nat.mod_add_mod, Nat.add_comm 1 j])]

/-- C20 (`updateScrollStr`): for a scroll text `s` without NUL of length `L` at least 1 (in
particular the lengths 1..37 that fit `char scrollStr[38]`) and `scrollCounter = c` with
`c ≤ L`, one firing returns, writes exactly the 16 characters `s[((c mod L) + i) mod L]`,
`i = 0..15`, to columns 0..15 of line index 0 and nothing to line index 1, and leaves
`scrollCounter = (c mod L) + 1` and the text as it was; for `L < 16` the window written has
period `L`.  From `c = 0`, firing number `j` of any number of successive firings writes the
window at offset `j mod L`. -/
theorem updateScrollStr_window (s : Sys) (c : Nat) (hnul : cstr s.scrollStr = s.scrollStr)
    (hL1 : 1 ≤ s.scrollStr.length) (hc : s.scrollCounter = (c : Int))
    (hcL : c ≤ s.scrollStr.length) (r0 c0 : Nat) :
    (∃ ops t, updateScrollStr s = some (ops, t) ∧
      placed r0 c0 ops = (List.range 16).map (fun i => (0, i,
        s.scrollStr.getD ((c % s.scrollStr.length + i) % s.scrollStr.length) (Char.ofNat 0))) ∧
      (∀ w ∈ placed r0 c0 ops, w.1 = 0) ∧
      t.scrollCounter = ((c % s.scrollStr.length + 1 : Nat) : Int) ∧
      t.scrollStr = s.scrollStr ∧
      (s.scrollStr.length < 16 → ∀ i : Nat, i + s.scrollStr.length < 16 →
        ((placed r0 c0 ops).map (fun w => w.2.2))[i + s.scrollStr.length]? =
          ((placed r0 c0 ops).map (fun w => w.2.2))[i]?)) ∧
    (c = 0 → ∀ n : Nat, ∃ W t, firings n s = some (W, t) ∧ W.length = n ∧
      ∀ j : Nat, j < n → W[j]?.map (placed r0 c0) =
        some ((List.range 16).map (fun i => (0, i,
          s.scrollStr.getD ((j % s.scrollStr.length + i) % s.scrollStr.length)
            (Char.ofNat 0))))) := by
  constructor
  · refine ⟨_, _, updateScrollStr_fire s c hnul hL1 hc hcL, ?_, ?_, rfl, rfl, ?_⟩
    · exact fire_placed s.scrollStr hnul hL1 c r0 c0
    · intro w hw
      rw [fire_placed s.scrollStr hnul hL1 c r0 c0] at hw
      obtain ⟨i, _, rfl⟩ := List.mem_map.mp hw
      rfl
    · intro _ i hi
      rw [fire_placed s.scrollStr hnul hL1 c r0 c0, List.map_map,
        range16_get _ _ hi, range16_get _ _ (by omega)]
      show some (s.scrollStr.getD
          ((c % s.scrollStr.length + (i + s.scrollStr.length)) % s.scrollStr.length)
          (Char.ofNat 0)) = some (s.scrollStr.getD
          ((c % s.scrollStr.length + i) % s.scrollStr.length) (Char.ofNat 0))
      rw [← Nat.add_assoc, Nat.add_mod_right]
  · intro h0 n
    subst h0
    obtain ⟨t, ht⟩ := firings_eq s.scrollStr hnul hL1 n s 0 rfl hc hcL
    refine ⟨_, t, ht, by rw [List.length_map, List.length_range], ?_⟩
    intro j hj
    rw [List.getElem?_map, List.getElem?_range hj]
    show some (placed r0 c0
      (LCD_write_str (scrollWindow s.scrollStr (0 + j) ++ [Char.ofNat 0]) 0).1) = _
    rw [fire_placed s.scrollStr hnul hL1 (0 + j) r0 c0, Nat.zero_add]

/-- Witness for C20: the text `Hello` set by `startScrollStr`, counter 0. -/
theorem updateScrollStr_window_witness :
    helloScroll.scrollStr = "Hello".toList ∧
    (∃ ops t, updateScrollStr helloScroll = some (ops, t) ∧
      placed 0 0 ops = (List.range 16).map (fun i => (0, i,
        helloScroll.scrollStr.getD
          ((0 % helloScroll.scrollStr.length + i) % helloScroll.scrollStr.length)
          (Char.ofNat 0))) ∧
      (∀ w ∈ placed 0 0 ops, w.1 = 0) ∧
      t.scrollCounter = ((0 % helloScroll.scrollStr.length + 1 : Nat) : Int) ∧
      t.scrollStr = helloScroll.scrollStr ∧
      (helloScroll.scrollStr.length < 16 → ∀ i : Nat, i + helloScroll.scrollStr.length < 16 →
        ((placed 0 0 ops).map (fun w => w.2.2))[i + helloScroll.scrollStr.length]? =
          ((placed 0 0 ops).map (fun w => w.2.2))[i]?)) ∧
    (updateScrollStr helloScroll).map (fun p => (placed 0 0 p.1).map (fun w => w.2.2)) =
      some "HelloHelloHelloH".toList :=
  ⟨rfl, (updateScrollStr_window helloScroll 0 (by decide) (by decide) rfl (by decide) 0 0).1,
    by decide⟩

end Lcd

/-! ## LCD variant: restarting and stopping the scroll; the scroll handler -/

namespace Lcd

/-- A character other than NUL at the head of a buffer belongs to the string. -/
theorem cstr_cons_ne (a : Char) (l : List Char) (ha : a ≠ Char.ofNat 0) :
    cstr (a :: l) = a :: cstr l := by
  have hb : (a != Char.ofNat 0) = true := by simpa using ha
  exact List.takeWhile_cons_of_pos (p := fun c => c != Char.ofNat 0) hb

/-- The string of a buffer holds no NUL: taking its string again changes nothing. -/
theorem cstr_idem (l : List Char) : cstr (cstr l) = cstr l := by
  induction l with
  | nil => rfl
  | cons a rest ih =>
    by_cases ha : a = Char.ofNat 0
    · subst ha
      rfl
    · rw [cstr_cons_ne a rest ha, cstr_cons_ne a (cstr rest) ha, ih]

/-- C21, counterexample (`startScrollStr`): the scroll set up at reset has fired three times
(`scrollCounter = 3`) when `startScrollStr("Hello")` is called.  Afterwards `scrollStr` is
`Hello` and timer 3 is one tick from overflow, but `scrollCounter` is still 3, and the first
frame starts at the fourth character of the text. -/
theorem startScrollStr_counter_not_reset :
    afterThreeFirings.scrollCounter = 3 ∧
    restartedScroll.scrollStr = "Hello".toList ∧
    restartedScroll.TCCR3B = 4 ∧ restartedScroll.TCNT3 = 65535 ∧
    restartedScroll.scrollCounter = 3 ∧
    (updateScrollStr restartedScroll).map (fun p => (placed 0 0 p.1).map (fun w => w.2.2)) =
      some "loHelloHelloHell".toList := by
  decide

/-- C21, amended (`startScrollStr`): the call stores the string in `scrollStr`, starts
timer 3 with prescaler 256 and loads `TCNT3` with 65535 (overflow after one tick); it leaves
`scrollCounter` as it was.  For a text of length `L` at least 1 and a counter `c ≤ L` the
first frame is the window of the text at offset `c mod L`: it starts at the first character
when the counter was 0 (as after reset or `stopScrollStr`) or `L`. -/
theorem startScrollStr_keeps_counter (s : Sys) (str : List Char) (c : Nat)
    (hL1 : 1 ≤ (cstr str).length) (hc : s.scrollCounter = (c : Int))
    (hcL : c ≤ (cstr str).length) (r0 c0 : Nat) :
    (startScrollStr str s).scrollCounter = s.scrollCounter ∧
    (startScrollStr str s).scrollStr = cstr str ∧
    (startScrollStr str s).TCCR3B = 4 ∧ (startScrollStr str s).TCNT3 = 65535 ∧
    ∃ ops t, updateScrollStr (startScrollStr str s) = some (ops, t) ∧
      placed r0 c0 ops = (List.range 16).map (fun i => (0, i,
        (cstr str).getD ((c % (cstr str).length + i) % (cstr str).length) (Char.ofNat 0))) ∧
      t.scrollCounter = ((c % (cstr str).length + 1 : Nat) : Int) := by
  refine ⟨rfl, rfl, rfl, rfl, _, _,
    updateScrollStr_fire (startScrollStr str s) c (cstr_idem str) hL1 hc hcL, ?_, rfl⟩
  exact fire_placed (cstr str) (cstr_idem str) hL1 c r0 c0

/-- Witness for the amended C21: `startScrollStr("Hello")` after three firings. -/
theorem startScrollStr_keeps_counter_witness :
    (startScrollStr "Hello".toList afterThreeFirings).scrollCounter =
      afterThreeFirings.scrollCounter ∧
    (startScrollStr "Hello".toList afterThreeFirings).scrollStr = cstr "Hello".toList ∧
    (startScrollStr "Hello".toList afterThreeFirings).TCCR3B = 4 ∧
    (startScrollStr "Hello".toList afterThreeFirings).TCNT3 = 65535 ∧
    ∃ ops t, updateScrollStr (startScrollStr "Hello".toList afterThreeFirings) =
        some (ops, t) ∧
      placed 0 0 ops = (List.range 16).map (fun i => (0, i,
        (cstr "Hello".toList).getD
          ((3 % (cstr "Hello".toList).length + i) % (cstr "Hello".toList).length)
          (Char.ofNat 0))) ∧
      t.scrollCounter = ((3 % (cstr "Hello".toList).length + 1 : Nat) : Int) :=
  startScrollStr_keeps_counter afterThreeFirings "Hello".toList 3 (by decide) (by decide)
    (by decide) 0 0

end Lcd

/-- C22 (`disableTimer1`, `stopScrollStr`): stopping twice gives the state that stopping once
gives.  After `disableTimer1` the display is on (`displayOff = 0`) and the clock select bits
of `TCCR1B` are 0; after `stopScrollStr` the clock select bits of `TCCR3B` are 0 and
`scrollCounter = 0`. -/
theorem stop_twice_is_stop_once :
    (∀ s : Seg.Sys,
      Seg.disableTimer1 (Seg.disableTimer1 s) = Seg.disableTimer1 s ∧
      (Seg.disableTimer1 s).displayOff = 0 ∧ (Seg.disableTimer1 s).TCCR1B &&& 7 = 0) ∧
    (∀ s : Lcd.Sys,
      Lcd.stopScrollStr (Lcd.stopScrollStr s) = Lcd.stopScrollStr s ∧
      (Lcd.stopScrollStr s).TCCR3B &&& 7 = 0 ∧ (Lcd.stopScrollStr s).scrollCounter = 0) := by
  constructor
  · intro s
    refine ⟨?_, rfl, ?_⟩
    · show ({ s with TCCR1B := s.TCCR1B &&& 0xF8 &&& 0xF8, displayOff := 0 } : Seg.Sys) =
        { s with TCCR1B := s.TCCR1B &&& 0xF8, displayOff := 0 }
      rw [Nat.and_assoc]
      rfl
    · show s.TCCR1B &&& 0xF8 &&& 7 = 0
      rw [Nat.and_assoc, show (0xF8 &&& 7 : Nat) = 0 from rfl, Nat.and_zero]
  · intro s
    refine ⟨?_, ?_, rfl⟩
    · show ({ s with TCCR3B := s.TCCR3B &&& 0 &&& 0, scrollCounter := 0 } : Lcd.Sys) =
        { s with TCCR3B := s.TCCR3B &&& 0, scrollCounter := 0 }
      rw [Nat.and_assoc]
      rfl
    · show s.TCCR3B &&& 0 &&& 7 = 0
      rw [Nat.and_zero]
      rfl

/-! ## 7-segment variant: multiplexing the display, timer values -/

namespace Seg

/-- The low four bits after `PORTB |= 0x0F`. -/
theorem or15_low (b : Nat) : (b ||| 15) &&& 15 = 15 := by
  apply Nat.eq_of_testBit_eq
  intro i
  simp only [Nat.testBit_and, Nat.testBit_or]
  cases b.testBit i <;> cases Nat.testBit 15 i <;> rfl

/-- The high four bits after `PORTB |= 0x0F`. -/
theorem or15_high (b : Nat) : (b ||| 15) &&& 240 = b &&& 240 := by
  rw [Nat.and_distrib_right]
  show b &&& 240 ||| 0 = b &&& 240
  exact Nat.or_zero _

/-- The high four bits after a mask that keeps them. -/
theorem mask_high (x m : Nat) (hm : m &&& 240 = 240) : (x &&& m) &&& 240 = x &&& 240 := by
  rw [Nat.and_assoc, hm]

/-- The low four bits after a mask, when they were all set. -/
theorem mask_low (x m : Nat) (hx : x &&& 15 = 15) : (x &&& m) &&& 15 = m &&& 15 := by
  rw [Nat.and_assoc, Nat.and_comm m 15, ← Nat.and_assoc, hx, Nat.and_comm]

/-- One step of the loop keeps the high four bits of `PORTB`. -/
theorem enableDigit_high (i b : Nat) : enableDigit i (b ||| 15) &&& 240 = b &&& 240 := by
  match i with
  | 0 => exact (mask_high _ _ rfl).trans (or15_high b)
  | 1 => exact (mask_high _ _ rfl).trans (or15_high b)
  | 2 => exact (mask_high _ _ rfl).trans (or15_high b)
  | 3 => exact (mask_high _ _ rfl).trans (or15_high b)
  | _ + 4 => exact or15_high b

/-- One step of the loop leaves exactly bit `i` of the low four bits of `PORTB` low. -/
theorem enableDigit_low (i b : Nat) (hi : i < 4) :
    enableDigit i (b ||| 15) &&& 15 = 15 - 2 ^ i := by
  match i, hi with
  | 0, _ => exact mask_low _ _ (or15_low b)
  | 1, _ => exact mask_low _ _ (or15_low b)
  | 2, _ => exact mask_low _ _ (or15_low b)
  | 3, _ => exact mask_low _ _ (or15_low b)

/-- The states of the loop from any step on keep `digits`, `displayOff` and the high four
bits of `PORTB`. -/
theorem displayLoop_frame (n : Nat) :
    ∀ (i : Nat) (d : Disp), ∀ e ∈ displayLoop n i d,
      e.digits = d.digits ∧ e.displayOff = d.displayOff ∧
      e.PORTB &&& 240 = d.PORTB &&& 240 := by
  induction n with
  | zero => intro i d e he; exact absurd he (List.not_mem_nil _)
  | succ m ih =>
    intro i d e he
    rw [displayLoop] at he
    simp only [List.mem_cons] at he
    rcases he with rfl | rfl | rfl | he
    · exact ⟨rfl, rfl, or15_high d.PORTB⟩
    · exact ⟨rfl, rfl, or15_high d.PORTB⟩
    · exact ⟨rfl, rfl, enableDigit_high i d.PORTB⟩
    · obtain ⟨h1, h2, h3⟩ := ih (i + 1) _ e he
      exact ⟨h1, h2, h3.trans (enableDigit_high i d.PORTB)⟩

/-- The three states of step `j` of the loop started at index `i` with `n` steps left. -/
theorem displayLoop_step (n : Nat) :
    ∀ (i j : Nat) (d : Disp), j < n →
      ∃ a b c : Disp, (displayLoop n i d)[3 * j]? = some a ∧
        (displayLoop n i d)[3 * j + 1]? = some b ∧
        (displayLoop n i d)[3 * j + 2]? = some c ∧
        a.PORTB &&& 15 = 15 ∧ a.PORTA = (if j = 0 then d.PORTA else a.PORTA) ∧
        b.PORTA = displayNums (d.digits.get ((i + j : Nat) : Int)) ∧ b.PORTB = a.PORTB ∧
        c.PORTA = b.PORTA ∧ c.PORTB = enableDigit (i + j) a.PORTB ∧
        ∃ b0 : Nat, a.PORTB = b0 ||| 15 := by
  induction n with
  | zero => intro i j d hj; exact absurd hj (Nat.not_lt_zero _)
  | succ m ih =>
    intro i j d hj
    cases j with
    | zero =>
      refine ⟨allOff d, segOut i (allOff d), digitOn i (segOut i (allOff d)),
        by rw [displayLoop]; rfl, by rw [displayLoop]; rfl,
        by rw [displayLoop]; simp only [Nat.mul_zero, Nat.zero_add, List.getElem?_cons_succ,
          List.getElem?_cons_zero],
        or15_low d.PORTB, rfl, rfl, rfl, rfl, rfl, d.PORTB, rfl⟩
    | succ k =>
      obtain ⟨a, b, c, ha, hb, hc, h1, _, h3, h4, h5, h6, h7⟩ :=
        ih (i + 1) k (digitOn i (segOut i (allOff d))) (by omega)
      have e0 : 3 * (k + 1) = 3 * k + 3 := by omega
      have e1 : 3 * (k + 1) + 1 = (3 * k + 1) + 3 := by omega
      have e2 : 3 * (k + 1) + 2 = (3 * k + 2) + 3 := by omega
      have ei : i + 1 + k = i + (k + 1) := by omega
      refine ⟨a, b, c, ?_, ?_, ?_, h1, ?_, ?_, h4, h5, ?_, h7⟩
      · rw [displayLoop, e0]
        simp only [List.getElem?_cons_succ]
        exact ha
      · rw [displayLoop, e1]
        simp only [List.getElem?_cons_succ]
        exact hb
      · rw [displayLoop, e2]
        simp only [List.getElem?_cons_succ]
        exact hc
      · rw [if_neg (Nat.succ_ne_zero k)]
      · rw [h3, ei]
        rfl
      · rw [h6, ei]

/-- C23 (7-segment variant, `updateDisplay`): the call is followed through the states after
each port write.  With `displayOff = 1` it ends with `PORTA = 0` and bits 0-3 of `PORTB` all
high.  With `displayOff = 0` there are 13 writes: `PORTA = 0`, then for `i = 0..3` a write
that leaves bits 0-3 of `PORTB` all high, the write `PORTA = displayNums[digits[i]]` with
`PORTB` as it is, and a write to `PORTB` that leaves bit `i` as the only low one of bits 0-3
with `PORTA` as it is.  In every state of either case `digits`, `displayOff` and bits 4-7 of
`PORTB` are as they were before the call. -/
theorem updateDisplay_multiplexes (d : Disp) :
    (d.displayOff = 1 →
      ∃ e, (updateDisplay d).getLast? = some e ∧ e.PORTA = 0 ∧ e.PORTB &&& 15 = 15) ∧
    (d.displayOff = 0 →
      (updateDisplay d).length = 13 ∧
      ∀ i : Nat, i < 4 → ∃ a b c : Disp,
        (updateDisplay d)[3 * i + 1]? = some a ∧ (updateDisplay d)[3 * i + 2]? = some b ∧
        (updateDisplay d)[3 * i + 3]? = some c ∧
        a.PORTB &&& 15 = 15 ∧
        b.PORTA = displayNums (d.digits.get (i : Int)) ∧ b.PORTB = a.PORTB ∧
        c.PORTA = b.PORTA ∧ c.PORTB &&& 15 = 15 - 2 ^ i) ∧
    (∀ e ∈ updateDisplay d,
      e.digits = d.digits ∧ e.displayOff = d.displayOff ∧
      e.PORTB &&& 240 = d.PORTB &&& 240) := by
  refine ⟨?_, ?_, ?_⟩
  · intro h1
    refine ⟨allOff { d with PORTA := 0 }, ?_, rfl, or15_low d.PORTB⟩
    rw [updateDisplay, if_pos h1]
    rfl
  · intro h0
    have hne : ¬ (d.displayOff = 1) := by
      rw [h0]
      decide
    have hu : updateDisplay d =
        { d with PORTA := 0 } :: displayLoop 4 0 { d with PORTA := 0 } := by
      rw [updateDisplay, if_neg hne]
    constructor
    · rw [hu]
      rfl
    · intro i hi
      obtain ⟨a, b, c, ha, hb, hc, h1, _, h3, h4, h5, h6, b0, h7⟩ :=
        displayLoop_step 4 0 i { d with PORTA := 0 } hi
      rw [Nat.zero_add] at h3 h6
      refine ⟨a, b, c, ?_, ?_, ?_, h1, h3, h4, h5, ?_⟩
      · rw [hu, List.getElem?_cons_succ]
        exact ha
      · rw [hu, List.getElem?_cons_succ]
        exact hb
      · rw [hu, List.getElem?_cons_succ]
        exact hc
      · rw [h6, h7]
        exact enableDigit_low i b0 hi
  · intro e he
    by_cases h1 : d.displayOff = 1
    · rw [updateDisplay, if_pos h1] at he
      simp only [List.mem_cons, List.mem_singleton, List.not_mem_nil, or_false] at he
      rcases he with rfl | rfl
      · exact ⟨rfl, rfl, rfl⟩
      · exact ⟨rfl, rfl, or15_high d.PORTB⟩
    · rw [updateDisplay, if_neg h1] at he
      rcases List.mem_cons.mp he with rfl | he2
      · exact ⟨rfl, rfl, rfl⟩
      · exact displayLoop_frame 4 0 { d with PORTA := 0 } e he2

/-- Witness for C23: the digits `1 2 3 4` with the display on, and with the display off. -/
theorem updateDisplay_multiplexes_witness :
    ((updateDisplay ⟨⟨1, 2, 3, 4⟩, 0, 0x55, 0xA0⟩).length = 13 ∧
      ∀ i : Nat, i < 4 → ∃ a b c : Disp,
        (updateDisplay ⟨⟨1, 2, 3, 4⟩, 0, 0x55, 0xA0⟩)[3 * i + 1]? = some a ∧
        (updateDisplay ⟨⟨1, 2, 3, 4⟩, 0, 0x55, 0xA0⟩)[3 * i + 2]? = some b ∧
        (updateDisplay ⟨⟨1, 2, 3, 4⟩, 0, 0x55, 0xA0⟩)[3 * i + 3]? = some c ∧
        a.PORTB &&& 15 = 15 ∧
        b.PORTA = displayNums ((⟨1, 2, 3, 4⟩ : Arr4).get (i : Int)) ∧ b.PORTB = a.PORTB ∧
        c.PORTA = b.PORTA ∧ c.PORTB &&& 15 = 15 - 2 ^ i) ∧
    (∃ e, (updateDisplay ⟨⟨1, 2, 3, 4⟩, 1, 0x55, 0xA0⟩).getLast? = some e ∧ e.PORTA = 0 ∧
      e.PORTB &&& 15 = 15) ∧
    (updateDisplay ⟨⟨1, 2, 3, 4⟩, 0, 0x55, 0xA0⟩).map (fun e => (e.PORTA, e.PORTB)) =
      [(0, 0xA0), (0, 0xAF), (0x0A, 0xAF), (0x0A, 0xAE), (0x0A, 0xAF), (0x3D, 0xAF),
       (0x3D, 0xAD), (0x3D, 0xAF), (0x1F, 0xAF), (0x1F, 0xAB), (0x1F, 0xAF), (0x4E, 0xAF),
       (0x4E, 0xA7)] :=
  ⟨(updateDisplay_multiplexes ⟨⟨1, 2, 3, 4⟩, 0, 0x55, 0xA0⟩).2.1 rfl,
   (updateDisplay_multiplexes ⟨⟨1, 2, 3, 4⟩, 1, 0x55, 0xA0⟩).1 rfl, by decide⟩

/-- The reload of a 16 bit counter: the cast to `int` does not change the value stored. -/
theorem reload_int16 (q : Int) : (65536 - int16 q) % 65536 = (65536 - q) % 65536 := by
  unfold int16
  omega

/-- C24 (7-segment variant, `setTimer3`, `enableTimer1Blink500`, `ISR(TIMER1_OVF_vect)`):
for `t` from 1 to 1048, `setTimer3(t)` clears `timer3Finish`, starts timer 3 with prescaler
256 and loads `TCNT3` with `65536 - floor(t * 16000 / 256)`, a value of 16 bits that the cast
to `int` does not alter, so timer 3 overflows after `floor(62.5 * t)` ticks.  The reload of
the blink timer, written by `enableTimer1Blink500` and by the handler of timer 1, is the
value for `t = 500`, `65536 - 31250 = 34286`. -/
theorem setTimer3_reload (t : Int) (h1 : 1 ≤ t) (h2 : t ≤ 1048) (s : Sys) :
    (setTimer3 t s).timer3Finish = 0 ∧ (setTimer3 t s).TCCR3B = 4 ∧
    ((setTimer3 t s).TCNT3 : Int) = 65536 - t * 16000 / 256 ∧
    (setTimer3 t s).TCNT3 = ((65536 - int16 (t * 16000 / 256)) % 65536).toNat ∧
    (setTimer3 t s).TCNT3 < 65536 ∧
    (65536 : Int) - (setTimer3 t s).TCNT3 = 125 * t / 2 ∧
    (setTimer3 500 s).TCNT3 = 34286 ∧
    (enableTimer1Blink500 s).TCNT1 = 34286 ∧ (TIMER1_OVF s).TCNT1 = 34286 := by
  have hq1 : 62 ≤ t * 16000 / 256 := by omega
  have hq2 : t * 16000 / 256 ≤ 65500 := by omega
  have hmod : (65536 - t * 16000 / 256) % 65536 = 65536 - t * 16000 / 256 := by omega
  have hv : ((setTimer3 t s).TCNT3 : Int) = 65536 - t * 16000 / 256 := by
    show ((((65536 - t * 16000 / 256) % 65536).toNat : Nat) : Int) = _
    rw [hmod, Int.toNat_of_nonneg (by omega)]
  refine ⟨rfl, rfl, hv, ?_, ?_, ?_, rfl, rfl, rfl⟩
  · show ((65536 - t * 16000 / 256) % 65536).toNat = _
    rw [reload_int16]
  · have : ((setTimer3 t s).TCNT3 : Int) < 65536 := by omega
    exact_mod_cast this
  · rw [hv]
    omega

/-- Witness for C24: `setTimer3(1000)`, as called by `succPIN`. -/
theorem setTimer3_reload_witness :
    (setTimer3 1000 (init [])).timer3Finish = 0 ∧ (setTimer3 1000 (init [])).TCCR3B = 4 ∧
    ((setTimer3 1000 (init [])).TCNT3 : Int) = 65536 - 1000 * 16000 / 256 ∧
    (setTimer3 1000 (init [])).TCNT3 = ((65536 - int16 (1000 * 16000 / 256)) % 65536).toNat ∧
    (setTimer3 1000 (init [])).TCNT3 < 65536 ∧
    (65536 : Int) - (setTimer3 1000 (init [])).TCNT3 = 125 * 1000 / 2 ∧
    (setTimer3 500 (init [])).TCNT3 = 34286 ∧
    (enableTimer1Blink500 (init [])).TCNT1 = 34286 ∧ (TIMER1_OVF (init [])).TCNT1 = 34286 :=
  setTimer3_reload 1000 (by decide) (by decide) (init [])

end Seg

/-! ## The periodic handlers -/

namespace Lcd

/-- The operations of `LCD_write_str` on a buffer of 16 characters other than NUL and the
terminator, on line index 0: the cursor instruction and the 16 characters. -/
theorem write_sixteen_ops (f : Nat → Char)
    (h : ∀ ch ∈ (List.range 16).map f, ch ≠ Char.ofNat 0) :
    (LCD_write_str ((List.range 16).map f ++ [Char.ofNat 0]) 0).1 =
      LcdOp.cursor 0 :: (List.range 16).map (fun i => LcdOp.char (f i)) := by
  show cursorFor 0 ::
    (LCD_write_str_loop (cstr ((List.range 16).map f ++ [Char.ofNat 0])) 0 0).1 = _
  rw [cstr_append_nul _ h]
  rfl

/-- One run of `ISR(TIMER3_OVF_vect)` on a text without NUL, of length at least 1, at a
counter `c` not behind the terminator. -/
theorem TIMER3_OVF_fire (s : Sys) (c : Nat) (hnul : cstr s.scrollStr = s.scrollStr)
    (hL1 : 1 ≤ s.scrollStr.length) (hc : s.scrollCounter = (c : Int))
    (hcL : c ≤ s.scrollStr.length) :
    TIMER3_OVF s =
      some (LcdOp.cursor 0 :: (scrollWindow s.scrollStr c).map LcdOp.char,
        { s with scrollCounter := ((c % s.scrollStr.length + 1 : Nat) : Int),
                 TCNT3 := scrollReload }) := by
  rw [TIMER3_OVF, updateScrollStr_fire s c hnul hL1 hc hcL]
  have hw := write_sixteen_ops
    (fun i => s.scrollStr.getD ((c % s.scrollStr.length + i) % s.scrollStr.length)
      (Char.ofNat 0)) (scrollWindow_ne_nul s.scrollStr hnul hL1 c)
  show some ((LCD_write_str (scrollWindow s.scrollStr c ++ [Char.ofNat 0]) 0).1, _) = _
  rw [show (LCD_write_str (scrollWindow s.scrollStr c ++ [Char.ofNat 0]) 0).1 =
    LcdOp.cursor 0 :: (scrollWindow s.scrollStr c).map LcdOp.char from
      hw.trans (by rw [scrollWindow, List.map_map]; rfl)]

end Lcd

/-- C25, counterexample (`ISR(TIMER3_OVF_vect)` of LCDScroll.h): with the scroll text `Hello`
and `scrollCounter = 0`, one run of the handler issues a cursor instruction for line index 0
and 16 character writes to the LCD. -/
theorem scroll_handler_writes_display :
    Lcd.helloScroll.scrollCounter = 0 ∧
    (Lcd.TIMER3_OVF Lcd.helloScroll).map (fun r => r.1) =
      some (Lcd.LcdOp.cursor 0 :: "HelloHelloHelloH".toList.map Lcd.LcdOp.char) ∧
    (Lcd.TIMER3_OVF Lcd.helloScroll).map (fun r => r.1.length) = some 17 := by
  decide

/-- C25, amended (the periodic handlers): `ISR(TIMER1_OVF_vect)` of the 7-segment variant
changes `displayOff` (0 becomes 1, 1 becomes 0) and the reload `TCNT1` and nothing else of
the state.  `ISR(TIMER3_OVF_vect)` of LCDScroll.h, for a text without NUL of length `L` at
least 1 and `scrollCounter = c ≤ L`, changes `scrollCounter` and the reload `TCNT3` and
nothing else of the state, and it writes to the display: one cursor instruction for line
index 0 followed by the 16 characters of the window at offset `c`. -/
theorem handlers_effects (s : Seg.Sys) (u : Lcd.Sys) (c : Nat)
    (hnul : cstr u.scrollStr = u.scrollStr) (hL1 : 1 ≤ u.scrollStr.length)
    (hc : u.scrollCounter = (c : Int)) (hcL : c ≤ u.scrollStr.length) :
    Seg.TIMER1_OVF s = { s with displayOff := (Seg.TIMER1_OVF s).displayOff,
                                TCNT1 := (Seg.TIMER1_OVF s).TCNT1 } ∧
    (s.displayOff = 0 → (Seg.TIMER1_OVF s).displayOff = 1) ∧
    (s.displayOff = 1 → (Seg.TIMER1_OVF s).displayOff = 0) ∧
    ∃ ops t, Lcd.TIMER3_OVF u = some (ops, t) ∧
      t = { u with scrollCounter := t.scrollCounter, TCNT3 := t.TCNT3 } ∧
      t.scrollCounter = ((c % u.scrollStr.length + 1 : Nat) : Int) ∧
      ops = Lcd.LcdOp.cursor 0 :: (Lcd.scrollWindow u.scrollStr c).map Lcd.LcdOp.char ∧
      ops.length = 17 := by
  refine ⟨rfl, ?_, ?_, _, _, Lcd.TIMER3_OVF_fire u c hnul hL1 hc hcL, rfl, rfl, rfl, ?_⟩
  · intro h0
    show Int.xor s.displayOff 1 = 1
    rw [h0]
    rfl
  · intro h1
    show Int.xor s.displayOff 1 = 0
    rw [h1]
    rfl
  · simp [Lcd.scrollWindow]

/-- Witness for the amended C25: the reset state of the 7-segment variant and the scroll
text `Hello` at counter 0. -/
theorem handlers_effects_witness :
    Seg.TIMER1_OVF (Seg.init []) =
      { Seg.init [] with displayOff := (Seg.TIMER1_OVF (Seg.init [])).displayOff,
                         TCNT1 := (Seg.TIMER1_OVF (Seg.init [])).TCNT1 } ∧
    ((Seg.init []).displayOff = 0 → (Seg.TIMER1_OVF (Seg.init [])).displayOff = 1) ∧
    ((Seg.init []).displayOff = 1 → (Seg.TIMER1_OVF (Seg.init [])).displayOff = 0) ∧
    ∃ ops t, Lcd.TIMER3_OVF Lcd.helloScroll = some (ops, t) ∧
      t = { Lcd.helloScroll with scrollCounter := t.scrollCounter, TCNT3 := t.TCNT3 } ∧
      t.scrollCounter = ((0 % Lcd.helloScroll.scrollStr.length + 1 : Nat) : Int) ∧
      ops = Lcd.LcdOp.cursor 0 ::
        (Lcd.scrollWindow Lcd.helloScroll.scrollStr 0).map Lcd.LcdOp.char ∧
      ops.length = 17 :=
  handlers_effects (Seg.init []) Lcd.helloScroll 0 (by decide) (by decide) rfl (by decide)

/-! ## LCD variant: the scroll period, the column handlers, the stores of `enterCode` -/

namespace Lcd

/-- C26 (`ISR(TIMER3_OVF_vect)` of LCDScroll.h), the code evaluated: the quotient
`500 * 16000000 / 256` is 31250000, not 31250; the reload stored in the 16 bit register
`TCNT3` is 10672 (with the cast to `int`, and also when `65536 - 31250000` is reduced
modulo 65536 without it), not 34286.  Timer 3 then overflows after `65536 - 10672 = 54864`
ticks of 16 microseconds, about 877 ms, not after 31250 ticks (500 ms). -/
theorem scroll_reload_value :
    (500 * 16000000 : Int) / 256 = 31250000 ∧
    int16 31250000 = -10672 ∧
    scrollReload = 10672 ∧
    (((65536 : Int) - 31250000) % 65536).toNat = 10672 ∧
    scrollReload ≠ 34286 ∧
    65536 - scrollReload = 54864 ∧ 54864 ≠ 31250 ∧
    54864 * 256 / 16000 = 877 ∧
    (TIMER3_OVF helloScroll).map (fun r => r.2.TCNT3) = some 10672 ∧
    (Seg.enableTimer1Blink500 (Seg.init [])).TCNT1 = 34286 := by
  decide

/-- A column handler does nothing when `newKeyInput` is not 0. -/
theorem columnISR_guard (readCol : Int) (pind : Nat → Nat) (portc : Nat) (s : Sys)
    (h : s.newKeyInput ≠ 0) : columnISR readCol pind portc s = (portc, s) := by
  rw [columnISR, if_neg h]

/-- Column handlers run from a state with `newKeyInput` not 0 leave the state as it is. -/
theorem runISRs_guard (isrs : List (Int × (Nat → Nat))) :
    ∀ (portc : Nat) (s : Sys), s.newKeyInput ≠ 0 → runISRs isrs portc s = (portc, s) := by
  induction isrs with
  | nil => intro portc s _; rfl
  | cons e rest ih =>
    intro portc s h
    rw [runISRs, columnISR_guard e.1 e.2 portc s h]
    exact ih portc s h

/-- C27 (LCD variant, column handlers), the code at the failing input: `getNewKey` has
cleared the keypad variables (`pressedKey = -1`, `newKeyInput = 0`) and waits; the handler of
column 1 runs and, after the debounce delay, no row reads low.  `readNumPad` sets
`pressedKey = -1` and `newKeyInput = 0`, and the handler then sets `newKeyInput = 1`.  In the
state reached, `newKeyInput = 1` and `pressedKey = -1`; every column handler, whatever the
rows read, leaves it as it is, so `pressedKey` stays -1 after any number of them.  (With key
5 held during the scan the same handler stores 5.) -/
theorem column_handler_flag_without_key :
    keypadCleared.newKeyInput = 0 ∧ keypadCleared.pressedKey = -1 ∧
    (readNumPad noRowLow 1 0xF0 keypadCleared).2.newKeyInput = 0 ∧
    (INT1_vect noRowLow 0xF0 keypadCleared).2.newKeyInput = 1 ∧
    (INT1_vect noRowLow 0xF0 keypadCleared).2.pressedKey = -1 ∧
    (∀ (readCol : Int) (pind : Nat → Nat) (portc : Nat),
      columnISR readCol pind portc (INT1_vect noRowLow 0xF0 keypadCleared).2 =
        (portc, (INT1_vect noRowLow 0xF0 keypadCleared).2)) ∧
    (∀ (isrs : List (Int × (Nat → Nat))) (portc : Nat),
      (runISRs isrs portc (INT1_vect noRowLow 0xF0 keypadCleared).2).2.pressedKey = -1) ∧
    (INT1_vect key5Down 0xF0 keypadCleared).2.pressedKey = 5 ∧
    (INT1_vect key5Down 0xF0 keypadCleared).2.newKeyInput = 1 := by
  have hne : (INT1_vect noRowLow 0xF0 keypadCleared).2.newKeyInput ≠ 0 := by decide
  refine ⟨by decide, by decide, by decide, by decide, by decide, ?_, ?_, by decide, by decide⟩
  · intro readCol pind portc
    exact columnISR_guard readCol pind portc _ hne
  · intro isrs portc
    rw [runISRs_guard isrs portc _ hne]
    show (INT1_vect noRowLow 0xF0 keypadCleared).2.pressedKey = -1
    decide

/-- The stores of `enterCode` into `pin` and `unlockPIN` are at indices 0..3, and those
into `dispPIN` at indices up to the loop bound. -/
theorem enterCodeStores_bounds (changePIN : Int) (n : Nat) :
    ∀ (i : Nat) (s : Sys), ∀ st ∈ enterCodeStores changePIN n i s,
      (∀ j, st = Store.pin j → j < 4) ∧ (∀ j, st = Store.unlockPIN j → j < 4) ∧
      (∀ j, st = Store.dispPIN j → j ≤ i + n) := by
  induction n with
  | zero => intro i s st hst; exact absurd hst (List.not_mem_nil _)
  | succ m ih =>
    intro i s st hst
    rw [enterCodeStores] at hst
    cases hg : getNewKey s with
    | none =>
      rw [hg] at hst
      exact absurd hst (List.not_mem_nil _)
    | some s1 =>
      rw [hg] at hst
      simp only [] at hst
      split_ifs at hst with h1 h2 h3 h4
      · exact absurd hst (List.not_mem_nil _)
      · exact absurd hst (List.not_mem_nil _)
      · simp only [List.mem_append, List.mem_cons, List.mem_singleton, List.not_mem_nil,
          or_false] at hst
        rcases hst with (rfl | rfl | rfl) | hst
        · refine ⟨?_, ?_, ?_⟩
          all_goals (intro j hj; cases hj)
          all_goals omega
        · refine ⟨?_, ?_, ?_⟩
          all_goals (intro j hj; cases hj)
          all_goals omega
        · refine ⟨?_, ?_, ?_⟩
          all_goals (intro j hj; cases hj)
          all_goals omega
        · obtain ⟨a, b, c⟩ := ih (i + 1) s1 st hst
          exact ⟨a, b, fun j hj => Nat.le_trans (c j hj) (by omega)⟩
      · simp only [List.mem_append, List.mem_cons, List.mem_singleton, List.not_mem_nil,
          or_false] at hst
        rcases hst with (rfl | rfl | rfl) | hst
        · refine ⟨?_, ?_, ?_⟩
          all_goals (intro j hj; cases hj)
          all_goals omega
        · refine ⟨?_, ?_, ?_⟩
          all_goals (intro j hj; cases hj)
          all_goals omega
        · refine ⟨?_, ?_, ?_⟩
          all_goals (intro j hj; cases hj)
          all_goals omega
        · obtain ⟨a, b, c⟩ := ih (i + 1) s1 st hst
          exact ⟨a, b, fun j hj => Nat.le_trans (c j hj) (by omega)⟩
      · simp only [List.nil_append, List.mem_append, List.mem_cons, List.mem_singleton,
          List.not_mem_nil, or_false] at hst
        rcases hst with (rfl | rfl) | hst
        · refine ⟨?_, ?_, ?_⟩
          all_goals (intro j hj; cases hj)
          all_goals omega
        · refine ⟨?_, ?_, ?_⟩
          all_goals (intro j hj; cases hj)
          all_goals omega
        · obtain ⟨a, b, c⟩ := ih (i + 1) s1 st hst
          exact ⟨a, b, fun j hj => Nat.le_trans (c j hj) (by omega)⟩

/-- C29 (LCD variant, `enterCode`), the code at the failing input: 17 presses of key 1 and
no hash.  The loop runs its 17 iterations (`enterCode` returns 1 with all keys consumed); in
the last one, `i = 16`, the store `dispPIN[i + 1]` is at index 17, behind the 17 elements
`0..16` of `dispPIN`.  The stores into `pin` are at indices 0..3. -/
theorem enterCode_stores_behind_dispPIN :
    seventeenOnes.length = 17 ∧
    (enterCode 1 (init seventeenOnes)).map (fun r => (r.1, r.2.keys)) = some (1, []) ∧
    (enterCodeStores 1 17 0 (init seventeenOnes)).getLast? = some (Store.dispPIN 17) ∧
    Store.dispPIN 17 ∈ enterCodeStores 1 17 0 (init seventeenOnes) ∧
    (enterCodeStores 1 17 0 (init seventeenOnes)).filter
        (fun st => st matches Store.pin _) =
      [Store.pin 0, Store.pin 1, Store.pin 2, Store.pin 3] ∧
    Store.dispPIN 17 ∉ enterCodeStores 1 17 0 (init (List.replicate 16 1)) := by
  decide

end Lcd

/-! ## 7-segment variant: what an unlock attempt shows; the index of `fillPIN` -/

namespace Seg

/-- C28 (7-segment variant, `disAlarm`), the code at the failing input: two runs, armed with
the stored PIN 1234 and 5678, with the same events to come: the entry 9 9 9 9 # while key D
is held.  Both attempts fail (`alarmEnable` stays 1).  During the call of `disAlarm` the
display buffer `digits` takes the value of the stored PIN (`setPIN()` in `succPIN()`, called
by `enterCode(0)` before `disAlarm` compares the entry), 1234 in one run and 5678 in the
other, so the two sequences of values differ. -/
theorem seg_failed_unlock_shows_pin :
    Reachable (armedWith 1 2 3 4) ∧ Reachable (armedWith 5 6 7 8) ∧
    (armedWith 1 2 3 4).pin = ⟨1, 2, 3, 4⟩ ∧ (armedWith 5 6 7 8).pin = ⟨5, 6, 7, 8⟩ ∧
    (armedWith 1 2 3 4).alarmEnable = 1 ∧ (armedWith 5 6 7 8).alarmEnable = 1 ∧
    (armedWith 1 2 3 4).input = 0xD ∧ (armedWith 5 6 7 8).input = 0xD ∧
    (armedWith 1 2 3 4).evs = (armedWith 5 6 7 8).evs ∧
    (disAlarm 40 (armedWith 1 2 3 4)).map (fun t => (t.alarmEnable, t.unlockPIN)) =
      some (1, ⟨9, 9, 9, 9⟩) ∧
    (disAlarm 40 (armedWith 5 6 7 8)).map (fun t => (t.alarmEnable, t.unlockPIN)) =
      some (1, ⟨9, 9, 9, 9⟩) ∧
    shownDuring (armedWith 1 2 3 4) =
      [⟨13, 17, 16, 14⟩, ⟨13, 17, 16, 14⟩, ⟨13, 17, 16, 14⟩, ⟨13, 17, 16, 14⟩,
       ⟨13, 17, 16, 14⟩, ⟨1, 2, 3, 4⟩, ⟨18, 19, 11, 11⟩, ⟨13, 17, 17, 21⟩,
       ⟨10, 15, 10, 17⟩] ∧
    shownDuring (armedWith 5 6 7 8) =
      [⟨13, 17, 16, 14⟩, ⟨13, 17, 16, 14⟩, ⟨13, 17, 16, 14⟩, ⟨13, 17, 16, 14⟩,
       ⟨13, 17, 16, 14⟩, ⟨5, 6, 7, 8⟩, ⟨18, 19, 11, 11⟩, ⟨13, 17, 17, 21⟩,
       ⟨10, 15, 10, 17⟩] ∧
    shownDuring (armedWith 1 2 3 4) ≠ shownDuring (armedWith 5 6 7 8) :=
  ⟨seg_reachable_tick _ (seg_reachable_tick _
      (Reachable.step 40 _ _
        (seg_reachable_tick _ (seg_reachable_tick _
          (Reachable.step 40 _ _ (Reachable.start (sessionWrong 1 2 3 4)) (by rfl))))
        (by rfl))),
   seg_reachable_tick _ (seg_reachable_tick _
      (Reachable.step 40 _ _
        (seg_reachable_tick _ (seg_reachable_tick _
          (Reachable.step 40 _ _ (Reachable.start (sessionWrong 5 6 7 8)) (by rfl))))
        (by rfl))),
   by decide, by decide, by decide, by decide, by decide, by decide, by decide, by decide,
   by decide, by decide, by decide, by decide⟩

/-! ### What keeps the stores of `fillPIN` inside the arrays -/

theorem keyCodes_tail {e : Ev} {rest : List Ev} (h : keyCodes (e :: rest)) : keyCodes rest :=
  fun x hx => h x (List.mem_cons_of_mem e hx)

theorem keyCodes_head {e : Ev} {rest : List Ev} (h : keyCodes (e :: rest)) : okEv e = true :=
  h e (List.mem_cons_self e rest)

theorem GoodIS_congr (s t : Sys) (hi : t.input = s.input) (hs : t.stores = s.stores)
    (h : GoodIS s) : GoodIS t := by
  unfold GoodIS at *
  rw [hi, hs]
  exact h

theorem Good_congr (s t : Sys) (he : t.evs = s.evs) (hi : t.input = s.input)
    (hs : t.stores = s.stores) (h : Good s) : Good t := by
  unfold Good at *
  rw [he]
  exact And.intro h.1 (GoodIS_congr s t hi hs h.2)

/-- Clearing `input` (the assignment `input = -1`) keeps the invariant. -/
theorem Good_clearInput (s : Sys) (h : Good s) : Good { s with input := -1 } :=
  And.intro h.1 (And.intro
    (And.intro (show (-1 : Int) ≤ -1 by decide) (show (-1 : Int) ≤ 0x10 by decide)) h.2.2)

/-- The value -1 is none of the key codes A, C, D. -/
theorem cleared_ne (s : Sys) :
    ({ s with input := -1 } : Sys).input ≠ 0xA ∧ ({ s with input := -1 } : Sys).input ≠ 0xC ∧
      ({ s with input := -1 } : Sys).input ≠ 0xD :=
  ⟨show (-1 : Int) ≠ 0xA by decide, show (-1 : Int) ≠ 0xC by decide,
    show (-1 : Int) ≠ 0xD by decide⟩

theorem seg_applyEv_good (e : Ev) (s : Sys) (he : okEv e = true) (h : GoodIS s) :
    GoodIS (applyEv e s) := by
  cases e with
  | idle => exact GoodIS_congr s _ rfl rfl h
  | elapsed => exact h
  | key k =>
    have hk : -1 ≤ k ∧ k ≤ 0x10 := by simpa [okEv] using he
    exact And.intro hk h.2

theorem seg_delayFrom_good (evs : List Ev) :
    ∀ (s t : Sys), keyCodes evs → GoodIS s → delayFrom evs s = some t → Good t := by
  induction evs with
  | nil => intro s t _ _ h; simp [delayFrom] at h
  | cons e rest ih =>
    intro s t hk hg h
    cases e with
    | elapsed =>
      simp only [delayFrom, Option.some.injEq] at h
      subst h
      exact And.intro (keyCodes_tail hk) (GoodIS_congr s _ rfl rfl hg)
    | idle =>
      simp only [delayFrom] at h
      exact ih _ _ (keyCodes_tail hk) (seg_applyEv_good _ s (keyCodes_head hk) hg) h
    | key k =>
      simp only [delayFrom] at h
      exact ih _ _ (keyCodes_tail hk) (seg_applyEv_good _ s (keyCodes_head hk) hg) h

theorem seg_delay_good (s t : Sys) (hg : Good s) (h : delay s = some t) : Good t :=
  seg_delayFrom_good s.evs s t hg.1 hg.2 h

theorem seg_timer3Wait_good (s t : Sys) (hg : Good s) (h : timer3Wait s = some t) :
    Good t := by
  unfold timer3Wait at h
  split_ifs at h
  · obtain ⟨u, hu, rfl⟩ := Option.map_eq_some'.mp h
    exact Good_congr u _ rfl rfl rfl (seg_delayFrom_good s.evs s u hg.1 hg.2 hu)
  · simp only [Option.some.injEq] at h
    subst h
    exact hg

theorem seg_errRound_good (s t : Sys) (hg : Good s) (h : errRound s = some t) : Good t := by
  unfold errRound at h
  obtain ⟨u, hu, ht⟩ := Option.bind_eq_some.mp h
  exact seg_delay_good _ _
    (seg_timer3Wait_good _ _ (Good_congr s (setTimer3 500 s) rfl rfl rfl hg) hu) ht

theorem seg_err_good (s t : Sys) (hg : Good s) (h : err s = some t) : Good t := by
  unfold err at h
  obtain ⟨u4, h4, h5⟩ := Option.bind_eq_some.mp h
  obtain ⟨u3, h3, h4⟩ := Option.bind_eq_some.mp h4
  obtain ⟨u2, h2, h3⟩ := Option.bind_eq_some.mp h3
  obtain ⟨u1, h1, h2⟩ := Option.bind_eq_some.mp h2
  have g0 : Good { setError s with displayOff := 0 } := Good_congr s _ rfl rfl rfl hg
  exact seg_errRound_good _ _ (seg_errRound_good _ _ (seg_errRound_good _ _
    (seg_errRound_good _ _ (seg_errRound_good _ _ g0 h1) h2) h3) h4) h5

theorem seg_waitKeyDown_good (evs : List Ev) :
    ∀ (s t : Sys), keyCodes evs → GoodIS s → waitKeyDown evs s = some t → Good t := by
  induction evs with
  | nil =>
    intro s t hk hg h
    simp only [waitKeyDown] at h
    split_ifs at h
    simp only [Option.some.injEq] at h
    subst h
    exact And.intro hk (GoodIS_congr s _ rfl rfl hg)
  | cons e rest ih =>
    intro s t hk hg h
    simp only [waitKeyDown] at h
    split_ifs at h
    · exact ih _ _ (keyCodes_tail hk) (seg_applyEv_good e s (keyCodes_head hk) hg) h
    · simp only [Option.some.injEq] at h
      subst h
      exact And.intro hk (GoodIS_congr s _ rfl rfl hg)

theorem seg_succPIN_good (s t : Sys) (hg : Good s) (h : succPIN s = some t) : Good t := by
  unfold succPIN at h
  obtain ⟨u7, h7, rfl⟩ := Option.map_eq_some'.mp h
  obtain ⟨u6, h6, h7⟩ := Option.bind_eq_some.mp h7
  obtain ⟨u5, h5, rfl⟩ := Option.map_eq_some'.mp h6
  obtain ⟨u4, h4, h5⟩ := Option.bind_eq_some.mp h5
  obtain ⟨u3, h3, h4⟩ := Option.bind_eq_some.mp h4
  obtain ⟨u2, h2, h3⟩ := Option.bind_eq_some.mp h3
  obtain ⟨u1, h1, h2⟩ := Option.bind_eq_some.mp h2
  have g0 : Good (setTimer3 1000 { setPIN s with displayOff := 0 }) :=
    Good_congr s _ rfl rfl rfl hg
  have g1 := seg_timer3Wait_good _ _ g0 h1
  have g2 := seg_timer3Wait_good _ _ (Good_congr u1 (setTimer3 1000 u1) rfl rfl rfl g1) h2
  have g3 := seg_delay_good _ _ g2 h3
  have g4 := seg_timer3Wait_good _ _ (Good_congr u3 (setTimer3 500 u3) rfl rfl rfl g3) h4
  have g5 := seg_delay_good _ _ g4 h5
  have g6 : Good (setSuccess u5) := Good_congr u5 _ rfl rfl rfl g5
  have g7 := seg_waitKeyDown_good _ _ _ g6.1 g6.2 h7
  exact Good_congr u7 _ rfl rfl rfl g7

theorem okStore_append (l : List (Int × Int × Int)) (st : Int × Int × Int)
    (h : ∀ x ∈ l, okStore x) (hst : okStore st) : ∀ x ∈ l ++ [st], okStore x := by
  intro x hx
  rcases List.mem_append.mp hx with hl | hr
  · exact h x hl
  · rw [List.mem_singleton.mp hr]
    exact hst

/-- A call `fillPIN(index, changePIN)` with `index` from 0 on, or with `input = -1`, keeps
every recorded store inside its array and a digit. -/
theorem seg_fillPIN_good (index cp : Int) (s : Sys) (hg : Good s)
    (hi : 0 ≤ index ∨ s.input = -1) : Good (fillPIN index cp s).2 := by
  have hr := hg.2.1
  unfold fillPIN
  split_ifs with h1 h2 h3 h4 h5 h6 h7
  · exact hg
  · exact hg
  · exact hg
  · exact hg
  · exact And.intro hg.1 (And.intro hg.2.1 (okStore_append s.stores (1, index, 0) hg.2.2
      (by unfold okStore; dsimp only; omega)))
  · exact And.intro hg.1 (And.intro hg.2.1 (okStore_append s.stores (1, index, s.input)
      hg.2.2 (by unfold okStore; dsimp only; omega)))
  · exact And.intro hg.1 (And.intro hg.2.1 (okStore_append s.stores (0, index, 0) hg.2.2
      (by unfold okStore; dsimp only; omega)))
  · exact And.intro hg.1 (And.intro hg.2.1 (okStore_append s.stores (0, index, s.input)
      hg.2.2 (by unfold okStore; dsimp only; omega)))

/-- The two `if`s of the entry loop keep the invariant, and leave `index` at 0 or above,
when `index` is 0 or above, or when it is -1 with a key held, `next = 1` and `input = -1`
(the state in which the first pass of `enterCode` reaches them). -/
theorem seg_entryBody_good (cp next index errr : Int) (s : Sys) (hg : Good s)
    (hp : 0 ≤ index ∨ (index = -1 ∧ s.keypadClear = 0 ∧ next = 1 ∧ s.input = -1)) :
    Good (entryBody cp next index errr s).2.2.2 ∧
      0 ≤ (entryBody cp next index errr s).2.1 := by
  have hi : 0 ≤ index ∨ s.input = -1 := by
    rcases hp with h | ⟨_, _, _, h⟩
    · exact Or.inl h
    · exact Or.inr h
  unfold entryBody
  dsimp only
  split_ifs with h1 h2 h3
  · exact And.intro (seg_fillPIN_good index cp s hg hi) (by show 0 ≤ index + 1; omega)
  · refine And.intro hg ?_
    show 0 ≤ index
    rcases hp with h | ⟨_, hc, _, _⟩
    · exact h
    · rw [hc] at h1
      exact absurd h1 (by decide)
  · exact And.intro (seg_fillPIN_good index cp s hg hi) (by show 0 ≤ index + 1; omega)
  · refine And.intro hg ?_
    show 0 ≤ index
    rcases hp with h | ⟨_, hc, hn, _⟩
    · exact h
    · exact absurd (And.intro hc hn) h3

/-- The entry loop keeps the invariant, entered as described for its two `if`s. -/
theorem seg_entryLoop_good (cp : Int) (fuel : Nat) :
    ∀ (next index errr : Int) (s : Sys) (r : Int × Int × Int × Sys), Good s →
      (0 ≤ index ∨ (index = -1 ∧ s.keypadClear = 0 ∧ next = 1 ∧ s.input = -1)) →
      entryLoop cp fuel next index errr s = some r → Good r.2.2.2 := by
  induction fuel with
  | zero => intro next index errr s r _ _ h; simp [entryLoop] at h
  | succ f ih =>
    intro next index errr s r hg hp h
    rw [entryLoop] at h
    split_ifs at h with h1 h2
    · obtain ⟨g1, i1⟩ := seg_entryBody_good cp next index errr s hg hp
      exact ih _ _ _ _ _ g1 (Or.inl i1) h
    · cases hev : s.evs with
      | nil => simp [hev] at h
      | cons e rest =>
        simp only [hev] at h
        have hk : keyCodes (e :: rest) := by rw [← hev]; exact hg.1
        have g0 : Good (applyEv e { s with evs := rest }) := by
          refine And.intro ?_ (seg_applyEv_good e _ (keyCodes_head hk)
            (GoodIS_congr s _ rfl rfl hg.2))
          cases e <;> exact keyCodes_tail hk
        have i0 : 0 ≤ index := by
          rcases hp with h0 | ⟨_, hc, hn, _⟩
          · exact h0
          · exact absurd (Or.inr (And.intro hc hn)) h2
        obtain ⟨g1, i1⟩ := seg_entryBody_good cp next index errr _ g0 (Or.inl i0)
        exact ih _ _ _ _ _ g1 (Or.inl i1) h
    · simp only [Option.some.injEq] at h
      subst h
      exact hg

/-- The function `enterCode` keeps the invariant when its first pass starts with a key
held (`keypadClear = 0`). -/
theorem seg_enterCodeLoop_good (cp : Int) (fuel : Nat) :
    ∀ (strt next : Int) (s : Sys) (r : Int) (t : Sys), Good s →
      (strt = 1 → s.keypadClear = 0 ∧ next = 1) →
      enterCodeLoop cp fuel strt next s = some (r, t) → Good t := by
  induction fuel with
  | zero => intro strt next s r t _ _ h; simp [enterCodeLoop] at h
  | succ f ih =>
    intro strt next s r t hg hs h
    rw [enterCodeLoop] at h
    cases hl : entryLoop cp f next (if strt = 1 then -1 else 0) 0
        (enableTimer1Blink500
          (if cp = 1 then setEnterCode { s with input := -1 }
           else setEnterPIN { s with input := -1 })) with
    | none => simp [hl] at h
    | some q =>
      obtain ⟨next1, index1, errr, s3⟩ := q
      simp only [hl] at h
      have g0 : Good (enableTimer1Blink500
          (if cp = 1 then setEnterCode { s with input := -1 }
           else setEnterPIN { s with input := -1 })) := by
        split_ifs
        · exact Good_congr _ _ rfl rfl rfl (Good_clearInput s hg)
        · exact Good_congr _ _ rfl rfl rfl (Good_clearInput s hg)
      have p0 : 0 ≤ (if strt = 1 then (-1 : Int) else 0) ∨
          ((if strt = 1 then (-1 : Int) else 0) = -1 ∧
            (enableTimer1Blink500
              (if cp = 1 then setEnterCode { s with input := -1 }
               else setEnterPIN { s with input := -1 })).keypadClear = 0 ∧ next = 1 ∧
            (enableTimer1Blink500
              (if cp = 1 then setEnterCode { s with input := -1 }
               else setEnterPIN { s with input := -1 })).input = -1) := by
        by_cases h1 : strt = 1
        · right
          obtain ⟨hc, hn⟩ := hs h1
          refine ⟨by rw [if_pos h1], ?_, hn, ?_⟩
          · split_ifs <;> exact hc
          · split_ifs <;> rfl
        · left
          rw [if_neg h1]
      have g3 : Good s3 := seg_entryLoop_good cp f _ _ _ _ _ g0 p0 hl
      have g4 : Good (disableTimer1 s3) := Good_congr s3 _ rfl rfl rfl g3
      generalize (if index1 ≠ 5 then (1 : Int) else errr) = e1 at h
      by_cases he : e1 ≠ 0
      · rw [if_pos he] at h
        cases hr : err (disableTimer1 s3) with
        | none => simp [hr] at h
        | some s5 =>
          simp only [hr] at h
          have g5 := seg_err_good _ _ g4 hr
          by_cases hc : cp = 0
          · rw [if_pos hc] at h
            simp only [Option.some.injEq, Prod.mk.injEq] at h
            obtain ⟨_, rfl⟩ := h
            exact g5
          · rw [if_neg hc] at h
            exact ih _ _ _ _ _ g5 (fun h01 => absurd h01 (by decide)) h
      · rw [if_neg he] at h
        obtain ⟨u, hu, huv⟩ := Option.map_eq_some'.mp h
        simp only [Prod.mk.injEq] at huv
        obtain ⟨_, rfl⟩ := huv
        exact seg_succPIN_good _ _ g4 hu

/-- The waiting loop of `start` is left on the tick that delivers key A or C, with that key
held. -/
theorem seg_startWait_good (evs : List Ev) :
    ∀ (s t : Sys), keyCodes evs → GoodIS s →
      (s.input = 0xA ∨ s.input = 0xC → s.keypadClear = 0) →
      startWait evs s = some t → Good t ∧ t.keypadClear = 0 := by
  induction evs with
  | nil =>
    intro s t hk hg hc h
    simp only [startWait] at h
    split_ifs at h with hac
    simp only [Option.some.injEq] at h
    subst h
    exact And.intro (And.intro hk (GoodIS_congr s _ rfl rfl hg)) (hc hac)
  | cons e rest ih =>
    intro s t hk hg hc h
    simp only [startWait] at h
    split_ifs at h with hac
    · simp only [Option.some.injEq] at h
      subst h
      exact And.intro (And.intro hk (GoodIS_congr s _ rfl rfl hg)) (hc hac)
    · refine ih _ _ (keyCodes_tail hk) (seg_applyEv_good e s (keyCodes_head hk) hg) ?_ h
      cases e with
      | idle => intro h2; exact absurd h2 hac
      | elapsed => intro h2; exact absurd h2 hac
      | key k => intro _; rfl

theorem seg_start_good (fuel : Nat) (s t : Sys) (hg : Good s)
    (hc : s.input = 0xA ∨ s.input = 0xC → s.keypadClear = 0)
    (h : start fuel s = some t) : Good t := by
  unfold start at h
  cases hw : startWait s.evs (enableTimer1Blink500 (setStart s)) with
  | none => simp [hw] at h
  | some s1 =>
    simp only [hw] at h
    obtain ⟨q, hq, rfl⟩ := Option.map_eq_some'.mp h
    obtain ⟨r, u⟩ := q
    obtain ⟨g1, c1⟩ := seg_startWait_good s.evs (enableTimer1Blink500 (setStart s)) s1 hg.1
      (GoodIS_congr s _ rfl rfl hg.2) hc hw
    exact seg_enterCodeLoop_good 1 fuel 1 1 (disableTimer1 s1) r u
      (Good_congr s1 _ rfl rfl rfl g1) (fun _ => And.intro c1 rfl) hq

theorem seg_enAlarm_good (fuel : Nat) (s t : Sys) (hg : Good s) (hc : s.keypadClear = 0)
    (h : enAlarm fuel s = some t) : Good t := by
  unfold enAlarm at h
  split_ifs at h with hp
  · simp only [Option.some.injEq] at h
    subst h
    exact Good_congr s _ rfl rfl rfl hg
  · obtain ⟨q, hq, rfl⟩ := Option.map_eq_some'.mp h
    obtain ⟨r, u⟩ := q
    exact seg_enterCodeLoop_good 1 fuel 1 1 s r u hg (fun _ => And.intro hc rfl) hq

theorem seg_disAlarm_good (fuel : Nat) (s t : Sys) (hg : Good s) (hc : s.keypadClear = 0)
    (h : disAlarm fuel s = some t) : Good t := by
  unfold disAlarm at h
  split_ifs at h with hz
  · obtain ⟨v, hv, rfl⟩ := Option.map_eq_some'.mp h
    exact Good_congr v _ rfl rfl rfl (seg_err_good _ _ hg hv)
  · cases he : enterCode 0 fuel s with
    | none => simp [he] at h
    | some q =>
      obtain ⟨ex, s1⟩ := q
      simp only [he] at h
      have g1 : Good s1 :=
        seg_enterCodeLoop_good 0 fuel 1 1 s ex s1 hg (fun _ => And.intro hc rfl) he
      split_ifs at h with hex hmm
      · simp only [Option.some.injEq] at h
        subst h
        exact Good_congr s1 _ rfl rfl rfl g1
      · obtain ⟨v, hv, rfl⟩ := Option.map_eq_some'.mp h
        exact Good_congr v _ rfl rfl rfl (seg_err_good _ _ g1 hv)
      · simp only [Option.some.injEq] at h
        subst h
        exact Good_congr s1 _ rfl rfl rfl g1

/-- One call of `selection`, made with a key held whenever `input` is A, C or D, keeps the
invariant and leaves `input` different from A, C and D. -/
theorem seg_selection_good (fuel : Nat) (s t : Sys) (hg : Good s)
    (hc : s.input = 0xA ∨ s.input = 0xC ∨ s.input = 0xD → s.keypadClear = 0)
    (h : selection fuel s = some t) :
    Good t ∧ t.input ≠ 0xA ∧ t.input ≠ 0xC ∧ t.input ≠ 0xD := by
  unfold selection at h
  split_ifs at h with h0 hC hA hD
  · obtain ⟨u, hu, rfl⟩ := Option.map_eq_some'.mp h
    have gu := seg_start_good fuel s u hg
      (fun hac => hc (by rcases hac with h1 | h1; exact Or.inl h1; exact Or.inr (Or.inl h1)))
      hu
    exact And.intro (Good_clearInput u gu) (cleared_ne u)
  · obtain ⟨q, hq, rfl⟩ := Option.map_eq_some'.mp h
    obtain ⟨r, u⟩ := q
    have gu := seg_enterCodeLoop_good 1 fuel 1 1 s r u hg
      (fun _ => And.intro (hc (Or.inr (Or.inl hC))) rfl) hq
    exact And.intro (Good_clearInput u gu) (cleared_ne u)
  · obtain ⟨u, hu, rfl⟩ := Option.map_eq_some'.mp h
    have gu := seg_enAlarm_good fuel s u hg (hc (Or.inl hA)) hu
    exact And.intro (Good_clearInput u gu) (cleared_ne u)
  · obtain ⟨u, hu, rfl⟩ := Option.map_eq_some'.mp h
    have gu := seg_disAlarm_good fuel s u hg (hc (Or.inr (Or.inr hD))) hu
    exact And.intro (Good_clearInput u gu) (cleared_ne u)
  · simp only [Option.some.injEq] at h
    subst h
    exact ⟨hg, hA, hC, hD⟩

/-- After a keypad tick at the top of the main loop, `input` is A, C or D only with that
key held. -/
theorem seg_tick_good (s : Sys) (hg : Good s)
    (hn : s.input ≠ 0xA ∧ s.input ≠ 0xC ∧ s.input ≠ 0xD) :
    Good (tick s) ∧
      ((tick s).input = 0xA ∨ (tick s).input = 0xC ∨ (tick s).input = 0xD →
        (tick s).keypadClear = 0) := by
  unfold tick
  cases hev : s.evs with
  | nil =>
    refine And.intro hg ?_
    intro h
    rcases h with h | h | h
    · exact absurd h hn.1
    · exact absurd h hn.2.1
    · exact absurd h hn.2.2
  | cons e rest =>
    have hk : keyCodes (e :: rest) := by rw [← hev]; exact hg.1
    have g0 : Good (applyEv e { s with evs := rest }) := by
      refine And.intro ?_ (seg_applyEv_good e _ (keyCodes_head hk)
        (GoodIS_congr s _ rfl rfl hg.2))
      cases e <;> exact keyCodes_tail hk
    refine And.intro g0 ?_
    cases e with
    | key k => intro _; rfl
    | idle =>
      intro h
      rcases h with h | h | h
      · exact absurd h hn.1
      · exact absurd h hn.2.1
      · exact absurd h hn.2.2
    | elapsed =>
      intro h
      rcases h with h | h | h
      · exact absurd h hn.1
      · exact absurd h hn.2.1
      · exact absurd h hn.2.2

/-- At the top of the main loop the invariant holds and `input` is none of A, C, D. -/
theorem seg_looped_good (s : Sys) (h : Looped s) :
    Good s ∧ s.input ≠ 0xA ∧ s.input ≠ 0xC ∧ s.input ≠ 0xD := by
  induction h with
  | start evs hk =>
    refine ⟨And.intro hk (And.intro
      (And.intro (show (-1 : Int) ≤ 0 by decide) (show (0 : Int) ≤ 0x10 by decide)) ?_),
      show (0 : Int) ≠ 0xA by decide, show (0 : Int) ≠ 0xC by decide,
      show (0 : Int) ≠ 0xD by decide⟩
    intro st hst
    exact absurd hst (List.not_mem_nil st)
  | poll fuel s t _ hstep ih =>
    exact seg_selection_good fuel s t ih.1
      (fun h => by
        rcases h with h | h | h
        · exact absurd h ih.2.1
        · exact absurd h ih.2.2.1
        · exact absurd h ih.2.2.2) hstep
  | step fuel s t _ hstep ih =>
    obtain ⟨g, c⟩ := seg_tick_good s ih.1 ih.2
    exact seg_selection_good fuel (tick s) t g c hstep

/-- The state a call of `selection` after a keypad tick leads to is again one at the top
of the main loop. -/
theorem seg_looped_sysOf (fuel : Nat) (s : Sys) (h : Looped s) :
    Looped (sysOf (selection fuel (tick s)) (init [])) := by
  cases hs : selection fuel (tick s) with
  | none => exact Looped.start [] (fun e he => absurd he (List.not_mem_nil e))
  | some t => exact Looped.step fuel s t h hs

/-- C30 (7-segment variant, `fillPIN`): in every state at the top of the main loop, reached
from reset by `selection()` calls with at most one keypad tick between two of them and any
key codes, every store `fillPIN` has made into `pin` or `unlockPIN` has its index in 0..3
and its value in 0..9.  For a single call: with `index` from 0 on and -1 or a key code in
`input`, the call records at most one more store, with index in 0..3 and value in 0..9
(key code 0x10 stored as 0); with `index = -1`, as on the first call of a first pass, it
stores nothing when `input` is -1 or one of the codes 0xA to 0xF, which is what the first
pass of `enterCode` finds, the key that started it being held. -/
theorem seg_fillPIN_stores_in_bounds :
    (∀ s : Sys, Looped s → ∀ a i v : Int, (a, i, v) ∈ s.stores →
      0 ≤ i ∧ i ≤ 3 ∧ 0 ≤ v ∧ v ≤ 9) ∧
    (∀ (index cp : Int) (s : Sys), 0 ≤ index → -1 ≤ s.input → s.input ≤ 0x10 →
      ∀ a i v : Int, (a, i, v) ∈ (fillPIN index cp s).2.stores →
        (a, i, v) ∈ s.stores ∨ (0 ≤ i ∧ i ≤ 3 ∧ 0 ≤ v ∧ v ≤ 9)) ∧
    (∀ (cp : Int) (s : Sys), s.input = -1 ∨ (0xA ≤ s.input ∧ s.input ≤ 0xF) →
      (fillPIN (-1) cp s).2.stores = s.stores) ∧
    (∀ (cp : Int) (fuel : Nat) (s : Sys), s.keypadClear = 0 → s.input = -1 →
      entryLoop cp (fuel + 1) 1 (-1) 0 s = entryLoop cp fuel 0 0 0 s) := by
  refine ⟨?_, ?_, ?_, ?_⟩
  · intro s hs a i v hm
    exact (seg_looped_good s hs).1.2.2 (a, i, v) hm
  · intro index cp s hi h1 h2 a i v hm
    unfold fillPIN at hm
    split_ifs at hm with c1 c2 c3 c4 c5 c6 c7
    · exact Or.inl hm
    · exact Or.inl hm
    · exact Or.inl hm
    · exact Or.inl hm
    all_goals
      rcases List.mem_append.mp hm with hl | hr
      · exact Or.inl hl
      · right
        have hq := List.mem_singleton.mp hr
        simp only [Prod.mk.injEq] at hq
        obtain ⟨_, rfl, rfl⟩ := hq
        omega
  · intro cp s hin
    unfold fillPIN
    split_ifs with c1 c2 c3 c4 c5 c6 c7
    · rfl
    · rfl
    · rfl
    · rfl
    all_goals exfalso; omega
  · intro cp fuel s hc hin
    have h1 : s.input ≠ 0xE := by rw [hin]; decide
    have h2 : (s.keypadClear = 1 ∧ (1 : Int) ≠ 1) ∨ (s.keypadClear = 0 ∧ (1 : Int) = 1) :=
      Or.inr ⟨hc, rfl⟩
    have h3 : ¬ (s.keypadClear = 1) := by rw [hc]; decide
    rw [entryLoop, if_pos h1, if_pos h2]
    simp only [entryBody, fillPIN, hin, hc, h3, if_true, if_false, and_self]
    rfl

/-- Witness for C30: the state of `sessionChange` after the PIN 1234 has been set and
changed to 5078; the store of the digit 8 at index 3 of `pin` is recorded; a call
`fillPIN(2, 1)` with key 7; a call `fillPIN(-1, 1)` with key C held; the first iteration of a
first pass. -/
theorem seg_fillPIN_stores_in_bounds_witness :
    ((1, 3, 8) ∈ afterChange.stores ∧ (0 : Int) ≤ 3 ∧ (3 : Int) ≤ 3 ∧ (0 : Int) ≤ 8 ∧
      (8 : Int) ≤ 9) ∧
    ((1, 2, 7) ∈ (fillPIN 2 1 { init [] with input := 7 }).2.stores ∧
      ((1, 2, 7) ∈ ({ init [] with input := 7 } : Sys).stores ∨
        ((0 : Int) ≤ 2 ∧ (2 : Int) ≤ 3 ∧ (0 : Int) ≤ 7 ∧ (7 : Int) ≤ 9))) ∧
    (fillPIN (-1) 1 { init [] with input := 0xC }).2.stores =
      ({ init [] with input := 0xC } : Sys).stores ∧
    entryLoop 1 (0 + 1) 1 (-1) 0 { init [] with input := -1, keypadClear := 0 } =
      entryLoop 1 0 0 0 0 { init [] with input := -1, keypadClear := 0 } :=
  ⟨⟨by decide, seg_fillPIN_stores_in_bounds.1 afterChange
      (seg_looped_sysOf 40 _ (seg_looped_sysOf 40 _ (seg_looped_sysOf 40 _
        (Looped.poll 40 (init sessionChange) _ (Looped.start sessionChange (by decide))
          (by rfl))))) 1 3 8 (by decide)⟩,
   ⟨by decide, seg_fillPIN_stores_in_bounds.2.1 2 1 { init [] with input := 7 } (by decide)
      (by decide) (by decide) 1 2 7 (by decide)⟩,
   seg_fillPIN_stores_in_bounds.2.2.1 1 { init [] with input := 0xC }
     (Or.inr ⟨by decide, by decide⟩),
   seg_fillPIN_stores_in_bounds.2.2.2 1 0 { init [] with input := -1, keypadClear := 0 }
     rfl rfl⟩

end Seg
